import Mathlib

/-!
# railpack core: a shallow embedding of the orchestrator and its builders

The definitions follow `core/core.go`, `core/generate/deploy_builder.go` and
`core/providers/provider.go`.  Go pointers that the code compares with `nil` are
`Option`s, Go maps are association lists, Go errors are values of `GoError`, and
a run of a Go function ends in a returned value, a returned error or a run-time
panic (`Outcome`).
-/

namespace Railpack

/-! ## Errors and outcomes -/

/-- Go error values: a plain error with its message, or an error built by
`fmt.Errorf` with the `%w` verb, which keeps its own message and the error it wraps. -/
inductive GoError where
  | base (msg : String)
  | wrap (msg : String) (inner : GoError)
deriving DecidableEq, Repr

/-- The method `Error()` of a Go error: its message. -/
def GoError.Error : GoError → String
  | .base m => m
  | .wrap m _ => m

/-- The method `Unwrap()` of a Go error: the wrapped error, if any. -/
def GoError.Unwrap : GoError → Option GoError
  | .base _ => none
  | .wrap _ inner => some inner

/-- The call `fmt.Errorf(pre + "%w", err)`: the message is `pre` followed by the
message of `err`, and the new error wraps `err`. -/
def Errorf (pre : String) (err : GoError) : GoError :=
  .wrap (pre ++ err.Error) err

/-- How a call of a Go function with result type `(T, error)` ends: it returns
a value and a nil error, it returns a nil value and an error, or it panics. -/
inductive Outcome (α : Type) where
  | ok (value : α)
  | error (err : GoError)
  | panic
deriving DecidableEq, Repr

/-! ## Go maps with string keys -/

/-- A Go `map[string]T`: an association list with at most one entry per key
(kept by `GoMap.set`). -/
abbrev GoMap (α : Type) := List (String × α)

/-- The lookup `m[k]` with its presence flag. -/
def GoMap.get {α : Type} (m : GoMap α) (k : String) : Option α :=
  match m with
  | [] => none
  | (k', v) :: rest => if k' = k then some v else GoMap.get rest k

/-- The assignment `m[k] = v`: replaces the entry of `k` or adds one. -/
def GoMap.set {α : Type} (m : GoMap α) (k : String) (v : α) : GoMap α :=
  match m with
  | [] => [(k, v)]
  | (k', v') :: rest => if k' = k then (k, v) :: rest else (k', v') :: GoMap.set rest k v

/-- The keys of a map, in the order of its entries. -/
def GoMap.keys {α : Type} (m : GoMap α) : List String := m.map (fun kv => kv.1)

/-! ## Plan model (`core/plan`) -/

/-- Modelled from the spec: the `Input` variants of the plan model (package
`core/plan`): an image, the result of a step with its
optional projections, or the local source tree. -/
inductive Input where
  | Image (ref : String)
  | Step (name : String) (Include : Option (List String)) (Exclude : Option (List String))
  | Local (path : String)
deriving DecidableEq, Repr

/-- Modelled from the spec: the `Deploy` record of the plan model,
`{inputs, start_cmd, variables, paths, apt_packages}`.  A field that a Go struct
literal does not mention holds its zero value (no entries). -/
structure Deploy where
  Inputs : List Input := []
  StartCmd : String := ""
  Variables : GoMap String := []
  Paths : List String := []
  AptPackages : List String := []
deriving DecidableEq, Repr

/-- Modelled from the spec: the `Command` variants of the plan model. -/
inductive Command where
  | Exec (cmd : String) (customName : String) (caches : List String)
  | ExecShell (cmd : String) (customName : String)
  | Copy (src : String) (dest : Option String) (image : Option String)
  | File (path : String) (assetKey : String) (mode : Option Nat) (customName : String)
  | Path (value : String)
  | Variable (key : String) (value : String)
deriving DecidableEq, Repr

/-- The options struct `plan.ExecOptions`, of which the code sets `CustomName`
and `Caches`. -/
structure ExecOptions where
  CustomName : String := ""
  Caches : List String := []
deriving DecidableEq, Repr

/-- Modelled from the spec: `plan.NewCopyCommand(src)`, the command `Copy(src)`. -/
def NewCopyCommand (src : String) : Command := .Copy src none none

/-- Modelled from the spec: `plan.NewExecShellCommand(cmd, options)`, the command
`ExecShell` of `cmd` carrying the custom name of the options. -/
def NewExecShellCommand (cmd : String) (options : ExecOptions) : Command :=
  .ExecShell cmd options.CustomName

/-! ## Config model (`core/config`) -/

/-- Modelled from the spec: the per-step part of a config; of its fields the
orchestrator sets `Commands`. -/
structure StepConfig where
  Name : String
  Commands : List Command := []
deriving DecidableEq, Repr

/-- Modelled from the spec: the deploy part of a config. -/
structure DeployConfig where
  StartCmd : String := ""
  Variables : GoMap String := []
  Paths : List String := []
  Inputs : List Input := []
  AptPackages : List String := []
deriving DecidableEq, Repr

/-- Modelled from the spec: the `Config` record.  `Providers` is a pointer to a
list in the code (`config.Providers == nil`), hence an `Option`. -/
structure Config where
  Providers : Option (List String) := none
  Packages : GoMap String := []
  AptPackages : List String := []
  BuildAptPackages : List String := []
  Steps : GoMap StepConfig := []
  Deploy : DeployConfig := {}
  Secrets : List String := []
deriving DecidableEq, Repr

/-- Modelled from the spec: `config.EmptyConfig()`, the config with no field set. -/
def EmptyConfig : Config := {}

/-- Modelled from the spec: `Config.GetOrCreateStep(name)` returns the step
config registered under `name`, registering an empty one first when there is
none.  The Go method returns a pointer into the config; here the config with
the step registered is returned next to the step. -/
def Config.GetOrCreateStep (c : Config) (name : String) : Config × StepConfig :=
  match c.Steps.get name with
  | some s => (c, s)
  | none =>
    let s : StepConfig := { Name := name }
    ({ c with Steps := c.Steps.set name s }, s)

/-- The write `step.Commands = cmds` through the pointer returned by
`GetOrCreateStep(name)`. -/
def Config.setStepCommands (c : Config) (name : String) (cmds : List Command) : Config :=
  let (c1, s) := c.GetOrCreateStep name
  { c1 with Steps := c1.Steps.set name { s with Commands := cmds } }

/-- Modelled from the spec: key-wise merge of two maps, the later value wins per key. -/
def mergeMaps {α : Type} (earlier later : GoMap α) : GoMap α :=
  later.foldl (fun m kv => m.set kv.1 kv.2) earlier

/-- Modelled from the spec: stable dedup of a list, the first occurrence of each
element stays in place. -/
def stableDedup : List String → List String
  | [] => []
  | x :: xs => x :: (stableDedup xs).filter (fun y => y ≠ x)

/-- Modelled from the spec: merge of two step configs registered under one name,
field by field; the later non-empty name replaces, commands are appended (later
after earlier). -/
def mergeStepConfig (earlier later : StepConfig) : StepConfig :=
  { Name := if later.Name ≠ "" then later.Name else earlier.Name
    Commands := earlier.Commands ++ later.Commands }

/-- Modelled from the spec: key-wise merge of the step maps; a step present in
both is merged field by field. -/
def mergeSteps (earlier later : GoMap StepConfig) : GoMap StepConfig :=
  later.foldl
    (fun m kv =>
      match m.get kv.1 with
      | some s => m.set kv.1 (mergeStepConfig s kv.2)
      | none => m.set kv.1 kv.2)
    earlier

/-- Modelled from the spec: merge of two deploy configs (section 4.6). -/
def mergeDeployConfig (earlier later : DeployConfig) : DeployConfig :=
  { StartCmd := if later.StartCmd ≠ "" then later.StartCmd else earlier.StartCmd
    Variables := mergeMaps earlier.Variables later.Variables
    Paths := stableDedup (earlier.Paths ++ later.Paths)
    Inputs := if later.Inputs ≠ [] then later.Inputs else earlier.Inputs
    AptPackages := stableDedup (earlier.AptPackages ++ later.AptPackages) }

/-- Modelled from the spec: merge of two configs by the rules of section 4.6,
`later` having precedence. -/
def mergeConfig (earlier later : Config) : Config :=
  { Providers := match later.Providers with
      | some ps => some ps
      | none => earlier.Providers
    Packages := mergeMaps earlier.Packages later.Packages
    AptPackages := stableDedup (earlier.AptPackages ++ later.AptPackages)
    BuildAptPackages := stableDedup (earlier.BuildAptPackages ++ later.BuildAptPackages)
    Steps := mergeSteps earlier.Steps later.Steps
    Deploy := mergeDeployConfig earlier.Deploy later.Deploy
    Secrets := stableDedup (earlier.Secrets ++ later.Secrets) }

/-- Modelled from the spec: `config.Merge(configs...)` (package `core/config`):
the sources are merged in precedence order, lowest first, highest last,
starting from the empty config. -/
def Merge (configs : List Config) : Config :=
  configs.foldl mergeConfig EmptyConfig

/-! ## App and environment (`core/app`) -/

/-- The struct `StaticfileConfig` of `staticfile.go`, the target into which the
file `Staticfile` is read. -/
structure StaticfileConfig where
  RootDir : String := ""
deriving DecidableEq, Repr

/-- A JSON value as `encoding/json` decodes it into an `interface{}`; a number
is kept as its text, an object as its entries in the order in which a `range`
over the Go map visits them. -/
inductive JsonValue where
  | null
  | bool (value : Bool)
  | number (text : String)
  | string (value : String)
  | array (items : List JsonValue)
  | object (entries : List (String × JsonValue))

/-- The operations of the external `App` that the orchestrator and the
providers consume: `HasMatch(glob)`; `ReadJSON(name, target)`, which fills
`target` from the JSON file or fails, for a target of type `Config` and, as
`ReadJSONMap`, for a target of type `map[string]interface{}`;
`ReadYAML(name, target)` for a target of type `StaticfileConfig` and, as
`ReadYAMLMap`, for a target of type `map[string]string`; `ReadFile(name)`;
`FindFiles(pattern)` and `FindDirectories(pattern)`.  An app given without the
reading operations has no file to read. -/
structure App where
  HasMatch : String → Bool
  ReadJSON : String → Config → Except GoError Config
  ReadJSONMap : String → Except GoError (GoMap JsonValue) :=
    fun _ => .error (.base "no such file")
  ReadYAML : String → Except GoError StaticfileConfig :=
    fun _ => .error (.base "no such file")
  ReadYAMLMap : String → Except GoError (GoMap String) :=
    fun _ => .error (.base "no such file")
  ReadFile : String → Except GoError String := fun _ => .error (.base "no such file")
  FindFiles : String → Except GoError (List String) := fun _ => .ok []
  FindDirectories : String → Except GoError (List String) := fun _ => .ok []

/-- Modelled from the spec: the environment, a mapping from names to strings
(listed in the order in which a `range` over the Go map visits it). -/
structure Environment where
  Variables : GoMap String
deriving DecidableEq, Repr

/-- Modelled from the spec: `get_config_variable(name)` is the value of
`RAILPACK_NAME`, the empty string when it is not set.  Every caller discards the
second result of the Go method. -/
def Environment.GetConfigVariable (e : Environment) (name : String) : String :=
  match e.Variables.get ("RAILPACK_" ++ name) with
  | some v => v
  | none => ""

/-- The function `strings.Split(s, sep)` for a separator of one character, on
the characters of the string. -/
def splitChars (sep : Char) : List Char → List (List Char)
  | [] => [[]]
  | c :: cs =>
    if c = sep then [] :: splitChars sep cs
    else
      match splitChars sep cs with
      | [] => [[c]]
      | w :: ws => (c :: w) :: ws

/-- The function `strings.Split(s, sep)` for a separator of one character. -/
def stringsSplit (s : String) (sep : Char) : List String :=
  (splitChars sep s.data).map String.mk

/-- The function `strings.Join(parts, sep)`. -/
def stringsJoin (parts : List String) (sep : String) : String :=
  sep.intercalate parts

/-! ## `core/core.go`: options and the three config sources -/

/-- The constant `defaultConfigFileName`. -/
def defaultConfigFileName : String := "railpack.json"

/-- The struct `GenerateBuildPlanOptions`; `PreviousVersions` is a map that the
code compares with `nil`. -/
structure GenerateBuildPlanOptions where
  BuildCommand : String := ""
  StartCommand : String := ""
  PreviousVersions : Option (GoMap String) := none
  ConfigFilePath : String := ""
deriving DecidableEq, Repr

/-- The function `GenerateConfigFromOptions`; it accepts a nil `options`. -/
def GenerateConfigFromOptions (options : Option GenerateBuildPlanOptions) : Config :=
  let config := EmptyConfig
  match options with
  | none => config
  | some o =>
    let config :=
      if o.BuildCommand ≠ "" then
        config.setStepCommands "build"
          [NewCopyCommand ".", NewExecShellCommand o.BuildCommand { CustomName := o.BuildCommand }]
      else config
    let config :=
      if o.StartCommand ≠ "" then
        { config with Deploy := { config.Deploy with StartCmd := o.StartCommand } }
      else config
    config

/-- The function `GenerateConfigFromEnvironment`; it accepts a nil `env`. -/
def GenerateConfigFromEnvironment (_app : App) (env : Option Environment) : Config :=
  let config := EmptyConfig
  match env with
  | none => config
  | some e =>
    let buildCmdVar := e.GetConfigVariable "BUILD_CMD"
    let config :=
      if buildCmdVar ≠ "" then
        config.setStepCommands "build"
          [NewCopyCommand ".", NewExecShellCommand buildCmdVar { CustomName := buildCmdVar }]
      else config
    let startCmdVar := e.GetConfigVariable "START_CMD"
    let config :=
      if startCmdVar ≠ "" then
        { config with Deploy := { config.Deploy with StartCmd := startCmdVar } }
      else config
    let envPackages := e.GetConfigVariable "PACKAGES"
    let config :=
      if envPackages ≠ "" then
        { config with
          Packages := (stringsSplit envPackages ' ').foldl (fun m pkg => m.set pkg "latest") [] }
      else config
    let envAptPackages := e.GetConfigVariable "APT_PACKAGES"
    let config :=
      if envAptPackages ≠ "" then
        { config with AptPackages := stringsSplit envAptPackages ' ' }
      else config
    { config with Secrets := e.Variables.foldl (fun secrets kv => secrets ++ [kv.1]) config.Secrets }

/-- The function `GenerateConfigFromFile`.  It reads `options.ConfigFilePath`
without a nil check, so a nil `options` panics; `env.GetConfigVariable` reads
the variables of its receiver, so a nil `env` panics there. -/
def GenerateConfigFromFile (app : App) (env : Option Environment)
    (options : Option GenerateBuildPlanOptions) : Outcome Config :=
  match options with
  | none => .panic
  | some o =>
    let configFileName := defaultConfigFileName
    let configFileName := if o.ConfigFilePath ≠ "" then o.ConfigFilePath else configFileName
    match env with
    | none => .panic
    | some e =>
      let envConfigFileName := e.GetConfigVariable "CONFIG_FILE"
      let configFileName := if envConfigFileName ≠ "" then envConfigFileName else configFileName
      if !app.HasMatch configFileName then
        .ok EmptyConfig
      else
        match app.ReadJSON configFileName EmptyConfig with
        | .error err => .error (Errorf "failed to read config file: " err)
        | .ok config => .ok config

/-- The function `GetConfig`: the options, environment and file configs, merged
in this order. -/
def GetConfig (app : App) (env : Option Environment)
    (options : Option GenerateBuildPlanOptions) : Outcome Config :=
  let optionsConfig := GenerateConfigFromOptions options
  let envConfig := GenerateConfigFromEnvironment app env
  match GenerateConfigFromFile app env options with
  | .panic => .panic
  | .error err => .error err
  | .ok fileConfig => .ok (Merge [optionsConfig, envConfig, fileConfig])

/-- Lines 123 to 130 of `GenerateConfigFromFile`: the config file name that is
looked up, for options and an environment at hand. -/
def chosenConfigFileName (e : Environment) (o : GenerateBuildPlanOptions) : String :=
  let configFileName := defaultConfigFileName
  let configFileName := if o.ConfigFilePath ≠ "" then o.ConfigFilePath else configFileName
  let envConfigFileName := e.GetConfigVariable "CONFIG_FILE"
  if envConfigFileName ≠ "" then envConfigFileName else configFileName

/-! ## `core/generate/deploy_builder.go` -/

/-- The struct `DeployBuilder`. -/
structure DeployBuilder where
  Inputs : List Input
  StartCmd : String
  Variables : GoMap String
  Paths : List String
  AptPackages : List String
deriving DecidableEq, Repr

/-- The constructor `NewDeployBuilder`. -/
def NewDeployBuilder : DeployBuilder :=
  { Inputs := [], StartCmd := "", Variables := [], Paths := [], AptPackages := [] }

/-- The method `DeployBuilder.Build`: the struct literal names `Inputs`,
`StartCmd`, `Variables` and `Paths`; `AptPackages` is not named and keeps its
zero value. -/
def DeployBuilder.Build (b : DeployBuilder) : Deploy :=
  { Inputs := b.Inputs
    StartCmd := b.StartCmd
    Variables := b.Variables
    Paths := b.Paths }

/-! ## Plan output (`core/plan`, `core/resolver`) -/

/-- Modelled from the spec: a `Step` of the build plan. -/
structure Step where
  Name : String
  Inputs : List Input := []
  Commands : List Command := []
  Assets : GoMap String := []
  Caches : List String := []
  Secrets : List String := []
  UseSecrets : Option Bool := none
  Variables : GoMap String := []
  DependsOn : List String := []
  Outputs : Option (List String) := none
deriving DecidableEq, Repr

/-- Modelled from the spec: a cache spec `{key, path}`. -/
structure CacheSpec where
  Key : String
  Path : String
deriving DecidableEq, Repr

/-- Modelled from the spec: the `BuildPlan`, `{steps, deploy, caches}`. -/
structure BuildPlan where
  Steps : GoMap Step := []
  Deploy : Deploy := {}
  Caches : GoMap CacheSpec := []
deriving DecidableEq, Repr

/-- Modelled from the spec: a `ResolvedPackage`,
`{name, requested_version, resolved_version?}`. -/
structure ResolvedPackage where
  Name : String
  RequestedVersion : String
  ResolvedVersion : Option String
deriving DecidableEq, Repr

/-! ## Generation context (`core/generate`) -/

/-- Modelled from the spec: the part of the `GenerateContext` that the
orchestrator reads and writes itself: the sub-context name stack, the metadata
string map, the deploy accumulator and the previous versions handed to the
resolver.  Everything else that providers may change (steps, resolver, caches,
their own fields) is the component `State`. -/
structure GenerateContext (σ : Type) where
  SubContexts : List String := []
  Metadata : GoMap String := []
  Deploy : DeployBuilder := NewDeployBuilder
  PreviousVersions : GoMap String := []
  State : σ

/-- Modelled from the spec: `enter_sub_context(name)` pushes `name`. -/
def GenerateContext.EnterSubContext {σ : Type} (c : GenerateContext σ) (name : String) :
    GenerateContext σ :=
  { c with SubContexts := c.SubContexts ++ [name] }

/-- Modelled from the spec: `exit_sub_context` pops the name pushed last. -/
def GenerateContext.ExitSubContext {σ : Type} (c : GenerateContext σ) : GenerateContext σ :=
  { c with SubContexts := c.SubContexts.dropLast }

/-- Modelled from the spec: `get_step_name(base)` is the stack's names, a colon
and `base` when the stack is non-empty, else `base`. -/
def GenerateContext.GetStepName {σ : Type} (c : GenerateContext σ) (base : String) : String :=
  match c.SubContexts with
  | [] => base
  | names => stringsJoin names ":" ++ ":" ++ base

/-- Modelled from the spec: `ctx.Metadata.Set(key, value)` on the metadata map. -/
def GenerateContext.SetMetadata {σ : Type} (c : GenerateContext σ) (key value : String) :
    GenerateContext σ :=
  { c with Metadata := c.Metadata.set key value }

/-- Modelled from the spec: `ctx.Resolver.SetPreviousVersion(name, version)`
records the hint for `name`. -/
def GenerateContext.SetPreviousVersion {σ : Type} (c : GenerateContext σ)
    (name version : String) : GenerateContext σ :=
  { c with PreviousVersions := c.PreviousVersions.set name version }

/-! ## `core/providers/provider.go` -/

/-- The interface `Provider`.  Each method receives the context by pointer, so
it returns the context it leaves behind next to its Go results; `Detect`
returns `(bool, error)`, `Initialize` and `Plan` return an `error` (none for
nil).  `StartCommandHelp` plays no part in plan generation. -/
structure Provider (σ : Type) where
  Name : String
  Detect : GenerateContext σ → GenerateContext σ × Bool × Option GoError
  Initialize : GenerateContext σ → GenerateContext σ × Option GoError
  Plan : GenerateContext σ → GenerateContext σ × Option GoError

/-- The function `GetProvider` over the list that `GetLanguageProviders`
returns: the first provider of that name, nil when there is none. -/
def GetProvider {σ : Type} (languageProviders : List (Provider σ)) (name : String) :
    Option (Provider σ) :=
  match languageProviders with
  | [] => none
  | provider :: rest => if provider.Name = name then some provider else GetProvider rest name

/-! ## `core/core.go`: provider selection and the orchestrator -/

/-- The calls that the orchestrator makes on its collaborators, in the order
in which it makes them (a record kept beside the run; it does not influence it).
`Plan` carries the sub-context stack with which the provider was called. -/
inductive Event where
  | Detect (provider : String)
  | Initialize (provider : String)
  | EnterSubContext (name : String)
  | Plan (provider : String) (subContexts : List String)
  | ExitSubContext
  | ProcfilePlan
  | ApplyConfig
  | Generate
deriving DecidableEq, Repr

/-- What `getProviders` leaves behind: the context, its two results and the
calls it made. -/
structure ProvidersResult (σ : Type) where
  ctx : GenerateContext σ
  providersToUse : List (Provider σ)
  detectedProviders : List String
  trace : List Event

/-- The first loop of `getProviders` (lines 217 to 238) from the provider
`provider :: rest` on.  A `Detect` error continues with the next provider; a
match appends the name to the detected list; with `config.Providers == nil` the
provider is initialized, a failure continues with the next provider (the
`continue` of line 231 skips the `break` of line 236), a success appends the
provider and breaks; with `config.Providers != nil` the loop breaks. -/
def detectLoop {σ : Type} (config : Config) :
    List (Provider σ) → GenerateContext σ → ProvidersResult σ
  | [], ctx => { ctx := ctx, providersToUse := [], detectedProviders := [], trace := [] }
  | provider :: rest, ctx =>
    let (ctx1, matched, err) := provider.Detect ctx
    match err with
    | some _ =>
      let r := detectLoop config rest ctx1
      { r with trace := .Detect provider.Name :: r.trace }
    | none =>
      if matched then
        match config.Providers with
        | none =>
          let (ctx2, initErr) := provider.Initialize ctx1
          match initErr with
          | some _ =>
            let r := detectLoop config rest ctx2
            { r with
              detectedProviders := provider.Name :: r.detectedProviders
              trace := .Detect provider.Name :: .Initialize provider.Name :: r.trace }
          | none =>
            { ctx := ctx2, providersToUse := [provider], detectedProviders := [provider.Name]
              trace := [.Detect provider.Name, .Initialize provider.Name] }
        | some _ =>
          { ctx := ctx1, providersToUse := [], detectedProviders := [provider.Name]
            trace := [.Detect provider.Name] }
      else
        let r := detectLoop config rest ctx1
        { r with trace := .Detect provider.Name :: r.trace }

/-- The second loop of `getProviders` (lines 241 to 253) over the names of
`*config.Providers`: an unknown name and a failing `Initialize` continue with
the next name, otherwise the provider is appended.  The result holds the
providers appended by this loop and the calls it made. -/
def namedLoop {σ : Type} (languageProviders : List (Provider σ)) :
    List String → GenerateContext σ → ProvidersResult σ
  | [], ctx => { ctx := ctx, providersToUse := [], detectedProviders := [], trace := [] }
  | providerName :: rest, ctx =>
    match GetProvider languageProviders providerName with
    | none => namedLoop languageProviders rest ctx
    | some provider =>
      let (ctx1, initErr) := provider.Initialize ctx
      let r := namedLoop languageProviders rest ctx1
      match initErr with
      | some _ => { r with trace := .Initialize provider.Name :: r.trace }
      | none =>
        { r with
          providersToUse := provider :: r.providersToUse
          trace := .Initialize provider.Name :: r.trace }

/-- The function `getProviders`, with the list of `GetLanguageProviders()` as
a parameter. -/
def getProviders {σ : Type} (languageProviders : List (Provider σ))
    (ctx : GenerateContext σ) (config : Config) : ProvidersResult σ :=
  let d := detectLoop config languageProviders ctx
  match config.Providers with
  | none => d
  | some names =>
    let n := namedLoop languageProviders names d.ctx
    { ctx := n.ctx
      providersToUse := d.providersToUse ++ n.providersToUse
      detectedProviders := d.detectedProviders
      trace := d.trace ++ n.trace }

/-- What the provider loop of `GenerateBuildPlan` leaves behind: the context,
the error it returned with (none when every plan succeeded) and its calls. -/
structure PlanLoopResult (σ : Type) where
  ctx : GenerateContext σ
  err : Option GoError
  trace : List Event

/-- The provider loop of `GenerateBuildPlan` (lines 63 to 77), at index `i` of
the use list with `provider :: rest` still to run. -/
def planLoop {σ : Type} (i : Nat) :
    List (Provider σ) → GenerateContext σ → PlanLoopResult σ
  | [], ctx => { ctx := ctx, err := none, trace := [] }
  | provider :: rest, ctx =>
    let ctx1 := if i > 0 then ctx.EnterSubContext provider.Name else ctx
    let enter := if i > 0 then [Event.EnterSubContext provider.Name] else []
    let (ctx2, err) := provider.Plan ctx1
    match err with
    | some e =>
      { ctx := ctx2
        err := some (Errorf "failed to run provider: " e)
        trace := enter ++ [.Plan provider.Name ctx1.SubContexts] }
    | none =>
      let ctx3 := if i > 0 then ctx2.ExitSubContext else ctx2
      let exit := if i > 0 then [Event.ExitSubContext] else []
      let r := planLoop (i + 1) rest ctx3
      { r with trace := enter ++ [.Plan provider.Name ctx1.SubContexts] ++ exit ++ r.trace }

/-- The struct `BuildResult`. -/
structure BuildResult where
  Plan : BuildPlan
  ResolvedPackages : GoMap ResolvedPackage
  Metadata : GoMap String
  DetectedProviders : List String
deriving DecidableEq, Repr

/-- The collaborators of `GenerateBuildPlan` that live outside `core/core.go`:
`generate.NewGenerateContext`, the list of `providers.GetLanguageProviders()`,
the `Plan` of the procfile provider (its first result is discarded), and the
context methods `ApplyConfig` and `Generate`. -/
structure Externals (σ : Type) where
  NewGenerateContext : App → Option Environment → Except GoError (GenerateContext σ)
  LanguageProviders : List (Provider σ)
  ProcfilePlan : GenerateContext σ → GenerateContext σ × Option GoError
  ApplyConfig : GenerateContext σ → Config → GenerateContext σ × Option GoError
  Generate : GenerateContext σ →
    GenerateContext σ × Except GoError (BuildPlan × GoMap ResolvedPackage)

/-- Lines 42 to 46 of `GenerateBuildPlan`: when `options.PreviousVersions` is
not nil, every entry is handed to the resolver. -/
def setPreviousVersions {σ : Type} (o : GenerateBuildPlanOptions) (ctx : GenerateContext σ) :
    GenerateContext σ :=
  match o.PreviousVersions with
  | none => ctx
  | some versions => versions.foldl (fun c kv => c.SetPreviousVersion kv.1 kv.2) ctx

/-- A run of `GenerateBuildPlan`: how it ended and the calls it made on
providers and context. -/
structure Run (α : Type) where
  outcome : Outcome α
  trace : List Event

/-- The function `GenerateBuildPlan`.  Line 42 reads `options.PreviousVersions`
without a nil check, so a nil `options` panics once the context is created. -/
def GenerateBuildPlan {σ : Type} (ext : Externals σ) (app : App) (env : Option Environment)
    (options : Option GenerateBuildPlanOptions) : Run BuildResult :=
  match ext.NewGenerateContext app env with
  | .error err => { outcome := .error err, trace := [] }
  | .ok ctx =>
    match options with
    | none => { outcome := .panic, trace := [] }
    | some o =>
      let ctx := setPreviousVersions o ctx
      match GetConfig app env options with
      | .panic => { outcome := .panic, trace := [] }
      | .error err => { outcome := .error err, trace := [] }
      | .ok config =>
        let r := getProviders ext.LanguageProviders ctx config
        let providerNames := r.providersToUse.map (fun provider => provider.Name)
        let ctx := r.ctx.SetMetadata "providers" (stringsJoin providerNames ",")
        let l := planLoop 0 r.providersToUse ctx
        match l.err with
        | some err => { outcome := .error err, trace := r.trace ++ l.trace }
        | none =>
          let (ctx, procfileErr) := ext.ProcfilePlan l.ctx
          match procfileErr with
          | some err =>
            { outcome := .error (Errorf "failed to run procfile provider: " err)
              trace := r.trace ++ l.trace ++ [.ProcfilePlan] }
          | none =>
            let (ctx, applyErr) := ext.ApplyConfig ctx config
            match applyErr with
            | some err =>
              { outcome := .error (Errorf "failed to apply config: " err)
                trace := r.trace ++ l.trace ++ [.ProcfilePlan, .ApplyConfig] }
            | none =>
              let (ctx, generated) := ext.Generate ctx
              match generated with
              | .error err =>
                { outcome := .error (Errorf "failed to generate build plan: " err)
                  trace := r.trace ++ l.trace ++ [.ProcfilePlan, .ApplyConfig, .Generate] }
              | .ok (buildPlan, resolvedPackages) =>
                { outcome := .ok
                    { Plan := buildPlan
                      ResolvedPackages := resolvedPackages
                      Metadata := ctx.Metadata
                      DetectedProviders := r.detectedProviders }
                  trace := r.trace ++ l.trace ++ [.ProcfilePlan, .ApplyConfig, .Generate] }

/-! ## Step builders (`core/generate`, `core/mise`) -/

/-- Modelled from the spec: a `PackageRef`, `{name}`. -/
structure PackageRef where
  Name : String
deriving DecidableEq, Repr

/-- The struct `plan.FileOptions`, of which the code sets `CustomName`. -/
structure FileOptions where
  CustomName : String := ""
deriving DecidableEq, Repr

/-- Modelled from the spec: `plan.NewStep(name)`, a step of that name with
nothing else set. -/
def NewStep (name : String) : Step := { Name := name }

/-- Modelled from the spec: `step.AddCommands(commands)` appends the commands. -/
def Step.AddCommands (step : Step) (commands : List Command) : Step :=
  { step with Commands := step.Commands ++ commands }

/-- Modelled from the spec: `plan.NewImageInput(image)`, the input `Image` of
that reference. -/
def NewImageInput (image : String) : Input := .Image image

/-- Modelled from the spec: `plan.NewVariableCommand(key, value)`. -/
def NewVariableCommand (key value : String) : Command := .Variable key value

/-- Modelled from the spec: `plan.NewExecCommand(cmd, options)`, the command
`Exec` of `cmd` with the custom name and the caches of the options. -/
def NewExecCommand (cmd : String) (options : ExecOptions) : Command :=
  .Exec cmd options.CustomName options.Caches

/-- Modelled from the spec: `plan.NewCopyCommand(src, dest)`, the call of
`NewCopyCommand` with a destination. -/
def NewCopyCommandTo (src dest : String) : Command := .Copy src (some dest) none

/-- Modelled from the spec: `plan.NewFileCommand(path, assetKey, options)`. -/
def NewFileCommand (path assetKey : String) (options : FileOptions) : Command :=
  .File path assetKey none options.CustomName

/-- Modelled from the spec: `plan.NewPathCommand(value)`. -/
def NewPathCommand (value : String) : Command := .Path value

/-- Modelled from the spec: the `BuildStepOptions` handed to `Build`: the
resolved-packages map, the cache registry, of which `Build` calls
`Caches.AddCache(key, path)` for the handle it returns, and the apt-install
helper `NewAptInstallCommand(packages)`. -/
structure BuildStepOptions where
  ResolvedPackages : GoMap ResolvedPackage
  AddCache : String → String → String
  NewAptInstallCommand : List String → Command

/-- The struct `ImageStepBuilder` of `image_step_builder.go`.  The `Resolver`
pointer is shared with the context and left out.  The struct declares no field
for apt packages. -/
structure ImageStepBuilder where
  DisplayName : String
  Packages : List PackageRef := []
  ResolveStepImage : BuildStepOptions → String

/-- The method `GenerateContext.NewImageStep`: the builder it returns (it also
appends the builder to the steps of the context). -/
def GenerateContext.NewImageStep {σ : Type} (c : GenerateContext σ) (name : String)
    (resolveStepImage : BuildStepOptions → String) : ImageStepBuilder :=
  { DisplayName := c.GetStepName name, ResolveStepImage := resolveStepImage }

/-- The method `ImageStepBuilder.Name`. -/
def ImageStepBuilder.Name (b : ImageStepBuilder) : String := b.DisplayName

/-- The method `ImageStepBuilder.Build`: a step of the display name with the
resolved image as its only input and an empty secrets list; it adds no command
and returns no error. -/
def ImageStepBuilder.Build (b : ImageStepBuilder) (options : BuildStepOptions) :
    Except GoError Step :=
  let step := NewStep b.DisplayName
  let image := b.ResolveStepImage options
  let step := { step with Inputs := [NewImageInput image] }
  let step := { step with Secrets := [] }
  .ok step

/-- The struct `MisePackage` of `mise.go`. -/
structure MisePackage where
  Version : String
deriving DecidableEq, Repr

/-- The struct `MiseConfig` of `mise.go`. -/
structure MiseConfig where
  Tools : GoMap MisePackage
deriving DecidableEq, Repr

/-- The function `GenerateMiseToml` of `mise.go`; `encode` stands for
`toml.NewEncoder(buf).Encode(config)` followed by `buf.String()`, of the TOML
library. -/
def GenerateMiseToml (encode : MiseConfig → Except GoError String) (packages : GoMap String) :
    Except GoError String :=
  let config : MiseConfig :=
    { Tools := packages.foldl (fun tools kv => tools.set kv.1 { Version := kv.2 }) [] }
  match encode config with
  | .error err => .error err
  | .ok text => .ok text

/-- The byte-wise order of Go strings, on the characters of two strings. -/
def charsLess : List Char → List Char → Bool
  | [], [] => false
  | [], _ :: _ => true
  | _ :: _, [] => false
  | a :: as, b :: bs =>
    if a.toNat < b.toNat then true
    else if b.toNat < a.toNat then false
    else charsLess as bs

/-- The order `a < b` of Go strings. -/
def stringLess (a b : String) : Bool := charsLess a.data b.data

/-- Insertion of a string into a list sorted in increasing order. -/
def insertSorted (s : String) : List String → List String
  | [] => [s]
  | t :: rest => if stringLess t s then t :: insertSorted s rest else s :: t :: rest

/-- The function `sort.Strings`: the strings in increasing order. -/
def sortStrings : List String → List String
  | [] => []
  | s :: rest => insertSorted s (sortStrings rest)

/-- The constant `MisePackageStepName`. -/
def MisePackageStepName : String := "packages:mise"

/-- The variable `miseConfigFiles`. -/
def miseConfigFiles : List String := ["mise.toml", ".python-version", ".nvmrc"]

/-- The struct `MiseStepBuilder`; `Outputs` is a pointer to a list.  The
`Resolver` pointer is shared with the context and left out, as is `env`,
which `Build` does not read. -/
structure MiseStepBuilder where
  DisplayName : String
  SupportingAptPackages : List String
  MisePackages : List PackageRef
  SupportingMiseFiles : List String := []
  Assets : GoMap String
  DependsOn : List String
  Outputs : Option (List String)
  app : App

/-- The method `GenerateContext.newMiseStepBuilder`: the builder it returns
for the app of the context (it also appends the builder to the steps of the
context). -/
def newMiseStepBuilder (app : App) : MiseStepBuilder :=
  { DisplayName := MisePackageStepName
    MisePackages := []
    SupportingAptPackages := []
    Assets := []
    DependsOn := []
    Outputs := some ["/mise/shims", "/mise/installs"]
    app := app }

/-- The method `MiseStepBuilder.AddSupportingAptPackage`. -/
def MiseStepBuilder.AddSupportingAptPackage (b : MiseStepBuilder) (name : String) :
    MiseStepBuilder :=
  { b with SupportingAptPackages := b.SupportingAptPackages ++ [name] }

/-- The method `MiseStepBuilder.Name`. -/
def MiseStepBuilder.Name (b : MiseStepBuilder) : String := b.DisplayName

/-- The method `MiseStepBuilder.GetSupportingMiseConfigFiles`; it does not
read its path argument. -/
def MiseStepBuilder.GetSupportingMiseConfigFiles (b : MiseStepBuilder) : List String :=
  miseConfigFiles.foldl (fun files file => if b.app.HasMatch file then files ++ [file] else files)
    []

/-- Lines 116 to 122 of `MiseStepBuilder.Build`: the map from the name of every
mise package that has a resolved version to that version. -/
def MiseStepBuilder.packagesToInstall (b : MiseStepBuilder) (options : BuildStepOptions) :
    GoMap String :=
  b.MisePackages.foldl
    (fun m pkg =>
      match options.ResolvedPackages.get pkg.Name with
      | some resolved =>
        match resolved.ResolvedVersion with
        | some version => m.set pkg.Name version
        | none => m
      | none => m)
    []

/-- Lines 150 to 168 of `MiseStepBuilder.Build`: a `Path` command for every
mise package that has a resolved version, then the assets, the outputs and the
secrets policy of the step. -/
def MiseStepBuilder.finishStep (b : MiseStepBuilder) (options : BuildStepOptions)
    (assets : GoMap String) (step : Step) : Step :=
  let step := b.MisePackages.foldl
    (fun step pkg =>
      match options.ResolvedPackages.get pkg.Name with
      | some resolved =>
        match resolved.ResolvedVersion with
        | some version =>
          step.AddCommands [NewPathCommand ("/mise/installs/" ++ pkg.Name ++ "/" ++ version ++ "/bin")]
        | none => step
      | none => step)
    step
  { step with Assets := assets, Outputs := b.Outputs, UseSecrets := some false }

/-- The method `MiseStepBuilder.Build`, with the TOML encoder of
`GenerateMiseToml` as a parameter.  The write `b.Assets["mise.toml"] = miseToml`
shows in the assets of the returned step. -/
def MiseStepBuilder.Build (encode : MiseConfig → Except GoError String) (b : MiseStepBuilder)
    (options : BuildStepOptions) : Except GoError Step :=
  let step := NewStep b.DisplayName
  if b.MisePackages.length = 0 then
    .ok step
  else
    let step := { step with DependsOn := b.DependsOn }
    let miseCache := options.AddCache "mise" "/mise/cache"
    let step := step.AddCommands
      [ NewVariableCommand "MISE_DATA_DIR" "/mise",
        NewVariableCommand "MISE_CONFIG_DIR" "/mise",
        NewVariableCommand "MISE_INSTALL_PATH" "/usr/local/bin/mise",
        NewVariableCommand "MISE_CACHE_DIR" "/mise/cache",
        options.NewAptInstallCommand ["curl", "ca-certificates", "git"],
        NewExecCommand "sh -c 'curl -fsSL https://mise.run | sh'"
          { CustomName := "install mise", Caches := [miseCache] } ]
    let supportingMiseConfigFiles := b.GetSupportingMiseConfigFiles
    let step := supportingMiseConfigFiles.foldl
      (fun step file => step.AddCommands [NewCopyCommandTo file ("/app/" ++ file)]) step
    let step :=
      if b.SupportingAptPackages.length > 0 then
        step.AddCommands [options.NewAptInstallCommand b.SupportingAptPackages]
      else step
    if b.MisePackages.length > 0 then
      let packagesToInstall := b.packagesToInstall options
      match GenerateMiseToml encode packagesToInstall with
      | .error err => .error (Errorf "failed to generate mise.toml: " err)
      | .ok miseToml =>
        let assets := b.Assets.set "mise.toml" miseToml
        let pkgNames := sortStrings (GoMap.keys packagesToInstall)
        let step := step.AddCommands
          [ NewFileCommand "/etc/mise/config.toml" "mise.toml"
              { CustomName := "create mise config" },
            NewExecCommand "sh -c 'mise trust -a && mise install'"
              { CustomName := "install mise packages: " ++ stringsJoin pkgNames ", "
                Caches := [miseCache] } ]
        .ok (b.finishStep options assets step)
    else
      .ok (b.finishStep options b.Assets step)

/-- The `Copy` commands for the user mise config files, in the words of the
build sequence: one per file of mise.toml, .python-version, .nvmrc that the app
has, in that order, copied to the same name under /app. -/
def miseCopyCommands (app : App) : List Command :=
  (["mise.toml", ".python-version", ".nvmrc"].filter (fun file => app.HasMatch file)).map
    (fun file => Command.Copy file (some ("/app/" ++ file)) none)

/-- The `Path` commands of the mise step, in the words of the build sequence:
for each mise package with a resolved version, in registration order, the path
/mise/installs/name/version/bin. -/
def misePathCommands (packages : List PackageRef) (options : BuildStepOptions) : List Command :=
  packages.filterMap (fun pkg =>
    ((options.ResolvedPackages.get pkg.Name).bind (fun resolved => resolved.ResolvedVersion)).map
      (fun version => Command.Path ("/mise/installs/" ++ pkg.Name ++ "/" ++ version ++ "/bin")))

/-! ## The use list that a list of provider names describes -/

/-- The use list of a list of provider names, in the words of the dispatch
algorithm: for each name in order, look the provider up, initialize it and
append it; a name that is not found and a provider whose `Initialize` fails are
skipped.  `NamedUse all ctx names use ctx1` relates the context before the
names are handled to the use list and the context after. -/
inductive NamedUse {σ : Type} (all : List (Provider σ)) :
    GenerateContext σ → List String → List (Provider σ) → GenerateContext σ → Prop where
  | done (ctx : GenerateContext σ) : NamedUse all ctx [] [] ctx
  | unknown {ctx ctx1 : GenerateContext σ} {name : String} {rest : List String}
      {use : List (Provider σ)} :
      GetProvider all name = none → NamedUse all ctx rest use ctx1 →
      NamedUse all ctx (name :: rest) use ctx1
  | initFails {ctx ctx1 : GenerateContext σ} {name : String} {rest : List String}
      {use : List (Provider σ)} {provider : Provider σ} {e : GoError} :
      GetProvider all name = some provider → (provider.Initialize ctx).2 = some e →
      NamedUse all (provider.Initialize ctx).1 rest use ctx1 →
      NamedUse all ctx (name :: rest) use ctx1
  | initOk {ctx ctx1 : GenerateContext σ} {name : String} {rest : List String}
      {use : List (Provider σ)} {provider : Provider σ} :
      GetProvider all name = some provider → (provider.Initialize ctx).2 = none →
      NamedUse all (provider.Initialize ctx).1 rest use ctx1 →
      NamedUse all ctx (name :: rest) (provider :: use) ctx1

/-- An event is a call of `Initialize`. -/
def Event.isInitialize : Event → Bool
  | .Initialize _ => true
  | _ => false

/-- An event is a call of `Detect`. -/
def Event.isDetect : Event → Bool
  | .Detect _ => true
  | _ => false

/-- An event is a call made by the provider loop: entering or leaving a
sub-context, or a `Plan` of a language provider. -/
def Event.isLoopCall : Event → Bool
  | .EnterSubContext _ => true
  | .Plan _ _ => true
  | .ExitSubContext => true
  | _ => false

/-- An event is a call made by `getProviders`: a `Detect` or an `Initialize`. -/
def Event.isSelectionCall : Event → Bool
  | .Detect _ => true
  | .Initialize _ => true
  | _ => false

/-- The names of the providers whose `Plan` was called, in call order. -/
def plannedProviders : List Event → List String
  | [] => []
  | .Plan name _ :: rest => name :: plannedProviders rest
  | _ :: rest => plannedProviders rest

/-- The sub-context stacks with which the `Plan`s were called, in call order. -/
def planStacks : List Event → List (List String)
  | [] => []
  | .Plan _ stack :: rest => stack :: planStacks rest
  | _ :: rest => planStacks rest

/-- The full step name that `GetStepName` gives to `base` under a sub-context
stack. -/
def stepNameUnder (stack : List String) (base : String) : String :=
  GenerateContext.GetStepName ({ SubContexts := stack, State := () } : GenerateContext Unit) base

/-- The calls of the provider loop in the words of the dispatch algorithm: the
first provider of the use list is planned as it is, with the stack `stack`;
every provider past the first is wrapped in `enter_sub_context(name)` and
`exit_sub_context`, and planned with its name pushed on `stack`.  `i` is the
index of the head of the list in the use list. -/
def wrappedPlanCalls {σ : Type} (stack : List String) : Nat → List (Provider σ) → List Event
  | _, [] => []
  | i, provider :: rest =>
    (if i > 0 then
      [Event.EnterSubContext provider.Name, Event.Plan provider.Name (stack ++ [provider.Name]),
        Event.ExitSubContext]
    else [Event.Plan provider.Name stack]) ++ wrappedPlanCalls stack (i + 1) rest

/-! ## The packages that a mise step installs -/

/-- The resolved version of a package name in the build options: the version
of its entry of the resolved-packages map, none when the name is missing from
the map or the entry has a null resolved version. -/
def resolvedVersion (options : BuildStepOptions) (name : String) : Option String :=
  (options.ResolvedPackages.get name).bind (fun resolved => resolved.ResolvedVersion)

/-- A command is a `Path` command. -/
def Command.isPath : Command → Bool
  | .Path _ => true
  | _ => false

/-- A command is a `File` command. -/
def Command.isFile : Command → Bool
  | .File _ _ _ _ => true
  | _ => false

/-- A command is an `Exec` command. -/
def Command.isExec : Command → Bool
  | .Exec _ _ _ => true
  | _ => false

/-- The asset key of a `File` command. -/
def Command.assetKey : Command → Option String
  | .File _ key _ _ => some key
  | _ => none

/-- Every `File` command of the step names an asset that the step holds. -/
def Step.fileAssetsPresent (step : Step) : Prop :=
  ∀ command ∈ step.Commands, ∀ key, command.assetKey = some key → (step.Assets.get key).isSome

/-- The order `a <= b` of Go strings: `b` is not less than `a`. -/
def stringLE (a b : String) : Prop := stringLess b a = false

instance stringLE_decidable : DecidableRel stringLE :=
  fun a b => inferInstanceAs (Decidable (stringLess b a = false))

/-- A TOML encoder that writes the tools table key by key in sorted key order:
`render` stands for the text that the TOML library writes for the tools and
their versions listed in that order. -/
def sortedKeyEncode (render : List (String × Option MisePackage) → Except GoError String)
    (config : MiseConfig) : Except GoError String :=
  render ((sortStrings config.Tools.keys).map (fun name => (name, config.Tools.get name)))

/-! ## `Default` on the step builders -/

/-- The method `MiseStepBuilder.Default`.  The resolver behind the `Resolver`
pointer of the builder is a state `resolver` of a type `ρ`, and
`resolverDefault` stands for its method `Default`, which returns the state
after the call and the package ref.  The result is the builder after the call,
the resolver after the call and the ref returned. -/
def MiseStepBuilder.Default {ρ : Type} (resolverDefault : ρ → String → String → ρ × PackageRef)
    (b : MiseStepBuilder) (resolver : ρ) (name defaultVersion : String) :
    MiseStepBuilder × ρ × PackageRef :=
  match b.MisePackages.find? (fun pkg => pkg.Name == name) with
  | some pkg => (b, resolver, pkg)
  | none =>
    let result := resolverDefault resolver name defaultVersion
    ({ b with MisePackages := b.MisePackages ++ [result.2] }, result.1, result.2)

/-- The method `ImageStepBuilder.Default`, with the resolver as for the mise
step builder. -/
def ImageStepBuilder.Default {ρ : Type} (resolverDefault : ρ → String → String → ρ × PackageRef)
    (b : ImageStepBuilder) (resolver : ρ) (name defaultVersion : String) :
    ImageStepBuilder × ρ × PackageRef :=
  match b.Packages.find? (fun pkg => pkg.Name == name) with
  | some pkg => (b, resolver, pkg)
  | none =>
    let result := resolverDefault resolver name defaultVersion
    ({ b with Packages := b.Packages ++ [result.2] }, result.1, result.2)

/-- A sequence of `Default` calls on a mise step builder, each given by a name
and a default version: the builder and the resolver after the calls. -/
def MiseStepBuilder.Defaults {ρ : Type} (resolverDefault : ρ → String → String → ρ × PackageRef)
    (b : MiseStepBuilder) (resolver : ρ) (calls : List (String × String)) : MiseStepBuilder × ρ :=
  calls.foldl
    (fun state call =>
      let result := state.1.Default resolverDefault state.2 call.1 call.2
      (result.1, result.2.1))
    (b, resolver)

/-- A sequence of `Default` calls on an image step builder. -/
def ImageStepBuilder.Defaults {ρ : Type} (resolverDefault : ρ → String → String → ρ × PackageRef)
    (b : ImageStepBuilder) (resolver : ρ) (calls : List (String × String)) :
    ImageStepBuilder × ρ :=
  calls.foldl
    (fun state call =>
      let result := state.1.Default resolverDefault state.2 call.1 call.2
      (result.1, result.2.1))
    (b, resolver)

/-! ## `core/mise/mise.go`: the latest version of a package -/

/-- The function `unicode.IsSpace`: the white space characters of Unicode. -/
def unicodeIsSpace (c : Char) : Bool :=
  c.toNat == 9 || c.toNat == 10 || c.toNat == 11 || c.toNat == 12 || c.toNat == 13 ||
    c.toNat == 32 || c.toNat == 0x85 || c.toNat == 0xA0 || c.toNat == 0x1680 ||
    (0x2000 ≤ c.toNat && c.toNat ≤ 0x200A) || c.toNat == 0x2028 || c.toNat == 0x2029 ||
    c.toNat == 0x202F || c.toNat == 0x205F || c.toNat == 0x3000

/-- The function `strings.TrimSpace`: the string without its leading and
trailing white space. -/
def stringsTrimSpace (s : String) : String :=
  String.mk ((s.data.dropWhile unicodeIsSpace).reverse.dropWhile unicodeIsSpace).reverse

/-- The method `Mise.GetLatestVersion`.  `runCmd` stands for the method
`Mise.runCmd`, which runs the mise binary with the arguments under a file lock
and returns its stdout, or an error when the lock or the command fails.  The
first component of the result is the list of the argument lists with which
`runCmd` was called. -/
def GetLatestVersion (runCmd : List String → Except GoError String) (pkg version : String) :
    List (List String) × Except GoError String :=
  let query := pkg ++ "@" ++ stringsTrimSpace version
  let calls := [["latest", "--verbose", query]]
  match runCmd ["latest", "--verbose", query] with
  | .error err => (calls, .error err)
  | .ok output =>
    let latestVersion := stringsTrimSpace output
    if latestVersion = "" then
      (calls, .error (.base ("failed to get latest version for " ++ query)))
    else
      (calls, .ok latestVersion)

/-! ## The context that providers plan in (`core/generate`) -/

/-- The method `Environment.GetVariable(name)`: the value of the variable, the
empty string when it is not set. -/
def Environment.GetVariable (e : Environment) (name : String) : String :=
  match e.Variables.get name with
  | some v => v
  | none => ""

/-- The struct `plan.InputOptions`. -/
structure InputOptions where
  Include : Option (List String) := none
  Exclude : Option (List String) := none
deriving DecidableEq, Repr

/-- Modelled from the spec: `plan.NewStepInput(name, options)`, the input
`Step` of that name with the projections of the options. -/
def NewStepInput (name : String) (options : InputOptions) : Input :=
  .Step name options.Include options.Exclude

/-- Modelled from the spec: `plan.NewLocalInput(path)`. -/
def NewLocalInput (path : String) : Input := .Local path

/-- The name of the step that a `Step` input names. -/
def Input.stepName : Input → Option String
  | .Step name _ _ => some name
  | _ => none

/-- Modelled from the spec: a version override of a package request,
`{version, source}`. -/
structure VersionOverride where
  Version : String
  Source : String
deriving DecidableEq, Repr

/-- Modelled from the spec: a `PackageRequest`: the default version, the
overrides in the order in which they were recorded, and the optional
version-available predicate. -/
structure PackageRequest where
  DefaultVersion : String
  Overrides : List VersionOverride := []
  VersionAvailable : Option (String → Bool) := none

/-- Modelled from the spec: the requests that the `Resolver` holds, by package
name. -/
structure Resolver where
  Packages : GoMap PackageRequest := []

/-- Modelled from the spec: `default(name, version)` registers the baseline
request on the first call for a name and returns the ref of the name; a later
call returns the ref and leaves the request as it is. -/
def Resolver.Default (r : Resolver) (name version : String) : Resolver × PackageRef :=
  match r.Packages.get name with
  | some _ => (r, { Name := name })
  | none =>
    let request : PackageRequest := { DefaultVersion := version }
    ({ r with Packages := GoMap.set r.Packages name request }, { Name := name })

/-- Modelled from the spec: `version(ref, version, source)` appends a version
override to the request of the ref. -/
def Resolver.Version (r : Resolver) (ref : PackageRef) (version source : String) : Resolver :=
  match r.Packages.get ref.Name with
  | some request =>
    let request : PackageRequest :=
      { request with
        Overrides := request.Overrides ++ [{ Version := version, Source := source }] }
    { r with Packages := GoMap.set r.Packages ref.Name request }
  | none => r

/-- Modelled from the spec: `set_version_available(ref, predicate)` registers
the predicate on the request of the ref. -/
def Resolver.SetVersionAvailable (r : Resolver) (ref : PackageRef)
    (predicate : String → Bool) : Resolver :=
  match r.Packages.get ref.Name with
  | some request =>
    let request : PackageRequest := { request with VersionAvailable := some predicate }
    { r with Packages := GoMap.set r.Packages ref.Name request }
  | none => r

/-- Modelled from the spec: the cache registry: the cache specs in the order of
their registration.  The handle of a pair `(key, path)` is opaque: `Handle`
gives it; `AptCacheSpecs` is the standard set of apt caches. -/
structure CacheRegistry where
  Handle : String → String → String
  AptCacheSpecs : List CacheSpec
  Entries : List CacheSpec := []

/-- Modelled from the spec: `add_cache(key, path)` registers the pair unless it
is registered and returns its handle. -/
def CacheRegistry.AddCache (r : CacheRegistry) (key path : String) : CacheRegistry × String :=
  let spec : CacheSpec := { Key := key, Path := path }
  (if spec ∈ r.Entries then r else { r with Entries := r.Entries ++ [spec] }, r.Handle key path)

/-- Modelled from the spec: `get_apt_caches()` registers the standard apt
caches and returns their handles. -/
def CacheRegistry.GetAptCaches (r : CacheRegistry) : CacheRegistry × List String :=
  r.AptCacheSpecs.foldl
    (fun state spec =>
      let added := state.1.AddCache spec.Key spec.Path
      (added.1, state.2 ++ [added.2]))
    (r, [])

/-- Modelled from the spec: the `CommandStepBuilder`, the general-purpose step:
ordered commands, inputs, variables, cache attachments, asset map and secret
policy.  The secrets of a new builder are taken to be every secret, written
`*`; the PHP provider replaces them by none. -/
structure CommandStepBuilder where
  DisplayName : String
  Inputs : List Input := []
  Commands : List Command := []
  Assets : GoMap String := []
  Variables : GoMap String := []
  Caches : List String := []
  Secrets : List String := ["*"]
  SecretPrefixes : List String := []
deriving DecidableEq, Repr

/-- Modelled from the spec: `CommandStepBuilder.Name`. -/
def CommandStepBuilder.Name (b : CommandStepBuilder) : String := b.DisplayName

/-- Modelled from the spec: `AddInput(input)` appends the input. -/
def CommandStepBuilder.AddInput (b : CommandStepBuilder) (input : Input) : CommandStepBuilder :=
  { b with Inputs := b.Inputs ++ [input] }

/-- Modelled from the spec: `AddCommands(commands)` appends the commands. -/
def CommandStepBuilder.AddCommands (b : CommandStepBuilder) (commands : List Command) :
    CommandStepBuilder :=
  { b with Commands := b.Commands ++ commands }

/-- Modelled from the spec: `AddCommand(command)` appends the command. -/
def CommandStepBuilder.AddCommand (b : CommandStepBuilder) (command : Command) :
    CommandStepBuilder :=
  b.AddCommands [command]

/-- Modelled from the spec: `AddVariables(variables)` sets each variable. -/
def CommandStepBuilder.AddVariables (b : CommandStepBuilder) (vars : GoMap String) :
    CommandStepBuilder :=
  { b with Variables := vars.foldl (fun m kv => GoMap.set m kv.1 kv.2) b.Variables }

/-- Modelled from the spec: `AddEnvVars(envVars)`, the env-var additions of the
step: it sets each variable. -/
def CommandStepBuilder.AddEnvVars (b : CommandStepBuilder) (envVars : GoMap String) :
    CommandStepBuilder :=
  b.AddVariables envVars

/-- Modelled from the spec: `AddCache(handle)` attaches the cache. -/
def CommandStepBuilder.AddCache (b : CommandStepBuilder) (handle : String) : CommandStepBuilder :=
  { b with Caches := b.Caches ++ [handle] }

/-- Modelled from the spec: `use_secrets_with_prefixes(prefixes)` restricts the
secrets of the step to the names with one of the prefixes. -/
def CommandStepBuilder.UseSecretsWithPrefixes (b : CommandStepBuilder) (prefixes : List String) :
    CommandStepBuilder :=
  { b with SecretPrefixes := b.SecretPrefixes ++ prefixes }

/-- Modelled from the spec: `CommandStepBuilder.Build`: the step of the
builder's name with its inputs, commands, assets, variables, caches and
secrets. -/
def CommandStepBuilder.Build (b : CommandStepBuilder) : Step :=
  { Name := b.DisplayName
    Inputs := b.Inputs
    Commands := b.Commands
    Assets := b.Assets
    Variables := b.Variables
    Caches := b.Caches
    Secrets := b.Secrets }

/-- The step builders that a context registers (the interface `StepBuilder`). -/
inductive StepBuilder where
  | image (b : ImageStepBuilder)
  | command (b : CommandStepBuilder)
  | mise (b : MiseStepBuilder)

/-- The method `Name` of a step builder. -/
def StepBuilder.Name : StepBuilder → String
  | .image b => b.Name
  | .command b => b.Name
  | .mise b => b.Name

/-- Modelled from the spec: what the `GenerateContext` holds for the providers
besides the fields of the orchestrator: the app, the environment, the config,
the ordered list of step builders, the mise step builder (the position in the
list of the one there is, none before it is created), the resolver and the
cache registry.  A Go pointer to a registered builder is its position in the
list. -/
structure ProviderState where
  App : App
  Env : Environment
  Config : Config := {}
  Steps : List StepBuilder := []
  miseStepBuilder : Option Nat := none
  Resolver : Resolver := {}
  Caches : CacheRegistry

/-- The context of the providers. -/
abbrev ProviderContext := GenerateContext ProviderState

/-- The list with `f` applied to the element at a position. -/
def modifyAt {α : Type} (f : α → α) : Nat → List α → List α
  | _, [] => []
  | 0, x :: xs => f x :: xs
  | n + 1, x :: xs => x :: modifyAt f n xs

/-- The statement `c.Steps = append(c.Steps, step)` of the three constructors:
the context with the builder registered, and the pointer to it. -/
def ProviderContext.appendStep (c : ProviderContext) (b : StepBuilder) : ProviderContext × Nat :=
  ({ c with State := { c.State with Steps := c.State.Steps ++ [b] } }, c.State.Steps.length)

/-- The method `GenerateContext.NewImageStep` with the registration of the
builder. -/
def ProviderContext.NewImageStep (c : ProviderContext) (name : String)
    (resolveStepImage : BuildStepOptions → String) : ProviderContext × Nat :=
  c.appendStep (.image (GenerateContext.NewImageStep c name resolveStepImage))

/-- Modelled from the spec: `new_command_step(name)`: a command step builder
named by `get_step_name(name)`, registered in the context. -/
def ProviderContext.NewCommandStep (c : ProviderContext) (name : String) :
    ProviderContext × Nat :=
  c.appendStep (.command { DisplayName := c.GetStepName name })

/-- Modelled from the spec: `get_mise_step_builder()`: the mise step builder of
the context, created by `newMiseStepBuilder` and registered on the first
call. -/
def ProviderContext.GetMiseStepBuilder (c : ProviderContext) : ProviderContext × Nat :=
  match c.State.miseStepBuilder with
  | some pointer => (c, pointer)
  | none =>
    let created := c.appendStep (.mise (newMiseStepBuilder c.State.App))
    ({ created.1 with State := { created.1.State with miseStepBuilder := some created.2 } },
      created.2)

/-- The image step builder behind a pointer. -/
def ProviderContext.imageStep (c : ProviderContext) (pointer : Nat) : Option ImageStepBuilder :=
  match c.State.Steps[pointer]? with
  | some (.image b) => some b
  | _ => none

/-- The command step builder behind a pointer. -/
def ProviderContext.commandStep (c : ProviderContext) (pointer : Nat) :
    Option CommandStepBuilder :=
  match c.State.Steps[pointer]? with
  | some (.command b) => some b
  | _ => none

/-- The mise step builder behind a pointer. -/
def ProviderContext.miseStep (c : ProviderContext) (pointer : Nat) : Option MiseStepBuilder :=
  match c.State.Steps[pointer]? with
  | some (.mise b) => some b
  | _ => none

/-- The name of the step builder behind a pointer; the empty string stands for
a pointer to no builder, which no constructor returns. -/
def ProviderContext.stepName (c : ProviderContext) (pointer : Nat) : String :=
  match c.State.Steps[pointer]? with
  | some b => b.Name
  | none => ""

/-- A write through a pointer to an image step builder. -/
def ProviderContext.updateImageStep (c : ProviderContext) (pointer : Nat)
    (f : ImageStepBuilder → ImageStepBuilder) : ProviderContext :=
  let write : StepBuilder → StepBuilder := fun b =>
    match b with
    | .image b => .image (f b)
    | other => other
  { c with State := { c.State with Steps := modifyAt write pointer c.State.Steps } }

/-- A write through a pointer to a command step builder. -/
def ProviderContext.updateCommandStep (c : ProviderContext) (pointer : Nat)
    (f : CommandStepBuilder → CommandStepBuilder) : ProviderContext :=
  let write : StepBuilder → StepBuilder := fun b =>
    match b with
    | .command b => .command (f b)
    | other => other
  { c with State := { c.State with Steps := modifyAt write pointer c.State.Steps } }

/-- A write through a pointer to a mise step builder. -/
def ProviderContext.updateMiseStep (c : ProviderContext) (pointer : Nat)
    (f : MiseStepBuilder → MiseStepBuilder) : ProviderContext :=
  let write : StepBuilder → StepBuilder := fun b =>
    match b with
    | .mise b => .mise (f b)
    | other => other
  { c with State := { c.State with Steps := modifyAt write pointer c.State.Steps } }

/-- The call `miseStep.Default(name, defaultVersion)` through a pointer, on the
resolver of the context: the context after the call and the ref returned.  A
pointer that `GetMiseStepBuilder` returned has its builder behind it; for any
other pointer the context is left as it is. -/
def ProviderContext.miseDefault (c : ProviderContext) (pointer : Nat)
    (name defaultVersion : String) : ProviderContext × PackageRef :=
  match c.miseStep pointer with
  | some b =>
    let result := b.Default Resolver.Default c.State.Resolver name defaultVersion
    let c := c.updateMiseStep pointer (fun _ => result.1)
    ({ c with State := { c.State with Resolver := result.2.1 } }, result.2.2)
  | none => (c, { Name := name })

/-- The call `imageStep.Default(name, defaultVersion)` through a pointer; a
pointer that `NewImageStep` returned has its builder behind it. -/
def ProviderContext.imageDefault (c : ProviderContext) (pointer : Nat)
    (name defaultVersion : String) : ProviderContext × PackageRef :=
  match c.imageStep pointer with
  | some b =>
    let result := b.Default Resolver.Default c.State.Resolver name defaultVersion
    let c := c.updateImageStep pointer (fun _ => result.1)
    ({ c with State := { c.State with Resolver := result.2.1 } }, result.2.2)
  | none => (c, { Name := name })

/-- The methods `ImageStepBuilder.Version` and `MiseStepBuilder.Version`: the
call `b.Resolver.Version(name, version, source)` on the resolver of the
context. -/
def ProviderContext.Version (c : ProviderContext) (ref : PackageRef)
    (version source : String) : ProviderContext :=
  { c with State := { c.State with Resolver := c.State.Resolver.Version ref version source } }

/-- Modelled from the spec: `ImageStepBuilder.SetVersionAvailable`, the call
`set_version_available(ref, predicate)` on the resolver of the context. -/
def ProviderContext.SetVersionAvailable (c : ProviderContext) (ref : PackageRef)
    (predicate : String → Bool) : ProviderContext :=
  { c with State := { c.State with
      Resolver := c.State.Resolver.SetVersionAvailable ref predicate } }

/-- The context that `NewGenerateContext` returns for an app, an environment
and a config: no step builder, no mise step builder, no package request, an
empty deploy accumulator and an empty sub-context stack. -/
def freshProviderContext (app : App) (env : Environment) (config : Config)
    (caches : CacheRegistry) : ProviderContext :=
  { State := { App := app, Env := env, Config := config, Caches := caches } }

/-- The names of the step builders registered in the context. -/
def ProviderContext.stepNames (c : ProviderContext) : List String :=
  c.State.Steps.map StepBuilder.Name

/-- A value of the data handed to a text template. -/
inductive TemplateValue where
  | str (value : String)
  | bool (value : Bool)
deriving DecidableEq, Repr

/-- The result of `ctx.TemplateFiles`: the name of the file used, if any, and
the contents. -/
structure TemplateFile where
  Filename : String
  Contents : String
deriving DecidableEq, Repr

/-- What the providers use from outside the sources at hand: the text template
engine (`renderTemplate` stands for `Parse` followed by `Execute`), the
embedded template files of the staticfile and the PHP provider, the context
methods `TemplateFiles` and `DefaultRuntimeInput`, the method `GetOutputPaths`
of the mise step builder, and the HTTP request of the version-available
predicate of the PHP image (whether `http.Get(url)` answers with status OK). -/
structure PlanExternals where
  renderTemplate : String → GoMap TemplateValue → Except GoError String
  staticfileCaddyfileTemplate : String
  phpCaddyfileTemplate : String
  TemplateFiles : ProviderContext → List String → String → GoMap TemplateValue →
    Except GoError TemplateFile
  DefaultRuntimeInput : ProviderContext → Input
  GetOutputPaths : MiseStepBuilder → List String
  httpGetOK : String → Bool

/-! ## `core/providers/staticfile/staticfile.go` -/

/-- The struct `StaticfileProvider`. -/
structure StaticfileProvider where
  RootDir : String := ""
deriving DecidableEq, Repr

/-- The method `StaticfileProvider.Name`. -/
def StaticfileProvider.Name (_p : StaticfileProvider) : String := "staticfile"

/-- The function `getStaticfileConfig`: nil and no error when the app has no
`Staticfile`, nil and the error when reading it fails, else the config read. -/
def getStaticfileConfig (ctx : ProviderContext) : Option StaticfileConfig × Option GoError :=
  if !ctx.State.App.HasMatch "Staticfile" then (none, none)
  else
    match ctx.State.App.ReadYAML "Staticfile" with
    | .error err => (none, some err)
    | .ok staticfileData => (some staticfileData, none)

/-- The function `getRootDir`, with its two results. -/
def getRootDir (ctx : ProviderContext) : String × Option GoError :=
  let rootDir := ctx.State.Env.GetConfigVariable "STATIC_FILE_ROOT"
  if rootDir ≠ "" then (rootDir, none)
  else
    match getStaticfileConfig ctx with
    | (some staticfileConfig, none) => (staticfileConfig.RootDir, none)
    | _ =>
      if ctx.State.App.HasMatch "public" then ("public", none)
      else if ctx.State.App.HasMatch "index.html" then (".", none)
      else ("", some (.base "no static file root dir found"))

/-- The method `StaticfileProvider.Initialize`: the provider after the call and
the error returned. -/
def StaticfileProvider.Initialize (p : StaticfileProvider) (ctx : ProviderContext) :
    StaticfileProvider × Option GoError :=
  match getRootDir ctx with
  | (_, some err) => (p, some err)
  | (rootDir, none) => ({ p with RootDir := rootDir }, none)

/-- The method `StaticfileProvider.Detect`. -/
def StaticfileProvider.Detect (_p : StaticfileProvider) (ctx : ProviderContext) :
    Bool × Option GoError :=
  match getRootDir ctx with
  | (rootDir, err) => if rootDir ≠ "" ∧ err = none then (true, none) else (false, none)

/-- The method `StaticfileProvider.CaddyStartCommand`. -/
def StaticfileProvider.CaddyStartCommand (_p : StaticfileProvider) : String :=
  "caddy run --config " ++ "Caddyfile" ++ " --adapter caddyfile 2>&1"

/-- The method `StaticfileProvider.getCaddyfile`: the embedded template parsed
and executed on the data. -/
def StaticfileProvider.getCaddyfile (ext : PlanExternals) (_p : StaticfileProvider)
    (data : GoMap TemplateValue) : Except GoError String :=
  ext.renderTemplate ext.staticfileCaddyfileTemplate data

/-- The method `StaticfileProvider.Setup` on the builder behind its pointer
argument `setup`: the builder after the call and the error returned.  It does
not read its context argument. -/
def StaticfileProvider.Setup (ext : PlanExternals) (p : StaticfileProvider)
    (setup : CommandStepBuilder) : CommandStepBuilder × Option GoError :=
  let data : GoMap TemplateValue := [("STATIC_FILE_ROOT", .str p.RootDir)]
  match p.getCaddyfile ext data with
  | .error err => (setup, some err)
  | .ok caddyfile =>
    let setup := setup.AddCommands
      [ NewFileCommand "Caddyfile" "Caddyfile" {},
        NewExecCommand "caddy fmt --overwrite Caddyfile" {} ]
    let setup := { setup with Assets := [("Caddyfile", caddyfile)] }
    (setup, none)

/-- The method `StaticfileProvider.Plan`: the context after the call and the
error returned.  The pointer `setup` comes from `NewCommandStep`, so the
builder behind it is there; the branch for a pointer without builder is never
taken. -/
def StaticfileProvider.Plan (ext : PlanExternals) (p : StaticfileProvider)
    (ctx : ProviderContext) : ProviderContext × Option GoError :=
  let (ctx, miseStep) := ctx.GetMiseStepBuilder
  let ctx := (ctx.miseDefault miseStep "caddy" "latest").1
  let (ctx, setup) := ctx.NewCommandStep "setup"
  let ctx := ctx.updateCommandStep setup
    (fun b => b.AddInput (NewStepInput (ctx.stepName miseStep) {}))
  match ctx.commandStep setup with
  | none => (ctx, none)
  | some setupBuilder =>
    let (setupBuilder, err) := p.Setup ext setupBuilder
    let ctx := ctx.updateCommandStep setup (fun _ => setupBuilder)
    match err with
    | some err => (ctx, some err)
    | none =>
      let outputPaths :=
        match ctx.miseStep miseStep with
        | some b => ext.GetOutputPaths b
        | none => []
      let inputs := ctx.Deploy.Inputs ++
        [ ext.DefaultRuntimeInput ctx,
          NewStepInput (ctx.stepName miseStep) { Include := some outputPaths },
          NewStepInput (ctx.stepName setup) { Include := some ["."] },
          NewLocalInput "." ]
      let ctx := { ctx with Deploy := { ctx.Deploy with Inputs := inputs } }
      let ctx := { ctx with Deploy := { ctx.Deploy with StartCmd := p.CaddyStartCommand } }
      (ctx, none)

/-! ## `core/providers/php/php.go` -/

/-- The function `strings.HasPrefix`, on the characters of the strings. -/
def stringsHasPrefix (s pre : String) : Bool := pre.data.isPrefixOf s.data

/-- The function `strings.TrimPrefix`: the string without the prefix when it
starts with it, else the string. -/
def stringsTrimPrefix (s pre : String) : String :=
  if stringsHasPrefix s pre then String.mk (s.data.drop pre.data.length) else s

/-- The function `strings.FieldsFunc` on the characters of the string: the
maximal runs of characters that are not separators, in order; `current` is the
run being read, in reverse. -/
def fieldsFuncChars (isSeparator : Char → Bool) : List Char → List Char → List String
  | current, [] => if current = [] then [] else [String.mk current.reverse]
  | current, c :: cs =>
    if isSeparator c then
      if current = [] then fieldsFuncChars isSeparator [] cs
      else String.mk current.reverse :: fieldsFuncChars isSeparator [] cs
    else fieldsFuncChars isSeparator (c :: current) cs

/-- The function `strings.FieldsFunc`. -/
def stringsFieldsFunc (s : String) (isSeparator : Char → Bool) : List String :=
  fieldsFuncChars isSeparator [] s.data

/-- The constant `DEFAULT_PHP_VERSION`. -/
def DEFAULT_PHP_VERSION : String := "8.4.3"

/-- The constant `DefaultCaddyfilePath`. -/
def DefaultCaddyfilePath : String := "/Caddyfile"

/-- The struct `PhpProvider`, which has no field. -/
structure PhpProvider where
deriving DecidableEq, Repr

/-- The struct `ConfigFiles`. -/
structure ConfigFiles where
  NginxConf : String := ""
  PhpFpmConf : String := ""
  Caddyfile : String := ""
deriving DecidableEq, Repr

/-- Modelled from the spec: the provider of package `node`, as the PHP provider
uses it: the struct `node.NodeProvider` is a state of type `ν` with the zero
value `Zero`; `Detect` is pure and returns its Go results; every other method
returns the state and the context it leaves behind next to its Go results.  A
builder argument is the pointer to the builder. -/
structure NodeProvider (ν : Type) where
  Zero : ν
  Detect : ν → ProviderContext → Bool × Option GoError
  Initialize : ν → ProviderContext → ν × ProviderContext × Option GoError
  InstallMisePackages : ν → ProviderContext → Nat → ν × ProviderContext
  InstallNodeDeps : ν → ProviderContext → Nat → ν × ProviderContext
  PruneNodeDeps : ν → ProviderContext → Nat → ν × ProviderContext
  Build : ν → ProviderContext → Nat → ν × ProviderContext

/-- The method `PhpProvider.Name`. -/
def PhpProvider.Name (_p : PhpProvider) : String := "php"

/-- The method `PhpProvider.Detect`. -/
def PhpProvider.Detect (_p : PhpProvider) (ctx : ProviderContext) : Bool × Option GoError :=
  (ctx.State.App.HasMatch "index.php" || ctx.State.App.HasMatch "composer.json", none)

/-- The method `PhpProvider.Initialize`. -/
def PhpProvider.Initialize (_p : PhpProvider) (_ctx : ProviderContext) : Option GoError := none

/-- The method `PhpProvider.usesLaravel`. -/
def PhpProvider.usesLaravel (_p : PhpProvider) (ctx : ProviderContext) : Bool :=
  ctx.State.App.HasMatch "artisan"

/-- The method `PhpProvider.readComposerJson`. -/
def PhpProvider.readComposerJson (_p : PhpProvider) (ctx : ProviderContext) :
    Except GoError (GoMap JsonValue) :=
  match ctx.State.App.ReadJSONMap "composer.json" with
  | .error err => .error err
  | .ok composerJson => .ok composerJson

/-- The function `getPhpImage`. -/
def getPhpImage (phpVersion : String) : String :=
  "dunglas/frankenphp:php" ++ phpVersion ++ "-bookworm"

/-- The method `PhpProvider.getConfigFiles`. -/
def PhpProvider.getConfigFiles (ext : PlanExternals) (p : PhpProvider) (ctx : ProviderContext) :
    Except GoError ConfigFiles :=
  let phpRootDir :=
    if ctx.State.Env.GetVariable "RAILPACK_PHP_ROOT_DIR" ≠ "" then
      ctx.State.Env.GetVariable "RAILPACK_PHP_ROOT_DIR"
    else if p.usesLaravel ctx then "/app/public"
    else "/app"
  let data : GoMap TemplateValue :=
    [("RAILPACK_PHP_ROOT_DIR", .str phpRootDir), ("IS_LARAVEL", .bool (p.usesLaravel ctx))]
  match ext.TemplateFiles ctx ["Caddyfile"] ext.phpCaddyfileTemplate data with
  | .error err => .error err
  | .ok caddyfile => .ok { Caddyfile := caddyfile.Contents }

/-- The closure that `phpImagePackage` hands to `NewImageStep`: the image of
the resolved php version, of the default version when there is none. -/
def resolvePhpImage (options : BuildStepOptions) : String :=
  match options.ResolvedPackages.get "php" with
  | some phpVersion =>
    match phpVersion.ResolvedVersion with
    | some version => getPhpImage version
    | none => getPhpImage DEFAULT_PHP_VERSION
  | none => getPhpImage DEFAULT_PHP_VERSION

/-- The closure that `phpImagePackage` hands to `SetVersionAvailable`: whether
the registry answers the request for the tag of the image with status OK.  The
image of `getPhpImage` holds a colon, so both parts exist. -/
def phpVersionAvailable (ext : PlanExternals) (version : String) : Bool :=
  let image := getPhpImage version
  match stringsSplit image ':' with
  | repository :: tag :: _ =>
    ext.httpGetOK
      ("https://registry.hub.docker.com/v2/repositories/" ++ repository ++ "/tags/" ++ tag)
  | _ => false

/-- The value at `require.php` of a decoded composer.json, as
`objx.New(composerJson).Get("require.php")` reads it: the entry php of the
object under require. -/
def composerRequirePhp (composerJson : GoMap JsonValue) : Option JsonValue :=
  match composerJson.get "require" with
  | some (.object require) => GoMap.get require "php"
  | _ => none

/-- Lines 441 to 445 of `phpImagePackage`: the apt packages that the PHP
provider collects for its image step, in the order of the three `append`
calls: git, zip, unzip and ca-certificates, then the build apt packages of the
config, then its deploy apt packages (the comment of line 443: include both
build and runtime apt packages since we don't have a separate runtime
image). -/
def PhpProvider.imageAptPackages (ctx : ProviderContext) : List String :=
  ["git", "zip", "unzip", "ca-certificates"] ++ ctx.State.Config.BuildAptPackages ++
    ctx.State.Config.Deploy.AptPackages

/-- The method `PhpProvider.phpImagePackage`: the context after the call, the
pointer to the image step builder and the error returned, which is nil.  The
three statements of lines 441 to 445 assign to `imageStep.AptPackages`, which
the struct `ImageStepBuilder` does not declare, so the builder has nowhere to
keep the list of `PhpProvider.imageAptPackages` and it is the builder of
`NewImageStep` that goes on to `Default`. -/
def PhpProvider.phpImagePackage (ext : PlanExternals) (p : PhpProvider) (ctx : ProviderContext) :
    ProviderContext × Nat × Option GoError :=
  let (ctx, imageStep) := ctx.NewImageStep "packages:image" resolvePhpImage
  let (ctx, php) := ctx.imageDefault imageStep "php" DEFAULT_PHP_VERSION
  let ctx :=
    match p.readComposerJson ctx with
    | .ok composerJson =>
      match composerRequirePhp composerJson with
      | some (.string phpVersion) =>
        if stringsHasPrefix phpVersion "^" then
          ctx.Version php (stringsTrimPrefix phpVersion "^") "composer.json > require > php"
        else
          ctx.Version php phpVersion "composer.json > require > php"
      | _ => ctx
    | .error _ => ctx
  let ctx := ctx.SetVersionAvailable php (phpVersionAvailable ext)
  (ctx, imageStep, none)

/-- The method `PhpProvider.ComposerSupportingFiles`. -/
def PhpProvider.ComposerSupportingFiles (_p : PhpProvider) (ctx : ProviderContext) :
    List String :=
  ["**/composer.json", "**/composer.lock", "artisan"].foldl
    (fun allFiles pattern =>
      match ctx.State.App.FindFiles pattern with
      | .error _ => allFiles
      | .ok files =>
        let allFiles := allFiles ++ files
        match ctx.State.App.FindDirectories pattern with
        | .error _ => allFiles
        | .ok dirs => allFiles ++ dirs)
    []

/-- The method `PhpProvider.getPhpExtensions`.  When composer.json cannot be
read it returns the empty list at once (lines 211 to 214), before the variable
`RAILPACK_PHP_EXTENSIONS` is looked at. -/
def PhpProvider.getPhpExtensions (p : PhpProvider) (ctx : ProviderContext) : List String :=
  let extensions : List String := []
  match p.readComposerJson ctx with
  | .error _ => extensions
  | .ok composerJson =>
    let extensions :=
      match composerJson.get "require" with
      | some (.object require) =>
        require.foldl
          (fun extensions entry =>
            if stringsHasPrefix entry.1 "ext-" then
              extensions ++ [stringsTrimPrefix entry.1 "ext-"]
            else extensions)
          extensions
      | _ => extensions
    let extensionsVar := ctx.State.Env.GetConfigVariable "PHP_EXTENSIONS"
    if extensionsVar ≠ "" then
      extensions ++ stringsFieldsFunc extensionsVar (fun r => r == ',' || r == ' ')
    else extensions

/-- The last statements of `PhpProvider.Plan` (lines 178 to 180): the start
command is set and nil returned. -/
def PhpProvider.finishPlan (ctx : ProviderContext) : ProviderContext × Option GoError :=
  ({ ctx with Deploy := { ctx.Deploy with
      StartCmd := "docker-php-entrypoint --config " ++ DefaultCaddyfilePath ++
        " --adapter caddyfile 2>&1" } }, none)

/-- The branch of `PhpProvider.Plan` for an app that is a Node app (lines 117
to 166), after the composer step: `composer` is the pointer to the composer
builder. -/
def PhpProvider.planNode {ν : Type} (ext : PlanExternals) (node : NodeProvider ν)
    (nodeProvider : ν) (isLaravel : Bool) (composer : Nat) (ctx : ProviderContext) :
    ProviderContext × Option GoError :=
  let (nodeProvider, ctx, err) := node.Initialize nodeProvider ctx
  match err with
  | some err => (ctx, some err)
  | none =>
    let (ctx, miseStep) := ctx.GetMiseStepBuilder
    let (nodeProvider, ctx) := node.InstallMisePackages nodeProvider ctx miseStep
    let (ctx, install) := ctx.NewCommandStep "install:node"
    let ctx := ctx.updateCommandStep install
      (fun b => b.AddInput (NewStepInput (ctx.stepName miseStep) {}))
    let (nodeProvider, ctx) := node.InstallNodeDeps nodeProvider ctx install
    let (ctx, prune) := ctx.NewCommandStep "prune:node"
    let ctx := ctx.updateCommandStep prune
      (fun b => b.AddInput (NewStepInput (ctx.stepName install) {}))
    let (nodeProvider, ctx) := node.PruneNodeDeps nodeProvider ctx prune
    let (ctx, build) := ctx.NewCommandStep "build"
    let outputPaths :=
      match ctx.miseStep miseStep with
      | some b => ext.GetOutputPaths b
      | none => []
    let ctx := ctx.updateCommandStep build
      (fun b => { b with Inputs :=
        [ NewStepInput (ctx.stepName composer) {},
          NewStepInput (ctx.stepName install) { Include := some (["."] ++ outputPaths) } ] })
    let (_, ctx) := node.Build nodeProvider ctx build
    let ctx :=
      if isLaravel then
        ctx.updateCommandStep build (fun b => b.AddCommands
          [ NewExecShellCommand
              "mkdir -p storage/framework/\x7bsessions,views,cache,testing\x7d storage/logs bootstrap/cache && chmod -R a+rw storage"
              {},
            NewExecCommand "php artisan optimize:clear" {},
            NewExecCommand "php artisan config:cache" {},
            NewExecCommand "php artisan event:cache" {},
            NewExecCommand "php artisan route:cache" {},
            NewExecCommand "php artisan view:cache" {} ])
      else ctx
    let inputs :=
      [ NewStepInput (ctx.stepName composer) {},
        NewStepInput (ctx.stepName build)
          { Include := some ["."], Exclude := some ["node_modules", "vendor"] },
        NewStepInput (ctx.stepName prune) { Include := some ["/app/node_modules"] } ]
    PhpProvider.finishPlan { ctx with Deploy := { ctx.Deploy with Inputs := inputs } }

/-- The branch of `PhpProvider.Plan` for an app that is not a Node app (lines
168 to 175). -/
def PhpProvider.planBuild (composer : Nat) (ctx : ProviderContext) :
    ProviderContext × Option GoError :=
  let (ctx, build) := ctx.NewCommandStep "build"
  let ctx := ctx.updateCommandStep build
    (fun b => b.AddInput (NewStepInput (ctx.stepName composer) {}))
  let ctx := ctx.updateCommandStep build (fun b => b.AddCommand (NewCopyCommand "."))
  let inputs := [NewStepInput (ctx.stepName build) {}]
  PhpProvider.finishPlan { ctx with Deploy := { ctx.Deploy with Inputs := inputs } }

/-- Lines 52 to 70 of `PhpProvider.Plan`: the prepare step, with the image step
as its input, the Caddyfile of the config files as an asset and the command
that writes it.  The result is the context and the pointer to the builder. -/
def PhpProvider.planPrepare (phpImageStep : Nat) (configFiles : ConfigFiles)
    (ctx : ProviderContext) : ProviderContext × Nat :=
  let (ctx, prepare) := ctx.NewCommandStep "prepare"
  let ctx := ctx.updateCommandStep prepare
    (fun b => b.AddInput (NewStepInput (ctx.stepName phpImageStep) {}))
  let ctx := ctx.updateCommandStep prepare (fun b => b.AddEnvVars
    [ ("APP_ENV", "production"),
      ("APP_DEBUG", "false"),
      ("APP_LOCALE", "en"),
      ("LOG_CHANNEL", "stderr"),
      ("LOG_LEVEL", "debug"),
      ("SERVER_NAME", ":80"),
      ("PHP_INI_DIR", "/usr/local/etc/php") ])
  let ctx := ctx.updateCommandStep prepare
    (fun b => { b with Assets := GoMap.set b.Assets "Caddyfile" configFiles.Caddyfile })
  let ctx := ctx.updateCommandStep prepare (fun b => b.AddCommands
    [ NewExecCommand "mkdir -p /usr/local/etc/php/conf.d" {},
      NewExecCommand "mkdir -p /conf.d/" {},
      NewExecShellCommand "cp $PHP_INI_DIR/php.ini-production $PHP_INI_DIR/php.ini" {},
      NewFileCommand DefaultCaddyfilePath "Caddyfile" {} ])
  let ctx := ctx.updateCommandStep prepare (fun b => { b with Secrets := [] })
  (ctx, prepare)

/-- Lines 72 to 78 of `PhpProvider.Plan`: the extensions step. -/
def PhpProvider.planExtensions (p : PhpProvider) (prepare : Nat) (ctx : ProviderContext) :
    ProviderContext × Nat :=
  let (ctx, extensions) := ctx.NewCommandStep "extensions"
  let ctx := ctx.updateCommandStep extensions
    (fun b => b.AddInput (NewStepInput (ctx.stepName prepare) {}))
  let ctx := ctx.updateCommandStep extensions (fun b => b.AddCommands
    [ NewExecCommand ("install-php-extensions " ++ stringsJoin (p.getPhpExtensions ctx) " ") {} ])
  let aptCaches := ctx.State.Caches.GetAptCaches
  let ctx : ProviderContext := { ctx with State := { ctx.State with Caches := aptCaches.1 } }
  let ctx := ctx.updateCommandStep extensions
    (fun b => { b with Caches := b.Caches ++ aptCaches.2 })
  let ctx := ctx.updateCommandStep extensions (fun b => { b with Secrets := [] })
  (ctx, extensions)

/-- Lines 81 to 103 of `PhpProvider.Plan`: the composer step. -/
def PhpProvider.planComposer (p : PhpProvider) (extensions : Nat) (ctx : ProviderContext) :
    ProviderContext × Nat :=
  let (ctx, composer) := ctx.NewCommandStep "install:composer"
  let ctx := ctx.updateCommandStep composer
    (fun b => b.AddInput (NewStepInput (ctx.stepName extensions) {}))
  let ctx := ctx.updateCommandStep composer (fun b => { b with Secrets := [] })
  let ctx := ctx.updateCommandStep composer
    (fun b => b.UseSecretsWithPrefixes ["COMPOSER", "PHP"])
  let ctx := ctx.updateCommandStep composer (fun b => b.AddVariables
    [("COMPOSER_FUND", "0"), ("COMPOSER_CACHE_DIR", "/opt/cache/composer")])
  match p.readComposerJson ctx with
  | .error _ => (ctx, composer)
  | .ok _ =>
    let added := ctx.State.Caches.AddCache "composer" "/opt/cache/composer"
    let ctx : ProviderContext := { ctx with State := { ctx.State with Caches := added.1 } }
    let ctx := ctx.updateCommandStep composer (fun b => b.AddCache added.2)
    let composerFiles := p.ComposerSupportingFiles ctx
    let ctx := ctx.updateCommandStep composer (fun b => b.AddCommand
      (.Copy "/usr/bin/composer" (some "/usr/bin/composer") (some "composer:latest")))
    let ctx := composerFiles.foldl
      (fun ctx file => ctx.updateCommandStep composer (fun b => b.AddCommand (NewCopyCommand file)))
      ctx
    let ctx := ctx.updateCommandStep composer (fun b => b.AddCommands
      [ NewExecCommand "composer install --optimize-autoloader --no-scripts --no-interaction"
          {} ])
    (ctx, composer)

/-- The method `PhpProvider.Plan`, with the provider of package `node` as a
parameter: the context after the call and the error returned.  The calls of
the logger are left out. -/
def PhpProvider.Plan {ν : Type} (ext : PlanExternals) (node : NodeProvider ν) (p : PhpProvider)
    (ctx : ProviderContext) : ProviderContext × Option GoError :=
  let (ctx, phpImageStep, err) := p.phpImagePackage ext ctx
  match err with
  | some err => (ctx, some err)
  | none =>
    match p.getConfigFiles ext ctx with
    | .error err => (ctx, some (Errorf "failed to get config files: " err))
    | .ok configFiles =>
      let isLaravel := p.usesLaravel ctx
      let (ctx, prepare) := PhpProvider.planPrepare phpImageStep configFiles ctx
      let (ctx, extensions) := p.planExtensions prepare ctx
      let (ctx, composer) := p.planComposer extensions ctx
      let nodeProvider := node.Zero
      let (isNode, err) := node.Detect nodeProvider ctx
      match err with
      | some err => (ctx, some err)
      | none =>
        if isNode then PhpProvider.planNode ext node nodeProvider isLaravel composer ctx
        else PhpProvider.planBuild composer ctx

/-! ## The procfile provider -/

/-- Modelled from the spec: the `Plan` of the procfile provider.  It reads the
`Procfile` of the app as a map from process names to commands; when the file
is there and has an entry web, it sets the deploy start command to the command
of that entry, provided none is set.  It returns no error; its first Go result
is discarded by its callers. -/
def ProcfileProvider.Plan (ctx : ProviderContext) : ProviderContext × Option GoError :=
  match ctx.State.App.ReadYAMLMap "Procfile" with
  | .error _ => (ctx, none)
  | .ok procfile =>
    match procfile.get "web" with
    | some command =>
      if ctx.Deploy.StartCmd = "" then
        ({ ctx with Deploy := { ctx.Deploy with StartCmd := command } }, none)
      else (ctx, none)
    | none => (ctx, none)

/-! ## The request that the resolver holds for a package -/

/-- The default version of the request of a package, none when the package was
never requested. -/
def Resolver.defaultVersion (r : Resolver) (name : String) : Option String :=
  (r.Packages.get name).map (fun request => request.DefaultVersion)

/-- The version overrides recorded for a package, in the order in which they
were recorded; none for a package that was never requested. -/
def Resolver.overrides (r : Resolver) (name : String) : List VersionOverride :=
  match r.Packages.get name with
  | some request => request.Overrides
  | none => []

/-- The version override recorded last for a package. -/
def Resolver.lastOverride (r : Resolver) (name : String) : Option VersionOverride :=
  (r.overrides name).getLast?

/-! ## Go regular expressions (`regexp`), as far as `gradle.go` uses them -/

/-- The syntax of the regular expressions of `gradle.go`: a single character
given by the set of characters it accepts (a literal, a class, the dot),
sequence, the greedy star, the greedy option, a numbered capturing group, and
the anchors `^` and `$`, which without the flag `m` stand for the begin and
the end of the text. -/
inductive Regexp where
  | empty
  | char (accepts : Char → Bool)
  | seq (first second : Regexp)
  | star (body : Regexp)
  | opt (body : Regexp)
  | group (index : Nat) (body : Regexp)
  | beginText
  | endText

/-- The submatches of a match: the text of each capturing group that took
part in it, by the number of the group; group 0 is the whole match. -/
abbrev Submatches := List (Nat × List Char)

/-- The assignment of the text of a group. -/
def Submatches.set (captures : Submatches) (index : Nat) (text : List Char) : Submatches :=
  match captures with
  | [] => [(index, text)]
  | (i, t) :: rest => if i = index then (index, text) :: rest else (i, t) :: Submatches.set rest index text

/-- The element `FindSubmatch(...)[index]` as a string: the text of the group,
empty for a group that took no part in the match. -/
def Submatches.get (captures : Submatches) (index : Nat) : String :=
  match captures with
  | [] => ""
  | (i, t) :: rest => if i = index then String.mk t else Submatches.get rest index

/-- A run of the matcher at one position, in the order of preference of Go's
`regexp` (leftmost-first: what a backtracking matcher finds first, a greedy
operator trying its body before the rest).  `position` is the number of
characters before `input` in the text, `next` is what remains to be
matched after the expression; an iteration of a star that consumes nothing is
not repeated.  The first argument bounds the depth of the run. -/
def Regexp.run : Nat → Regexp → Nat → List Char → Submatches →
    (Nat → List Char → Submatches → Option Submatches) → Option Submatches
  | 0, _, _, _, _, _ => none
  | depth + 1, r, position, input, captures, next =>
    match r with
    | .empty => next position input captures
    | .char accepts =>
      match input with
      | c :: rest => if accepts c then next (position + 1) rest captures else none
      | [] => none
    | .seq first second =>
      Regexp.run depth first position input captures
        (fun position1 rest1 captures1 =>
          Regexp.run depth second position1 rest1 captures1 next)
    | .star body =>
      match Regexp.run depth body position input captures
          (fun position1 rest1 captures1 =>
            if position1 = position then none
            else Regexp.run depth (.star body) position1 rest1 captures1 next) with
      | some found => some found
      | none => next position input captures
    | .opt body =>
      match Regexp.run depth body position input captures next with
      | some found => some found
      | none => next position input captures
    | .group index body =>
      Regexp.run depth body position input captures
        (fun position1 rest1 captures1 =>
          next position1 rest1
            (Submatches.set captures1 index (input.take (position1 - position))))
    | .beginText => if position = 0 then next position input captures else none
    | .endText => if input = [] then next position input captures else none

/-- The number of nodes of an expression. -/
def Regexp.size : Regexp → Nat
  | .empty => 1
  | .char _ => 1
  | .seq first second => first.size + second.size + 1
  | .star body => body.size + 1
  | .opt body => body.size + 1
  | .group _ body => body.size + 1
  | .beginText => 1
  | .endText => 1

/-- The leftmost match from a position of the text on: the matcher is run at
the position and, when it finds nothing there, at the next one. -/
def Regexp.findFrom (r : Regexp) (depth : Nat) : Nat → List Char → Option Submatches
  | position, [] =>
    Regexp.run depth (.group 0 r) position [] [] (fun _ _ captures => some captures)
  | position, c :: rest =>
    match Regexp.run depth (.group 0 r) position (c :: rest) []
        (fun _ _ captures => some captures) with
    | some found => some found
    | none => Regexp.findFrom r depth (position + 1) rest

/-- The method `Regexp.FindSubmatch` on the bytes of a string: the submatches
of the leftmost match, nil when there is none. -/
def Regexp.FindSubmatch (r : Regexp) (text : String) : Option Submatches :=
  r.findFrom (r.size + text.data.length + 2) 0 text.data

/-- The method `Regexp.Match`. -/
def Regexp.Match (r : Regexp) (text : String) : Bool := (r.FindSubmatch text).isSome

/-- The expression that matches the characters of a string one after the
other. -/
def Regexp.literal : List Char → Regexp
  | [] => .empty
  | c :: rest => .seq (.char (fun x => x == c)) (Regexp.literal rest)

/-- The class `\s` of Go: tab, line feed, form feed, carriage return and
blank. -/
def isGoSpace (c : Char) : Bool :=
  c == '\t' || c == '\n' || c.toNat == 12 || c == '\r' || c == ' '

/-- The class `\d`: the digits 0 to 9. -/
def isGoDigit (c : Char) : Bool := '0'.toNat ≤ c.toNat && c.toNat ≤ '9'.toNat

/-- An ASCII letter, the class `a-zA-Z`. -/
def isAsciiLetter (c : Char) : Bool :=
  ('a'.toNat ≤ c.toNat && c.toNat ≤ 'z'.toNat) || ('A'.toNat ≤ c.toNat && c.toNat ≤ 'Z'.toNat)

/-! ## `core/providers/java/gradle.go` -/

/-- The constant `DEFAULT_GRADLE_VERSION`. -/
def DEFAULT_GRADLE_VERSION : String := "8"

/-- The struct `JavaProvider`, which is declared outside the sources at hand;
`setGradleVersion` reads no field of it. -/
structure JavaProvider where
deriving DecidableEq, Repr

/-- The pattern `(distributionUrl[\S].*[gradle])(-)([0-9|\.]*)` of line 36: in
group 1 the word distributionUrl, a character that is not white space, any
characters of the line and one of the letters g, r, a, d, l, e; in group 2 a
hyphen; in group 3 digits, bars and dots. -/
def gradleVersionRegex : Regexp :=
  .seq
    (.group 1
      (.seq (Regexp.literal "distributionUrl".data)
        (.seq (.char (fun c => !isGoSpace c))
          (.seq (.star (.char (fun c => c != '\n')))
            (.char (fun c => "gradle".data.contains c))))))
    (.seq (.group 2 (.char (fun c => c == '-')))
      (.group 3 (.star (.char (fun c => isGoDigit c || c == '|' || c == '.')))))

/-- The pattern of line 47,
`^(?:[\sa-zA-Z-"']*)(\d*)(?:\.*)(\d*)(?:\.*\d*)(?:["']?)$`: from the begin of
the text white space, letters, hyphens and quotes; in group 1 digits; dots; in
group 2 digits; dots and digits; an optional quote; the end of the text. -/
def gradleParseVersionRegex : Regexp :=
  .seq .beginText
    (.seq (.star (.char (fun c => isGoSpace c || isAsciiLetter c || c == '-' || c == '"' ||
        c == '\'')))
      (.seq (.group 1 (.star (.char isGoDigit)))
        (.seq (.star (.char (fun c => c == '.')))
          (.seq (.group 2 (.star (.char isGoDigit)))
            (.seq (.seq (.star (.char (fun c => c == '.'))) (.star (.char isGoDigit)))
              (.seq (.opt (.char (fun c => c == '"' || c == '\''))) .endText))))))

/-- The method `JavaProvider.setGradleVersion`: the context after the call and
the error returned.  The two calls of `regexp.Compile` are on constant
patterns that compile, so their error branches are not taken; where the
method returns `err` after a pattern did not match, `err` is nil. -/
def JavaProvider.setGradleVersion (_p : JavaProvider) (ctx : ProviderContext) :
    ProviderContext × Option GoError :=
  let (ctx, miseStep) := ctx.GetMiseStepBuilder
  let (ctx, gradle) := ctx.miseDefault miseStep "gradle" DEFAULT_GRADLE_VERSION
  let envVersion := ctx.State.Env.GetConfigVariable "GRADLE_VERSION"
  let ctx := if envVersion ≠ "" then ctx.Version gradle envVersion "GRADLE_VERSION" else ctx
  if !ctx.State.App.HasMatch "gradle/wrapper/gradle-wrapper.properties" then (ctx, none)
  else
    match ctx.State.App.ReadFile "gradle/wrapper/gradle-wrapper.properties" with
    | .error err => (ctx, some err)
    | .ok wrapperProps =>
      if !gradleVersionRegex.Match wrapperProps then (ctx, none)
      else
        match gradleVersionRegex.FindSubmatch wrapperProps with
        | none => (ctx, none)
        | some submatches =>
          let customVersion := submatches.get 3
          if !gradleParseVersionRegex.Match customVersion then (ctx, none)
          else
            match gradleParseVersionRegex.FindSubmatch customVersion with
            | none => (ctx, none)
            | some parsed =>
              let parsedVersion := parsed.get 1
              (ctx.Version gradle parsedVersion "gradle-wrapper.properties", none)

/-! ## The provider loop in the words of the dispatch algorithm, on the context -/

/-- The plan of a provider past the first in the words of the dispatch
algorithm: `enter_sub_context(name)`, the `Plan` of the provider on the context
so entered, `exit_sub_context` on the context that the plan leaves. -/
def wrappedPlan {σ : Type} (provider : Provider σ) (ctx : GenerateContext σ) :
    GenerateContext σ :=
  ((provider.Plan (ctx.EnterSubContext provider.Name)).1).ExitSubContext

/-- The providers past the first, each with the context on which its wrapped
plan runs `Plan`: the context that the provider before it left, with the
provider's name pushed. -/
def laterPlannedOn {σ : Type} :
    List (Provider σ) → GenerateContext σ → List (Provider σ × GenerateContext σ)
  | [], _ => []
  | provider :: rest, ctx =>
    (provider, ctx.EnterSubContext provider.Name) :: laterPlannedOn rest (wrappedPlan provider ctx)

/-- The providers of the use list in the words of the dispatch algorithm, each
with the context on which its `Plan` runs: the first provider on the context as
it is, every later provider as `laterPlannedOn` says. -/
def plannedOn {σ : Type} (use : List (Provider σ)) (ctx : GenerateContext σ) :
    List (Provider σ × GenerateContext σ) :=
  match use with
  | [] => []
  | first :: later => (first, ctx) :: laterPlannedOn later (first.Plan ctx).1

/-- The context after the provider loop in the words of the dispatch algorithm,
when every plan succeeds: the first provider is planned on the context as it
is, every later provider by `wrappedPlan` on the context that the provider
before it left. -/
def wrappedPlans {σ : Type} (use : List (Provider σ)) (ctx : GenerateContext σ) :
    GenerateContext σ :=
  match use with
  | [] => ctx
  | first :: later => later.foldl (fun c provider => wrappedPlan provider c) (first.Plan ctx).1

/-- Lines 55 to 77 of `GenerateBuildPlan` for the created context `ctx0` and
the merged config: provider selection, the metadata entry providers and the
provider loop; the result is that of the loop. -/
def providerLoop {σ : Type} (ext : Externals σ) (o : GenerateBuildPlanOptions)
    (ctx0 : GenerateContext σ) (config : Config) : PlanLoopResult σ :=
  let r := getProviders ext.LanguageProviders (setPreviousVersions o ctx0) config
  planLoop 0 r.providersToUse
    (r.ctx.SetMetadata "providers"
      (stringsJoin (r.providersToUse.map (fun provider => provider.Name)) ","))

/-! ## Sample data -/

/-- A deploy builder that has accumulated one apt package. -/
def sampleDeployBuilder : DeployBuilder :=
  { NewDeployBuilder with AptPackages := ["curl"] }

/-- A provider with fixed answers that leaves the context as it is: `Detect`
answers `detects`, `Initialize` fails with `initErr` and `Plan` with `planErr`
when they are given. -/
def fixedProvider (name : String) (detects : Bool) (initErr planErr : Option GoError) :
    Provider Unit :=
  { Name := name
    Detect := fun ctx => (ctx, detects, none)
    Initialize := fun ctx => (ctx, initErr)
    Plan := fun ctx => (ctx, planErr) }

/-- A fresh context with no state beside the orchestrator's. -/
def freshContext : GenerateContext Unit := { State := () }

/-- Two language providers in declared order, both detecting the app: the
first fails to initialize (say, on a manifest it cannot parse), the second
initializes. -/
def sampleFailingInit : List (Provider Unit) :=
  [ fixedProvider "node" true (some (.base "error reading package.json")) none,
    fixedProvider "staticfile" true none none ]

/-- Three language providers in declared order that initialize and plan
without error; the first and the last detect the app. -/
def sampleProviders : List (Provider Unit) :=
  [ fixedProvider "php" true none none,
    fixedProvider "node" false none none,
    fixedProvider "staticfile" true none none ]

/-- Language providers for a use list of three: php and node plan without
error, the plan of staticfile fails. -/
def sampleFailingPlan : List (Provider Unit) :=
  [ fixedProvider "php" true none none,
    fixedProvider "node" false none none,
    fixedProvider "staticfile" true none (some (.base "Caddyfile template error")) ]

/-- A plan and resolved packages for `Generate` to return. -/
def samplePlan : BuildPlan × GoMap ResolvedPackage :=
  ({}, [("php", { Name := "php", RequestedVersion := "8.4.3", ResolvedVersion := some "8.4.3" })])

/-- Collaborators with the given language providers: the context is created
fresh, the procfile provider and `ApplyConfig` succeed and leave the context as
it is, `Generate` returns `samplePlan`. -/
def sampleExternals (languageProviders : List (Provider Unit)) : Externals Unit :=
  { NewGenerateContext := fun _ _ => .ok freshContext
    LanguageProviders := languageProviders
    ProcfilePlan := fun ctx => (ctx, none)
    ApplyConfig := fun ctx _ => (ctx, none)
    Generate := fun ctx => (ctx, .ok samplePlan) }

/-- An app whose only file is `railpack.json`, which reads as `fileConfig`. -/
def appWithConfigFile (fileConfig : Config) : App :=
  { HasMatch := fun name => name == "railpack.json"
    ReadJSON := fun _ _ => .ok fileConfig }

/-- An app without files. -/
def emptyApp : App :=
  { HasMatch := fun _ => false
    ReadJSON := fun _ _ => .error (.base "no such file") }

/-- An app whose `railpack.json` cannot be parsed. -/
def appWithBrokenConfigFile : App :=
  { HasMatch := fun name => name == "railpack.json"
    ReadJSON := fun _ _ => .error (.base "unexpected end of JSON input") }

/-- An environment without variables. -/
def emptyEnvironment : Environment := { Variables := [] }

/-- The environment of end-to-end scenario 6: `RAILPACK_PACKAGES="node python"`. -/
def packagesEnvironment : Environment :=
  { Variables := [("RAILPACK_PACKAGES", "node python")] }

/-- The config file of end-to-end scenario 6: `packages = {node: "20"}`. -/
def packagesFileConfig : Config := { Packages := [("node", "20")] }

/-- A config file that names three providers, one of them twice. -/
def duplicateProvidersConfig : Config :=
  { Providers := some ["php", "staticfile", "staticfile"] }

/-- A config file that names a provider, an unknown name and another provider. -/
def namedProvidersConfig : Config :=
  { Providers := some ["staticfile", "cobol", "php"] }

/-- A config file that names php, staticfile and node. -/
def threeProvidersConfig : Config :=
  { Providers := some ["php", "staticfile", "node"] }

/-- An environment that sets `RAILPACK_BUILD_CMD` beside another variable. -/
def buildCmdEnvironment : Environment :=
  { Variables := [("NODE_ENV", "production"), ("RAILPACK_BUILD_CMD", "npm run build")] }

/-- An environment whose `RAILPACK_PACKAGES` has two spaces between its names. -/
def repeatedSpaceEnvironment : Environment :=
  { Variables := [("RAILPACK_PACKAGES", "node  python")] }

/-- An environment that names another config file. -/
def configFileEnvironment : Environment :=
  { Variables := [("RAILPACK_CONFIG_FILE", "custom.json")] }

/-- An environment with a plain variable and a config variable. -/
def twoVariablesEnvironment : Environment :=
  { Variables := [("DATABASE_URL", "postgres://db"), ("RAILPACK_START_CMD", "serve")] }

/-- Build options with node resolved to 22.1.0 and python unresolved; the cache
handle is the key, the apt install is an exec of apt-get. -/
def sampleBuildOptions : BuildStepOptions :=
  { ResolvedPackages :=
      [ ("node", { Name := "node", RequestedVersion := "22", ResolvedVersion := some "22.1.0" }),
        ("python", { Name := "python", RequestedVersion := "3", ResolvedVersion := none }) ]
    AddCache := fun key _ => key
    NewAptInstallCommand := fun packages =>
      .Exec ("apt-get install -y " ++ stringsJoin packages " ")
        ("install apt packages: " ++ stringsJoin packages " ") [] }

/-- A TOML encoder for the samples: a tools header and a line per tool. -/
def sampleEncode (config : MiseConfig) : Except GoError String :=
  .ok ("[tools]" ++ String.join (config.Tools.map (fun kv => " " ++ kv.1 ++ "=" ++ kv.2.Version)))

/-- The image step builder that `NewImageStep` returns to the PHP provider on a
fresh context, with a fixed image. -/
def phpImageStepBuilder : ImageStepBuilder :=
  freshContext.NewImageStep "packages:image" (fun _ => "dunglas/frankenphp:php8.4.3-bookworm")

/-- An app that has a `.nvmrc` file. -/
def nvmrcApp : App :=
  { HasMatch := fun name => name == ".nvmrc"
    ReadJSON := fun _ _ => .error (.base "no such file") }

/-- A mise step builder with the packages node and python and the supporting
apt package libatomic1, for an app with a `.nvmrc` file. -/
def nodeMiseStepBuilder : MiseStepBuilder :=
  { (newMiseStepBuilder nvmrcApp).AddSupportingAptPackage "libatomic1" with
    MisePackages := [{ Name := "node" }, { Name := "python" }] }

/-- A mise step builder with the packages python and node, registered in this
order, for an app without files. -/
def pythonNodeBuilder : MiseStepBuilder :=
  { newMiseStepBuilder emptyApp with MisePackages := [{ Name := "python" }, { Name := "node" }] }

/-- The same packages registered in the other order. -/
def nodePythonBuilder : MiseStepBuilder :=
  { newMiseStepBuilder emptyApp with MisePackages := [{ Name := "node" }, { Name := "python" }] }

/-- Build options with node and python both resolved. -/
def bothResolvedOptions : BuildStepOptions :=
  { sampleBuildOptions with
    ResolvedPackages :=
      [ ("node", { Name := "node", RequestedVersion := "22", ResolvedVersion := some "22.1.0" }),
        ("python",
          { Name := "python", RequestedVersion := "3", ResolvedVersion := some "3.13.1" }) ] }

/-- A rendering of the sorted tools for the samples: a tools header and a line
per tool. -/
def sampleRender (tools : List (String × Option MisePackage)) : Except GoError String :=
  .ok ("[tools]" ++ String.join (tools.map (fun entry =>
    " " ++ entry.1 ++ "=" ++ (match entry.2 with
      | some pkg => pkg.Version
      | none => ""))))

/-- A resolver for the samples whose state is the list of the `Default` calls
made on it, each a name and a default version; it returns the ref of the
name. -/
def recordingDefault (calls : List (String × String)) (name defaultVersion : String) :
    List (String × String) × PackageRef :=
  (calls ++ [(name, defaultVersion)], { Name := name })

/-- An oracle for the samples: it answers the query node@22 with the version
22.1.0 followed by a line break, the query ghost@1 with a line break alone,
and fails on every other query. -/
def sampleRunCmd (args : List String) : Except GoError String :=
  if args = ["latest", "--verbose", "node@22"] then .ok "22.1.0\n"
  else if args = ["latest", "--verbose", "ghost@1"] then .ok "\n"
  else .error (.base "failed to run mise command")

/-- A cache registry for the samples: the handle of a pair is its key. -/
def sampleCaches : CacheRegistry :=
  { Handle := fun key _ => key
    AptCacheSpecs :=
      [{ Key := "apt", Path := "/var/cache/apt" }, { Key := "apt-lists", Path := "/var/lib/apt" }] }

/-- Externals for the samples: a template engine that writes the root directory
or the PHP root directory of the data after the template text, a runtime image
as the default runtime input, and a registry that knows every tag. -/
def samplePlanExternals : PlanExternals :=
  { renderTemplate := fun template data =>
      match GoMap.get data "STATIC_FILE_ROOT", GoMap.get data "RAILPACK_PHP_ROOT_DIR" with
      | some (.str root), _ => .ok (template ++ root)
      | _, some (.str root) => .ok (template ++ root)
      | _, _ => .error (.base "template: no root")
    staticfileCaddyfileTemplate := "root * "
    phpCaddyfileTemplate := "root * "
    TemplateFiles := fun _ _ template data =>
      match GoMap.get data "RAILPACK_PHP_ROOT_DIR" with
      | some (.str root) => .ok { Filename := "", Contents := template ++ root }
      | _ => .error (.base "template: no root")
    DefaultRuntimeInput := fun _ => .Image "ghcr.io/railwayapp/railpack-runtime:latest"
    GetOutputPaths := fun _ => ["/mise/shims", "/mise/installs"]
    httpGetOK := fun _ => true }

/-- An app that has an `index.html` file and nothing else. -/
def indexHtmlApp : App :=
  { HasMatch := fun name => name == "index.html"
    ReadJSON := fun _ _ => .error (.base "no such file") }

/-- An app with a `Staticfile` that names the root dist, a public directory and
an index.html. -/
def staticfileApp : App :=
  { HasMatch := fun name => name == "Staticfile" || name == "public" || name == "index.html"
    ReadJSON := fun _ _ => .error (.base "no such file")
    ReadYAML := fun _ => .ok { RootDir := "dist" } }

/-- An app with a public directory and an index.html. -/
def publicApp : App :=
  { HasMatch := fun name => name == "public" || name == "index.html"
    ReadJSON := fun _ _ => .error (.base "no such file") }

/-- An environment that sets `RAILPACK_STATIC_FILE_ROOT` to out. -/
def staticRootEnvironment : Environment :=
  { Variables := [("RAILPACK_STATIC_FILE_ROOT", "out")] }

/-- An app with an `index.php` file and nothing else: it has no composer.json. -/
def indexPhpApp : App :=
  { HasMatch := fun name => name == "index.php"
    ReadJSON := fun _ _ => .error (.base "no such file") }

/-- An app with an `index.php` and a `composer.json` that requires php ^8.2
and the extensions intl and pdo. -/
def composerApp : App :=
  { HasMatch := fun name => name == "index.php" || name == "composer.json"
    ReadJSON := fun _ _ => .error (.base "no such file")
    ReadJSONMap := fun name =>
      if name = "composer.json" then
        .ok [("require", .object
          [("php", .string "^8.2"), ("ext-intl", .string "*"), ("ext-pdo", .string "*")])]
      else .error (.base "no such file") }

/-- The environment of the PHP scenario: `RAILPACK_PHP_EXTENSIONS="mbstring,gd"`. -/
def phpExtensionsEnvironment : Environment :=
  { Variables := [("RAILPACK_PHP_EXTENSIONS", "mbstring,gd")] }

/-- A node provider that detects no app. -/
def noNode : NodeProvider Unit :=
  { Zero := ()
    Detect := fun _ _ => (false, none)
    Initialize := fun _ ctx => ((), ctx, none)
    InstallMisePackages := fun _ ctx _ => ((), ctx)
    InstallNodeDeps := fun _ ctx _ => ((), ctx)
    PruneNodeDeps := fun _ ctx _ => ((), ctx)
    Build := fun _ ctx _ => ((), ctx) }

/-- The app of examples/python-uv as far as the procfile provider reads it: a
`Procfile` with the line web: gunicorn --bind 0.0.0.0:3333 main:app. -/
def pythonUvApp : App :=
  { HasMatch := fun name => name == "Procfile" || name == "pyproject.toml"
    ReadJSON := fun _ _ => .error (.base "no such file")
    ReadYAMLMap := fun name =>
      if name = "Procfile" then .ok [("web", "gunicorn --bind 0.0.0.0:3333 main:app")]
      else .error (.base "no such file") }

/-- Build options in which php is resolved to 8.2.27. -/
def phpResolvedOptions : BuildStepOptions :=
  { sampleBuildOptions with
    ResolvedPackages :=
      [("php", { Name := "php", RequestedVersion := "8.2", ResolvedVersion := some "8.2.27" })] }

/-- The text of a `gradle-wrapper.properties` that names the distribution
gradle-8.5. -/
def sampleWrapperProperties : String :=
  "distributionBase=GRADLE_USER_HOME\ndistributionUrl=https\\://services.gradle.org/distributions/gradle-8.5-bin.zip\n"

/-- A Gradle app: it has the wrapper script and the wrapper properties of
`sampleWrapperProperties`. -/
def gradleWrapperApp : App :=
  { HasMatch := fun name =>
      name == "gradlew" || name == "gradle/wrapper/gradle-wrapper.properties"
    ReadJSON := fun _ _ => .error (.base "no such file")
    ReadFile := fun name =>
      if name = "gradle/wrapper/gradle-wrapper.properties" then .ok sampleWrapperProperties
      else .error (.base "no such file") }

/-- A Gradle app without wrapper properties. -/
def gradleApp : App :=
  { HasMatch := fun name => name == "gradlew"
    ReadJSON := fun _ _ => .error (.base "no such file") }

/-- An environment that sets `RAILPACK_GRADLE_VERSION` to 7. -/
def gradleVersionEnvironment : Environment :=
  { Variables := [("RAILPACK_GRADLE_VERSION", "7")] }

/-- The PHP provider as a language provider of the orchestrator, with the
sample externals and a node provider that detects nothing. -/
def phpLanguageProvider : Provider ProviderState :=
  { Name := ({} : PhpProvider).Name
    Detect := fun ctx => (ctx, ({} : PhpProvider).Detect ctx)
    Initialize := fun ctx => (ctx, ({} : PhpProvider).Initialize ctx)
    Plan := fun ctx => ({} : PhpProvider).Plan samplePlanExternals noNode ctx }

/-- The staticfile provider as a language provider of the orchestrator, with
the sample externals.  `Initialize` stores the root directory in the provider;
neither the app nor the environment changes until `Plan` reads it, so `Plan`
runs on the provider with the root directory of the context. -/
def staticfileLanguageProvider : Provider ProviderState :=
  { Name := ({} : StaticfileProvider).Name
    Detect := fun ctx => (ctx, ({} : StaticfileProvider).Detect ctx)
    Initialize := fun ctx => (ctx, (({} : StaticfileProvider).Initialize ctx).2)
    Plan := fun ctx =>
      ({ RootDir := (getRootDir ctx).1 } : StaticfileProvider).Plan samplePlanExternals ctx }

/-- An app with an `index.php` and an `index.html`, which both the PHP and the
staticfile provider detect. -/
def phpAndHtmlApp : App :=
  { HasMatch := fun name => name == "index.php" || name == "index.html"
    ReadJSON := fun _ _ => .error (.base "no such file") }

/-- A language provider whose `Plan` registers one command step of base name
setup and returns no error. -/
def setupProvider (name : String) : Provider ProviderState :=
  { Name := name
    Detect := fun ctx => (ctx, true, none)
    Initialize := fun ctx => (ctx, none)
    Plan := fun ctx => ((ProviderContext.NewCommandStep ctx "setup").1, none) }

/-- A use list of three providers that each register a step of base name setup. -/
def setupProviders : List (Provider ProviderState) :=
  [setupProvider "php", setupProvider "node", setupProvider "staticfile"]

/-- Collaborators over the provider context: the context is created fresh for
the app and the environment, the language providers are php and staticfile, the
procfile provider is `ProcfileProvider.Plan`, `ApplyConfig` leaves the context
as it is, and `Generate` returns a plan whose deploy section is built from the
deploy accumulator of the context. -/
def providerExternals : Externals ProviderState :=
  { NewGenerateContext := fun app env =>
      .ok (freshProviderContext app (env.getD emptyEnvironment) {} sampleCaches)
    LanguageProviders := [phpLanguageProvider, staticfileLanguageProvider]
    ProcfilePlan := ProcfileProvider.Plan
    ApplyConfig := fun ctx _ => (ctx, none)
    Generate := fun ctx => (ctx, .ok ({ Deploy := ctx.Deploy.Build }, [])) }

/-- A config that names the build apt package ffmpeg and the deploy apt package
libvips. -/
def aptPackagesConfig : Config :=
  { BuildAptPackages := ["ffmpeg"], Deploy := { AptPackages := ["libvips"] } }

/-! ## Theorems -/

/-- What `DeployBuilder.Build` does for every builder: the four fields named in
its struct literal are carried over, the apt packages of the result are empty. -/
theorem DeployBuilder_Build_fields (b : DeployBuilder) :
    b.Build.Inputs = b.Inputs ∧ b.Build.StartCmd = b.StartCmd ∧
      b.Build.Variables = b.Variables ∧ b.Build.Paths = b.Paths ∧
      b.Build.AptPackages = [] :=
  ⟨rfl, rfl, rfl, rfl, rfl⟩

/-- C1, at a builder that has accumulated the apt package curl: the record
returned by `Build` has no apt package, so the accumulated field is lost, while
the other four fields are carried over. -/
theorem DeployBuilder_Build_loses_AptPackages :
    sampleDeployBuilder.AptPackages = ["curl"] ∧
      sampleDeployBuilder.Build.AptPackages = [] ∧
      sampleDeployBuilder.Build.AptPackages ≠ sampleDeployBuilder.AptPackages := by
  refine ⟨rfl, rfl, ?_⟩
  decide

/-! ### Provider selection -/

/-- With `config.Providers == nil` the first loop of `getProviders` uses at
most one provider. -/
theorem detectLoop_use_length_le_one {σ : Type} (config : Config)
    (all : List (Provider σ)) (ctx : GenerateContext σ) :
    (detectLoop config all ctx).providersToUse.length ≤ 1 := by
  induction all generalizing ctx with
  | nil => simp [detectLoop]
  | cons p rest ih =>
    simp only [detectLoop]
    split
    · exact ih _
    · split
      · split
        · split
          · exact ih _
          · simp
        · simp
      · exact ih _

/-- With `config.Providers != nil` the first loop of `getProviders` uses no
provider, calls no `Initialize` and detects at most one provider. -/
theorem detectLoop_named {σ : Type} (config : Config) (names : List String)
    (h : config.Providers = some names) (all : List (Provider σ)) (ctx : GenerateContext σ) :
    (detectLoop config all ctx).providersToUse = [] ∧
      (detectLoop config all ctx).detectedProviders.length ≤ 1 ∧
      ∀ e ∈ (detectLoop config all ctx).trace, e.isInitialize = false := by
  induction all generalizing ctx with
  | nil => simp [detectLoop]
  | cons p rest ih =>
    simp only [detectLoop, h]
    split
    · refine ⟨(ih _).1, (ih _).2.1, ?_⟩
      intro e he
      rcases List.mem_cons.1 he with rfl | he
      · rfl
      · exact (ih _).2.2 e he
    · split
      · refine ⟨rfl, by simp, ?_⟩
        intro e he
        rcases List.mem_singleton.1 he with rfl
        rfl
      · refine ⟨(ih _).1, (ih _).2.1, ?_⟩
        intro e he
        rcases List.mem_cons.1 he with rfl | he
        · rfl
        · exact (ih _).2.2 e he

/-- The second loop of `getProviders` produces the use list that the names
describe. -/
theorem namedLoop_NamedUse {σ : Type} (all : List (Provider σ)) (names : List String)
    (ctx : GenerateContext σ) :
    NamedUse all ctx names (namedLoop all names ctx).providersToUse
      (namedLoop all names ctx).ctx := by
  induction names generalizing ctx with
  | nil => exact NamedUse.done ctx
  | cons name rest ih =>
    simp only [namedLoop]
    split
    next hnone => exact NamedUse.unknown hnone (ih ctx)
    next provider hsome =>
      cases hinit : (provider.Initialize ctx).2 with
      | none =>
        simp only [hinit]
        exact NamedUse.initOk hsome hinit (ih _)
      | some e =>
        simp only [hinit]
        exact NamedUse.initFails hsome hinit (ih _)

/-- C2, at two providers that both detect the app, the first of which fails to
initialize, with `config.Providers == nil`: the first provider in declared
order whose detect succeeds is node, yet the use list holds staticfile, a
provider later in the order. -/
theorem getProviders_selects_later_provider :
    (sampleFailingInit.map (fun p => p.Name) = ["node", "staticfile"]) ∧
      ((sampleFailingInit.head?.map (fun p => (p.Detect freshContext).2)) =
        some (true, none)) ∧
      (getProviders sampleFailingInit freshContext EmptyConfig).providersToUse.map
        (fun p => p.Name) = ["staticfile"] := by
  decide

/-- C3, at the same two providers with `config.Providers == nil`: detection
does not stop at the first provider whose detect succeeds; the detected list
has two elements, and detect and initialize are both called on the provider
after the first successful one. -/
theorem getProviders_detects_two_providers :
    (getProviders sampleFailingInit freshContext EmptyConfig).detectedProviders =
        ["node", "staticfile"] ∧
      (getProviders sampleFailingInit freshContext EmptyConfig).trace =
        [.Detect "node", .Initialize "node", .Detect "staticfile", .Initialize "staticfile"] := by
  decide

/-- A provider that `GetProvider` finds is in the list and has the name asked for. -/
theorem GetProvider_some {σ : Type} (all : List (Provider σ)) (name : String)
    (provider : Provider σ) (h : GetProvider all name = some provider) :
    provider ∈ all ∧ provider.Name = name := by
  induction all with
  | nil => simp [GetProvider] at h
  | cons q rest ih =>
    simp only [GetProvider] at h
    split at h
    next hq =>
      cases h
      exact ⟨List.mem_cons_self _ _, hq⟩
    next hq =>
      exact ⟨List.mem_cons_of_mem _ (ih h).1, (ih h).2⟩

/-- The providers that the second loop of `getProviders` appends come from the
language providers, and their names are a sublist of the listed names. -/
theorem namedLoop_use {σ : Type} (all : List (Provider σ)) (names : List String)
    (ctx : GenerateContext σ) :
    (∀ p ∈ (namedLoop all names ctx).providersToUse, p ∈ all) ∧
      ((namedLoop all names ctx).providersToUse.map (fun p => p.Name)).Sublist names := by
  induction names generalizing ctx with
  | nil => simp [namedLoop]
  | cons name rest ih =>
    simp only [namedLoop]
    split
    next hnone => exact ⟨(ih ctx).1, List.Sublist.cons _ (ih ctx).2⟩
    next provider hsome =>
      have hp := GetProvider_some all name provider hsome
      cases hinit : (provider.Initialize ctx).2 with
      | some e =>
        simp only [hinit]
        exact ⟨(ih _).1, List.Sublist.cons _ (ih _).2⟩
      | none =>
        simp only [hinit]
        refine ⟨?_, ?_⟩
        · intro q hq
          rcases List.mem_cons.1 hq with rfl | hq
          · exact hp.1
          · exact (ih _).1 q hq
        · rw [List.map_cons, hp.2]
          exact List.Sublist.cons₂ _ (ih _).2

/-- C4: when `config.Providers` is a list of names, the first loop of
`getProviders` adds no provider to the use list and calls no `Initialize`, and
the use list returned is the one the names describe: in list order, the
providers that `GetProvider` finds and whose `Initialize` succeeds, an unknown
name and a failing `Initialize` being skipped. -/
theorem getProviders_named_use {σ : Type} (all : List (Provider σ))
    (ctx : GenerateContext σ) (config : Config) (names : List String)
    (h : config.Providers = some names) :
    (detectLoop config all ctx).providersToUse = [] ∧
      (∀ e ∈ (detectLoop config all ctx).trace, e.isInitialize = false) ∧
      NamedUse all (detectLoop config all ctx).ctx names
        (getProviders all ctx config).providersToUse (getProviders all ctx config).ctx ∧
      ((getProviders all ctx config).providersToUse.map (fun p => p.Name)).Sublist names := by
  have hd := detectLoop_named config names h all ctx
  have hu : (getProviders all ctx config).providersToUse =
      (namedLoop all names (detectLoop config all ctx).ctx).providersToUse := by
    simp [getProviders, h, hd.1]
  have hc : (getProviders all ctx config).ctx =
      (namedLoop all names (detectLoop config all ctx).ctx).ctx := by
    simp [getProviders, h]
  refine ⟨hd.1, hd.2.2, ?_, ?_⟩
  · rw [hu, hc]
    exact namedLoop_NamedUse all names _
  · rw [hu]
    exact (namedLoop_use all names _).2

/-- C4 at the language providers php, node, staticfile and the names
staticfile, cobol, php: the use list is staticfile, php. -/
theorem getProviders_named_use_witness :
    namedProvidersConfig.Providers = some ["staticfile", "cobol", "php"] ∧
      (detectLoop namedProvidersConfig sampleProviders freshContext).providersToUse = [] ∧
      NamedUse sampleProviders (detectLoop namedProvidersConfig sampleProviders freshContext).ctx
        ["staticfile", "cobol", "php"]
        (getProviders sampleProviders freshContext namedProvidersConfig).providersToUse
        (getProviders sampleProviders freshContext namedProvidersConfig).ctx ∧
      (getProviders sampleProviders freshContext namedProvidersConfig).providersToUse.map
        (fun p => p.Name) = ["staticfile", "php"] :=
  have h := getProviders_named_use sampleProviders freshContext namedProvidersConfig
    ["staticfile", "cobol", "php"] rfl
  ⟨rfl, h.1, h.2.2.1, by decide⟩

/-! ### The provider loop -/

/-- Past the first index the provider loop wraps every plan: when every `Plan`
returns the stack it was given and all plans succeed, the loop makes the
wrapped calls and restores the stack. -/
theorem planLoop_calls {σ : Type} (use : List (Provider σ)) (i : Nat) (ctx : GenerateContext σ)
    (hpres : ∀ p ∈ use, ∀ c : GenerateContext σ, (p.Plan c).1.SubContexts = c.SubContexts)
    (hok : (planLoop i use ctx).err = none) :
    (planLoop i use ctx).trace = wrappedPlanCalls ctx.SubContexts i use ∧
      (planLoop i use ctx).ctx.SubContexts = ctx.SubContexts := by
  induction use generalizing i ctx with
  | nil => simp [planLoop, wrappedPlanCalls]
  | cons p rest ih =>
    have hrest : ∀ q ∈ rest, ∀ c : GenerateContext σ, (q.Plan c).1.SubContexts = c.SubContexts :=
      fun q hq => hpres q (List.mem_cons_of_mem _ hq)
    have hp := hpres p (List.mem_cons_self _ _)
    simp only [planLoop] at hok ⊢
    split at hok
    next e he => simp at hok
    next he =>
      simp only [he]
      by_cases hi : i > 0
      · simp only [hi, if_true] at hok ⊢
        have hstack : ((p.Plan (ctx.EnterSubContext p.Name)).1.ExitSubContext).SubContexts =
            ctx.SubContexts := by
          simp [GenerateContext.ExitSubContext, hp, GenerateContext.EnterSubContext]
        have h := ih (i + 1) _ hrest hok
        rw [hstack] at h
        refine ⟨?_, h.2⟩
        rw [h.1]
        simp [wrappedPlanCalls, hi, GenerateContext.EnterSubContext]
      · simp only [hi, if_false] at hok ⊢
        have h := ih (i + 1) _ hrest hok
        rw [hp] at h
        refine ⟨?_, h.2⟩
        rw [h.1]
        simp [wrappedPlanCalls, hi]

/-- The providers that `laterPlannedOn` lists are those of the list. -/
theorem laterPlannedOn_fst {σ : Type} (use : List (Provider σ)) (ctx : GenerateContext σ) :
    (laterPlannedOn use ctx).map (fun pc => pc.1) = use := by
  induction use generalizing ctx with
  | nil => rfl
  | cons p rest ih => simp [laterPlannedOn, ih]

/-- The providers that `plannedOn` lists are those of the use list. -/
theorem plannedOn_fst {σ : Type} (use : List (Provider σ)) (ctx : GenerateContext σ) :
    (plannedOn use ctx).map (fun pc => pc.1) = use := by
  cases use with
  | nil => rfl
  | cons p rest => simp [plannedOn, laterPlannedOn_fst]

/-- A wrapped plan of a provider whose `Plan` hands back the stack it was given
leaves the stack as it was. -/
theorem wrappedPlan_SubContexts {σ : Type} (p : Provider σ) (ctx : GenerateContext σ)
    (hp : ∀ c : GenerateContext σ, (p.Plan c).1.SubContexts = c.SubContexts) :
    (wrappedPlan p ctx).SubContexts = ctx.SubContexts := by
  simp [wrappedPlan, GenerateContext.ExitSubContext, hp, GenerateContext.EnterSubContext]

/-- The stacks on which the providers past the first run their plans: each
provider's name pushed on the stack of the context. -/
theorem laterPlannedOn_stacks {σ : Type} (use : List (Provider σ)) (ctx : GenerateContext σ)
    (hpres : ∀ p ∈ use, ∀ c : GenerateContext σ, (p.Plan c).1.SubContexts = c.SubContexts) :
    (laterPlannedOn use ctx).map (fun pc => pc.2.SubContexts) =
      use.map (fun p => ctx.SubContexts ++ [p.Name]) := by
  induction use generalizing ctx with
  | nil => rfl
  | cons p rest ih =>
    have hrest : ∀ q ∈ rest, ∀ c : GenerateContext σ, (q.Plan c).1.SubContexts = c.SubContexts :=
      fun q hq => hpres q (List.mem_cons_of_mem _ hq)
    have hp := wrappedPlan_SubContexts p ctx (hpres p (List.mem_cons_self _ _))
    simp [laterPlannedOn, ih _ hrest, hp, GenerateContext.EnterSubContext]

/-- Past the first index the provider loop runs the wrapped plans: when each
`Plan` returns no error on the context on which the wrapped plan runs it, the
loop returns no error and leaves the context that the wrapped plans leave. -/
theorem planLoop_later {σ : Type} (use : List (Provider σ)) (k : Nat) (ctx : GenerateContext σ)
    (hok : ∀ pc ∈ laterPlannedOn use ctx, (pc.1.Plan pc.2).2 = none) :
    (planLoop (k + 1) use ctx).err = none ∧
      (planLoop (k + 1) use ctx).ctx =
        use.foldl (fun c provider => wrappedPlan provider c) ctx := by
  induction use generalizing k ctx with
  | nil => simp [planLoop]
  | cons p rest ih =>
    have hp : (p.Plan (ctx.EnterSubContext p.Name)).2 = none :=
      hok (p, ctx.EnterSubContext p.Name) (by simp [laterPlannedOn])
    have hrest := ih (k + 1) (wrappedPlan p ctx)
      (fun pc hpc => hok pc (by simp [laterPlannedOn, hpc]))
    have hk : k + 1 > 0 := Nat.succ_pos k
    simp only [planLoop, hk, if_true, hp, List.foldl_cons]
    exact hrest

/-- C6: when every provider's `Plan` hands back the sub-context stack it was
called with and all plans succeed, the provider loop of `GenerateBuildPlan`
returns no error and leaves the context that results from running the `Plan`
of the first provider on the context as it is and the `Plan` of every later
provider between `EnterSubContext(name)` and `ExitSubContext`; the first plan
runs on the stack unchanged and every later one on the stack with the
provider's name pushed; the calls recorded are the wrapped ones; and the stack
after the loop is the stack before it. -/
theorem planLoop_wraps_later_providers {σ : Type} (use : List (Provider σ))
    (ctx : GenerateContext σ)
    (hpres : ∀ p ∈ use, ∀ c : GenerateContext σ, (p.Plan c).1.SubContexts = c.SubContexts)
    (hok : ∀ pc ∈ plannedOn use ctx, (pc.1.Plan pc.2).2 = none) :
    (planLoop 0 use ctx).err = none ∧
      (planLoop 0 use ctx).ctx = wrappedPlans use ctx ∧
      (plannedOn use ctx).map (fun pc => pc.2.SubContexts) =
        (use.take 1).map (fun _ => ctx.SubContexts) ++
          (use.drop 1).map (fun p => ctx.SubContexts ++ [p.Name]) ∧
      (planLoop 0 use ctx).trace = wrappedPlanCalls ctx.SubContexts 0 use ∧
      (planLoop 0 use ctx).ctx.SubContexts = ctx.SubContexts := by
  have hrun : (planLoop 0 use ctx).err = none ∧ (planLoop 0 use ctx).ctx = wrappedPlans use ctx := by
    cases use with
    | nil => simp [planLoop, wrappedPlans]
    | cons first later =>
      have hfirst : (first.Plan ctx).2 = none := hok (first, ctx) (by simp [plannedOn])
      have hlater := planLoop_later later 0 (first.Plan ctx).1
        (fun pc hpc => hok pc (by simp [plannedOn, hpc]))
      simp only [planLoop, Nat.lt_irrefl, gt_iff_lt, if_false, hfirst, wrappedPlans]
      exact hlater
  have hstacks : (plannedOn use ctx).map (fun pc => pc.2.SubContexts) =
      (use.take 1).map (fun _ => ctx.SubContexts) ++
        (use.drop 1).map (fun p => ctx.SubContexts ++ [p.Name]) := by
    cases use with
    | nil => rfl
    | cons first later =>
      have hlater := laterPlannedOn_stacks later (first.Plan ctx).1
        (fun q hq => hpres q (List.mem_cons_of_mem _ hq))
      rw [hpres first (List.mem_cons_self _ _)] at hlater
      simp [plannedOn, hlater]
  have hcalls := planLoop_calls use 0 ctx hpres hrun.1
  exact ⟨hrun.1, hrun.2, hstacks, hcalls.1, hcalls.2⟩

/-- C6 at a use list php, node, staticfile of providers that each register a
step of base name setup, on a fresh context: the loop returns no error, the
steps registered are setup, node:setup and staticfile:setup, so php was planned
on the empty stack and node and staticfile each with their name pushed, and the
stack is empty again after the loop. -/
theorem planLoop_wraps_later_providers_witness :
    (planLoop 0 setupProviders
        (freshProviderContext emptyApp emptyEnvironment {} sampleCaches)).err = none ∧
      ProviderContext.stepNames (planLoop 0 setupProviders
        (freshProviderContext emptyApp emptyEnvironment {} sampleCaches)).ctx =
        ["setup", "node:setup", "staticfile:setup"] ∧
      (plannedOn setupProviders
        (freshProviderContext emptyApp emptyEnvironment {} sampleCaches)).map
          (fun pc => pc.2.SubContexts) = [[], ["node"], ["staticfile"]] ∧
      (planLoop 0 setupProviders
        (freshProviderContext emptyApp emptyEnvironment {} sampleCaches)).trace =
        [.Plan "php" [], .EnterSubContext "node", .Plan "node" ["node"], .ExitSubContext,
          .EnterSubContext "staticfile", .Plan "staticfile" ["staticfile"], .ExitSubContext] ∧
      (planLoop 0 setupProviders
        (freshProviderContext emptyApp emptyEnvironment {} sampleCaches)).ctx.SubContexts = [] :=
  have hmem : ∀ p ∈ setupProviders, ∀ c : GenerateContext ProviderState,
      (p.Plan c).1.SubContexts = c.SubContexts ∧ (p.Plan c).2 = none := by
    intro p hp c
    simp only [setupProviders, List.mem_cons, List.mem_singleton, List.not_mem_nil, or_false] at hp
    rcases hp with rfl | rfl | rfl <;> exact ⟨rfl, rfl⟩
  have h := planLoop_wraps_later_providers setupProviders
    (freshProviderContext emptyApp emptyEnvironment {} sampleCaches)
    (fun p hp c => (hmem p hp c).1)
    (fun pc hpc => (hmem pc.1 (by
      have hfst := plannedOn_fst setupProviders
        (freshProviderContext emptyApp emptyEnvironment {} sampleCaches)
      rw [← hfst]
      exact List.mem_map_of_mem _ hpc) pc.2).2)
  ⟨h.1, (congrArg ProviderContext.stepNames h.2.1).trans rfl, h.2.2.1.trans rfl,
    h.2.2.2.1.trans rfl, h.2.2.2.2⟩

/-- The stacks of a sequence of calls followed by another. -/
theorem planStacks_append (a b : List Event) :
    planStacks (a ++ b) = planStacks a ++ planStacks b := by
  induction a with
  | nil => rfl
  | cons e rest ih => cases e <;> simp [planStacks, ih]

/-- The stacks of the wrapped calls past the first index: each provider's name
pushed on the stack. -/
theorem planStacks_wrapped_succ {σ : Type} (stack : List String) (use : List (Provider σ))
    (i : Nat) :
    planStacks (wrappedPlanCalls stack (i + 1) use) = use.map (fun p => stack ++ [p.Name]) := by
  induction use generalizing i with
  | nil => rfl
  | cons p rest ih => simp [wrappedPlanCalls, planStacks, ih]

/-- The stacks of the wrapped calls of a whole use list: the stack itself for
the first provider, the name pushed for every later one. -/
theorem planStacks_wrapped_zero {σ : Type} (stack : List String) (use : List (Provider σ)) :
    planStacks (wrappedPlanCalls stack 0 use) <+:
      stack :: use.tail.map (fun p => stack ++ [p.Name]) := by
  cases use with
  | nil => simp [wrappedPlanCalls, planStacks]
  | cons p rest =>
    simp [wrappedPlanCalls, planStacks, planStacks_wrapped_succ]

/-- Whether or not a plan fails, the stacks with which the loop calls the plans
are an initial part of the stacks of the wrapped calls. -/
theorem planLoop_stacks {σ : Type} (use : List (Provider σ)) (i : Nat) (ctx : GenerateContext σ)
    (hpres : ∀ p ∈ use, ∀ c : GenerateContext σ, (p.Plan c).1.SubContexts = c.SubContexts) :
    planStacks (planLoop i use ctx).trace <+:
      planStacks (wrappedPlanCalls ctx.SubContexts i use) := by
  induction use generalizing i ctx with
  | nil => simp [planLoop, wrappedPlanCalls]
  | cons p rest ih =>
    have hrest : ∀ q ∈ rest, ∀ c : GenerateContext σ, (q.Plan c).1.SubContexts = c.SubContexts :=
      fun q hq => hpres q (List.mem_cons_of_mem _ hq)
    have hp := hpres p (List.mem_cons_self _ _)
    simp only [planLoop]
    split
    next e he =>
      by_cases hi : i > 0
      · simp [hi, wrappedPlanCalls, planStacks, GenerateContext.EnterSubContext]
      · simp [hi, wrappedPlanCalls, planStacks]
    next he =>
      by_cases hi : i > 0
      · simp only [hi, if_true]
        have hstack : ((p.Plan (ctx.EnterSubContext p.Name)).1.ExitSubContext).SubContexts =
            ctx.SubContexts := by
          simp [GenerateContext.ExitSubContext, hp, GenerateContext.EnterSubContext]
        have h := ih (i + 1) ((p.Plan (ctx.EnterSubContext p.Name)).1.ExitSubContext) hrest
        rw [hstack] at h
        simpa [wrappedPlanCalls, hi, planStacks, planStacks_append,
          GenerateContext.EnterSubContext] using h
      · simp only [hi, if_false]
        have h := ih (i + 1) (p.Plan ctx).1 hrest
        rw [hp] at h
        simpa [wrappedPlanCalls, hi, planStacks, planStacks_append] using h

/-- The step name under the empty stack is the base name. -/
theorem stepNameUnder_nil (base : String) : stepNameUnder [] base = base := rfl

/-- The step name under a stack of one name is the name, a colon and the base name. -/
theorem stepNameUnder_singleton (name base : String) :
    stepNameUnder [name] base = name ++ ":" ++ base := by
  simp [stepNameUnder, GenerateContext.GetStepName, stringsJoin, String.intercalate,
    String.intercalate.go]

/-- C5, at the config list php, staticfile, staticfile on an app with an
index.php and an index.html: the use list of `getProviders` holds the
staticfile provider twice, the provider loop run on it returns no error, both
staticfile entries are planned under the prefix staticfile, and the step
builders registered in the context after the loop hold the full step name
staticfile:setup twice, so the step names are not unique, against the comment
at the loop that the sub-context is entered so that step names are unique. -/
theorem duplicate_provider_names_repeat_step_name :
    (getProviders [phpLanguageProvider, staticfileLanguageProvider]
        (freshProviderContext phpAndHtmlApp emptyEnvironment {} sampleCaches)
        duplicateProvidersConfig).providersToUse.map (fun p => p.Name) =
        ["php", "staticfile", "staticfile"] ∧
      (planLoop 0
        (getProviders [phpLanguageProvider, staticfileLanguageProvider]
          (freshProviderContext phpAndHtmlApp emptyEnvironment {} sampleCaches)
          duplicateProvidersConfig).providersToUse
        ((getProviders [phpLanguageProvider, staticfileLanguageProvider]
          (freshProviderContext phpAndHtmlApp emptyEnvironment {} sampleCaches)
          duplicateProvidersConfig).ctx.SetMetadata "providers"
            "php,staticfile,staticfile")).err = none ∧
      ProviderContext.stepNames (planLoop 0
        (getProviders [phpLanguageProvider, staticfileLanguageProvider]
          (freshProviderContext phpAndHtmlApp emptyEnvironment {} sampleCaches)
          duplicateProvidersConfig).providersToUse
        ((getProviders [phpLanguageProvider, staticfileLanguageProvider]
          (freshProviderContext phpAndHtmlApp emptyEnvironment {} sampleCaches)
          duplicateProvidersConfig).ctx.SetMetadata "providers"
            "php,staticfile,staticfile")).ctx =
        ["packages:image", "prepare", "extensions", "install:composer", "build",
          "packages:mise", "staticfile:setup", "staticfile:setup"] ∧
      ¬ (ProviderContext.stepNames (planLoop 0
        (getProviders [phpLanguageProvider, staticfileLanguageProvider]
          (freshProviderContext phpAndHtmlApp emptyEnvironment {} sampleCaches)
          duplicateProvidersConfig).providersToUse
        ((getProviders [phpLanguageProvider, staticfileLanguageProvider]
          (freshProviderContext phpAndHtmlApp emptyEnvironment {} sampleCaches)
          duplicateProvidersConfig).ctx.SetMetadata "providers"
            "php,staticfile,staticfile")).ctx).Nodup :=
  ⟨rfl, rfl, rfl, by decide⟩

/-- With a list of names in the config, the use list of `getProviders` is the
one that its second loop appends. -/
theorem getProviders_of_names {σ : Type} (all : List (Provider σ))
    (ctx : GenerateContext σ) (config : Config) (names : List String)
    (h : config.Providers = some names) :
    (getProviders all ctx config).providersToUse =
      (namedLoop all names (detectLoop config all ctx).ctx).providersToUse := by
  have hd := detectLoop_named config names h all ctx
  simp [getProviders, h, hd.1]

/-- A base name is not the full step name that a pushed provider name gives it. -/
theorem base_ne_prefixed (name base : String) : base ≠ name ++ ":" ++ base := by
  intro h
  have hl := congrArg String.length h
  simp only [String.length_append] at hl
  have hc : ":".length = 1 := rfl
  omega

/-- Prefixing with a provider name and a colon is injective in the name. -/
theorem prefixed_injective (base : String) :
    Function.Injective (fun name : String => name ++ ":" ++ base) := by
  intro n m h
  have hd := congrArg String.data h
  simp only [String.data_append] at hd
  exact String.ext (List.append_cancel_right (List.append_cancel_right hd))

/-- Where the names differ: when `config.Providers` is a list without a repeated name,
every provider's `Plan` hands back the sub-context stack it was called with and
the loop starts from the empty stack, the provider loop plans the first provider
under no prefix and each later one under its own name, these stacks are pairwise
different, and for every base name the full step names under them are pairwise
different. -/
theorem distinct_names_distinct_step_names {σ : Type} (all : List (Provider σ))
    (ctx : GenerateContext σ) (config : Config) (names : List String)
    (hcfg : config.Providers = some names) (hnodup : names.Nodup)
    (hpres : ∀ p ∈ all, ∀ c : GenerateContext σ, (p.Plan c).1.SubContexts = c.SubContexts)
    (ctx0 : GenerateContext σ) (hfresh : ctx0.SubContexts = []) :
    planStacks (planLoop 0 (getProviders all ctx config).providersToUse ctx0).trace <+:
        ([] :: (getProviders all ctx config).providersToUse.tail.map (fun p => [p.Name])) ∧
      (planStacks (planLoop 0 (getProviders all ctx config).providersToUse ctx0).trace).Nodup ∧
      ∀ base : String,
        ((planStacks (planLoop 0 (getProviders all ctx config).providersToUse ctx0).trace).map
          (fun stack => stepNameUnder stack base)).Nodup := by
  have hu := getProviders_of_names all ctx config names hcfg
  have hn := namedLoop_use all names (detectLoop config all ctx).ctx
  rw [← hu] at hn
  generalize (getProviders all ctx config).providersToUse = use at hn ⊢
  have hpres' : ∀ p ∈ use, ∀ c : GenerateContext σ, (p.Plan c).1.SubContexts = c.SubContexts :=
    fun p hp => hpres p (hn.1 p hp)
  have htail : (use.tail.map (fun p => p.Name)).Nodup :=
    (((List.tail_sublist use).map _).trans hn.2).nodup hnodup
  have hpre : planStacks (planLoop 0 use ctx0).trace <+:
      ([] :: use.tail.map (fun p => [p.Name])) := by
    have h1 := planLoop_stacks use 0 ctx0 hpres'
    have h2 := planStacks_wrapped_zero ctx0.SubContexts use
    rw [hfresh] at h1 h2
    simpa using h1.trans h2
  have hmap : use.tail.map (fun p => [p.Name]) =
      (use.tail.map (fun p => p.Name)).map (fun n => [n]) := by
    simp [List.map_map, Function.comp_def]
  refine ⟨hpre, ?_, ?_⟩
  · refine hpre.sublist.nodup (List.nodup_cons.2 ⟨?_, ?_⟩)
    · intro hmem
      rcases List.mem_map.1 hmem with ⟨q, _, hq⟩
      cases hq
    · rw [hmap]
      exact htail.map (fun a b hab => by simpa using hab)
  · intro base
    refine (hpre.sublist.map _).nodup ?_
    have hnames : (use.tail.map (fun p => [p.Name])).map (fun stack => stepNameUnder stack base) =
        (use.tail.map (fun p => p.Name)).map (fun n => n ++ ":" ++ base) := by
      simp [List.map_map, Function.comp_def, stepNameUnder_singleton]
    rw [List.map_cons, stepNameUnder_nil, hnames]
    refine List.nodup_cons.2 ⟨?_, htail.map (prefixed_injective base)⟩
    intro hmem
    rcases List.mem_map.1 hmem with ⟨n, _, hn'⟩
    exact base_ne_prefixed n base hn'.symm

/-! ### `GenerateBuildPlan` -/

/-- The planned providers of a sequence of calls followed by another. -/
theorem plannedProviders_append (a b : List Event) :
    plannedProviders (a ++ b) = plannedProviders a ++ plannedProviders b := by
  induction a with
  | nil => rfl
  | cons e rest ih => cases e <;> simp [plannedProviders, ih]

/-- Calls of `getProviders` plan no provider. -/
theorem plannedProviders_of_selection (t : List Event)
    (h : ∀ e ∈ t, e.isSelectionCall = true) : plannedProviders t = [] := by
  induction t with
  | nil => rfl
  | cons e rest ih =>
    have he := h e (List.mem_cons_self _ _)
    have hrest := ih (fun x hx => h x (List.mem_cons_of_mem _ hx))
    cases e <;> simp_all [plannedProviders, Event.isSelectionCall]

/-- The first loop of `getProviders` only calls `Detect` and `Initialize`. -/
theorem detectLoop_trace {σ : Type} (config : Config) (all : List (Provider σ))
    (ctx : GenerateContext σ) :
    ∀ e ∈ (detectLoop config all ctx).trace, e.isSelectionCall = true := by
  induction all generalizing ctx with
  | nil => simp [detectLoop]
  | cons p rest ih =>
    simp only [detectLoop]
    split
    · intro e he
      rcases List.mem_cons.1 he with rfl | he
      · rfl
      · exact ih _ e he
    · split
      · split
        · split
          · intro e he
            rcases List.mem_cons.1 he with rfl | he
            · rfl
            · rcases List.mem_cons.1 he with rfl | he
              · rfl
              · exact ih _ e he
          · intro e he
            simp only [List.mem_cons, List.mem_singleton, List.not_mem_nil, or_false] at he
            rcases he with rfl | rfl <;> rfl
        · intro e he
          rcases List.mem_singleton.1 he with rfl
          rfl
      · intro e he
        rcases List.mem_cons.1 he with rfl | he
        · rfl
        · exact ih _ e he

/-- The second loop of `getProviders` only calls `Initialize`. -/
theorem namedLoop_trace {σ : Type} (all : List (Provider σ)) (names : List String)
    (ctx : GenerateContext σ) :
    ∀ e ∈ (namedLoop all names ctx).trace, e.isSelectionCall = true := by
  induction names generalizing ctx with
  | nil => simp [namedLoop]
  | cons name rest ih =>
    simp only [namedLoop]
    split
    · exact ih ctx
    next provider hsome =>
      cases hinit : (provider.Initialize ctx).2 with
      | some e =>
        simp only [hinit]
        intro e he
        rcases List.mem_cons.1 he with rfl | he
        · rfl
        · exact ih _ e he
      | none =>
        simp only [hinit]
        intro e he
        rcases List.mem_cons.1 he with rfl | he
        · rfl
        · exact ih _ e he

/-- The function `getProviders` only calls `Detect` and `Initialize`. -/
theorem getProviders_trace {σ : Type} (all : List (Provider σ)) (ctx : GenerateContext σ)
    (config : Config) :
    ∀ e ∈ (getProviders all ctx config).trace, e.isSelectionCall = true := by
  unfold getProviders
  cases hp : config.Providers with
  | none => exact detectLoop_trace config all ctx
  | some names =>
    intro e he
    rcases List.mem_append.1 he with he | he
    · exact detectLoop_trace config all ctx e he
    · exact namedLoop_trace all names _ e he

/-- The provider loop only enters and leaves sub-contexts and calls `Plan`. -/
theorem planLoop_trace {σ : Type} (use : List (Provider σ)) (i : Nat) (ctx : GenerateContext σ) :
    ∀ e ∈ (planLoop i use ctx).trace, e.isLoopCall = true := by
  induction use generalizing i ctx with
  | nil => simp [planLoop]
  | cons p rest ih =>
    simp only [planLoop]
    split
    next e he =>
      intro ev hev
      by_cases hi : i > 0
      · simp only [hi, if_true, List.cons_append, List.nil_append, List.mem_cons,
          List.mem_singleton, List.not_mem_nil, or_false] at hev
        rcases hev with rfl | rfl <;> rfl
      · simp only [hi, if_false, List.nil_append, List.mem_singleton] at hev
        rcases hev with rfl
        rfl
    next he =>
      intro ev hev
      by_cases hi : i > 0
      · simp only [hi, if_true, List.cons_append, List.nil_append, List.mem_cons,
          List.append_assoc] at hev
        rcases hev with rfl | rfl | rfl | hev
        · rfl
        · rfl
        · rfl
        · exact ih _ _ ev hev
      · simp only [hi, if_false, List.nil_append, List.append_nil, List.cons_append,
          List.mem_cons] at hev
        rcases hev with rfl | hev
        · rfl
        · exact ih _ _ ev hev

/-- When the providers `pre` plan without error and the plan of the next
provider `p` returns the error `e`, the provider loop returns `e` wrapped as
failed to run provider, and the providers planned are those of `pre` and `p`. -/
theorem planLoop_fails_at {σ : Type} (pre : List (Provider σ)) (p : Provider σ)
    (post : List (Provider σ)) (i : Nat) (ctx : GenerateContext σ) (e : GoError)
    (hpre : (planLoop i pre ctx).err = none)
    (hfail : (p.Plan (if i + pre.length > 0
        then (planLoop i pre ctx).ctx.EnterSubContext p.Name
        else (planLoop i pre ctx).ctx)).2 = some e) :
    (planLoop i (pre ++ p :: post) ctx).err = some (Errorf "failed to run provider: " e) ∧
      plannedProviders (planLoop i (pre ++ p :: post) ctx).trace =
        (pre ++ [p]).map (fun q => q.Name) := by
  induction pre generalizing i ctx with
  | nil =>
    simp only [planLoop, List.length_nil, Nat.add_zero] at hfail
    simp only [List.nil_append, planLoop, hfail]
    by_cases hi : i > 0 <;> simp [hi, plannedProviders]
  | cons q rest ih =>
    simp only [planLoop] at hpre hfail
    simp only [List.cons_append, planLoop]
    split at hpre
    next e' he' => simp at hpre
    next he' =>
      simp only [he'] at hfail ⊢
      have hidx : i + (q :: rest).length = (i + 1) + rest.length := by
        simp only [List.length_cons]; omega
      rw [hidx] at hfail
      have h := ih (i + 1) _ hpre hfail
      refine ⟨h.1, ?_⟩
      have h2 := h.2
      by_cases hi : i > 0
      · simp only [hi, if_true] at h2 ⊢
        simp [plannedProviders_append, plannedProviders, h2]
      · simp only [hi, if_false] at h2 ⊢
        simp [plannedProviders_append, plannedProviders, h2]

/-- C7: when the context and the config are obtained, the use list is
`pre ++ p :: post`, the providers of `pre` plan without error and the plan of
`p` returns the error `e`, `GenerateBuildPlan` returns no result and the error
with message failed to run provider followed by the message of `e`, wrapping
`e`; the providers planned are those of `pre` and `p` and no provider of
`post`, and neither the procfile provider, `ApplyConfig` nor `Generate` is
called. -/
theorem GenerateBuildPlan_plan_error {σ : Type} (ext : Externals σ) (app : App)
    (env : Option Environment) (o : GenerateBuildPlanOptions) (ctx0 : GenerateContext σ)
    (config : Config) (pre : List (Provider σ)) (p : Provider σ) (post : List (Provider σ))
    (e : GoError) (r : ProvidersResult σ) (c : GenerateContext σ)
    (hctx : ext.NewGenerateContext app env = .ok ctx0)
    (hcfg : GetConfig app env (some o) = .ok config)
    (hr : r = getProviders ext.LanguageProviders (setPreviousVersions o ctx0) config)
    (huse : r.providersToUse = pre ++ p :: post)
    (hc : c = r.ctx.SetMetadata "providers"
      (stringsJoin (r.providersToUse.map (fun q => q.Name)) ","))
    (hpre : (planLoop 0 pre c).err = none)
    (hfail : (p.Plan (if pre.length > 0
        then (planLoop 0 pre c).ctx.EnterSubContext p.Name
        else (planLoop 0 pre c).ctx)).2 = some e) :
    (GenerateBuildPlan ext app env (some o)).outcome =
        .error (Errorf "failed to run provider: " e) ∧
      (Errorf "failed to run provider: " e).Error = "failed to run provider: " ++ e.Error ∧
      (Errorf "failed to run provider: " e).Unwrap = some e ∧
      plannedProviders (GenerateBuildPlan ext app env (some o)).trace =
        (pre ++ [p]).map (fun q => q.Name) ∧
      Event.ProcfilePlan ∉ (GenerateBuildPlan ext app env (some o)).trace ∧
      Event.ApplyConfig ∉ (GenerateBuildPlan ext app env (some o)).trace ∧
      Event.Generate ∉ (GenerateBuildPlan ext app env (some o)).trace := by
  have hl := planLoop_fails_at pre p post 0 c e hpre (by rw [Nat.zero_add]; exact hfail)
  rw [← huse] at hl
  have hrun : GenerateBuildPlan ext app env (some o) =
      { outcome := .error (Errorf "failed to run provider: " e)
        trace := r.trace ++ (planLoop 0 r.providersToUse c).trace } := by
    simp only [GenerateBuildPlan, hctx, hcfg]
    rw [← hr, ← hc]
    simp only [hl.1]
  have hsel : ∀ ev ∈ r.trace, ev.isSelectionCall = true := by
    rw [hr]
    exact getProviders_trace _ _ _
  have hloop := planLoop_trace r.providersToUse 0 c
  have hnot : ∀ ev : Event, ev.isSelectionCall = false → ev.isLoopCall = false →
      ev ∉ r.trace ++ (planLoop 0 r.providersToUse c).trace := by
    intro ev h1 h2 hmem
    rcases List.mem_append.1 hmem with hm | hm
    · rw [hsel ev hm] at h1
      cases h1
    · rw [hloop ev hm] at h2
      cases h2
  rw [hrun]
  refine ⟨rfl, rfl, rfl, ?_, hnot _ rfl rfl, hnot _ rfl rfl, hnot _ rfl rfl⟩
  simp only [plannedProviders_append, plannedProviders_of_selection r.trace hsel,
    List.nil_append]
  exact hl.2

/-- C7 at a config file naming php, staticfile and node, where the plan of
staticfile fails: the error wraps the plan error, php and staticfile are the
providers planned and node is not. -/
theorem GenerateBuildPlan_plan_error_witness :
    (GenerateBuildPlan (sampleExternals sampleFailingPlan)
        (appWithConfigFile threeProvidersConfig) (some emptyEnvironment) (some {})).outcome =
        .error (.wrap "failed to run provider: Caddyfile template error"
          (.base "Caddyfile template error")) ∧
      plannedProviders (GenerateBuildPlan (sampleExternals sampleFailingPlan)
        (appWithConfigFile threeProvidersConfig) (some emptyEnvironment) (some {})).trace =
        ["php", "staticfile"] ∧
      Event.Generate ∉ (GenerateBuildPlan (sampleExternals sampleFailingPlan)
        (appWithConfigFile threeProvidersConfig) (some emptyEnvironment) (some {})).trace :=
  have h := GenerateBuildPlan_plan_error (sampleExternals sampleFailingPlan)
    (appWithConfigFile threeProvidersConfig) (some emptyEnvironment) {} freshContext
    (Merge [GenerateConfigFromOptions (some {}),
      GenerateConfigFromEnvironment (appWithConfigFile threeProvidersConfig)
        (some emptyEnvironment), threeProvidersConfig])
    [fixedProvider "php" true none none]
    (fixedProvider "staticfile" true none (some (.base "Caddyfile template error")))
    [fixedProvider "node" false none none]
    (.base "Caddyfile template error") _ _ rfl rfl rfl rfl rfl rfl rfl
  ⟨h.1.trans (by decide), h.2.2.2.1, h.2.2.2.2.2.2⟩

/-- C8, at nil options with a context that is created without error:
`GenerateBuildPlan` returns neither a result nor an error, it panics on reading
`options.PreviousVersions`. -/
theorem GenerateBuildPlan_nil_options_panics :
    (sampleExternals sampleProviders).NewGenerateContext emptyApp (some emptyEnvironment) =
        .ok freshContext ∧
      (GenerateBuildPlan (sampleExternals sampleProviders) emptyApp (some emptyEnvironment)
        none).outcome = .panic :=
  ⟨rfl, rfl⟩

/-- For every collaborator set, app and environment: once the context is
created, nil options make `GenerateBuildPlan` panic. -/
theorem GenerateBuildPlan_nil_options {σ : Type} (ext : Externals σ) (app : App)
    (env : Option Environment) (ctx : GenerateContext σ)
    (hctx : ext.NewGenerateContext app env = .ok ctx) :
    (GenerateBuildPlan ext app env none).outcome = .panic := by
  simp [GenerateBuildPlan, hctx]

/-- C9: for every app and environment, `GetConfig` with nil options panics
(`GenerateConfigFromFile` reads `options.ConfigFilePath` without a nil check),
although `GenerateConfigFromOptions` accepts nil options as an empty config. -/
theorem GetConfig_nil_options_panics (app : App) (env : Option Environment) :
    GenerateConfigFromOptions none = EmptyConfig ∧ GetConfig app env none = .panic :=
  ⟨rfl, rfl⟩

/-- With options and an environment at hand, `GenerateConfigFromFile` does not panic. -/
theorem GenerateConfigFromFile_some_ne_panic (app : App) (e : Environment)
    (o : GenerateBuildPlanOptions) :
    GenerateConfigFromFile app (some e) (some o) ≠ .panic := by
  unfold GenerateConfigFromFile
  simp only []
  intro h
  repeat' split at h
  all_goals cases h

/-- With options and an environment at hand, `GetConfig` does not panic. -/
theorem GetConfig_some_ne_panic (app : App) (e : Environment) (o : GenerateBuildPlanOptions) :
    GetConfig app (some e) (some o) ≠ .panic := by
  unfold GetConfig
  cases hf : GenerateConfigFromFile app (some e) (some o) with
  | panic => exact absurd hf (GenerateConfigFromFile_some_ne_panic app e o)
  | error err => intro h; cases h
  | ok fileConfig => intro h; cases h

/-- With options and an environment at hand, `GenerateBuildPlan` returns an
error or a result, and then the result carries the plan and the resolved
packages that `Generate` returned, the metadata of the context that `Generate`
left and the detected provider names of `getProviders`. -/
theorem GenerateBuildPlan_some_options {σ : Type} (ext : Externals σ) (app : App)
    (e : Environment) (o : GenerateBuildPlanOptions) :
    (∃ err, (GenerateBuildPlan ext app (some e) (some o)).outcome = .error err) ∨
      ∃ (ctx0 : GenerateContext σ) (config : Config) (ctx ctx1 : GenerateContext σ)
        (buildPlan : BuildPlan) (resolved : GoMap ResolvedPackage),
        ext.NewGenerateContext app (some e) = .ok ctx0 ∧
        GetConfig app (some e) (some o) = .ok config ∧
        ext.Generate ctx = (ctx1, .ok (buildPlan, resolved)) ∧
        (GenerateBuildPlan ext app (some e) (some o)).outcome = .ok
          { Plan := buildPlan
            ResolvedPackages := resolved
            Metadata := ctx1.Metadata
            DetectedProviders := (getProviders ext.LanguageProviders
              (setPreviousVersions o ctx0) config).detectedProviders } := by
  unfold GenerateBuildPlan
  cases hctx : ext.NewGenerateContext app (some e) with
  | error err => exact Or.inl ⟨err, rfl⟩
  | ok ctx0 =>
    cases hcfg : GetConfig app (some e) (some o) with
    | panic => exact absurd hcfg (GetConfig_some_ne_panic app e o)
    | error err => exact Or.inl ⟨err, rfl⟩
    | ok config =>
      simp only []
      split
      · exact Or.inl ⟨_, rfl⟩
      · split
        · exact Or.inl ⟨_, rfl⟩
        · split
          · exact Or.inl ⟨_, rfl⟩
          · split
            · exact Or.inl ⟨_, rfl⟩
            · rename_i hgen
              exact Or.inr ⟨ctx0, config, _, _, _, _, rfl, rfl, Prod.ext rfl hgen, rfl⟩

/-! ### `GetConfig` -/

/-- Reading a key after an assignment. -/
theorem GoMap.get_set {α : Type} (m : GoMap α) (k k' : String) (v : α) :
    (m.set k v).get k' = if k = k' then some v else m.get k' := by
  induction m with
  | nil => simp [GoMap.set, GoMap.get]
  | cons kv rest ih =>
    obtain ⟨k1, v1⟩ := kv
    simp only [GoMap.set]
    by_cases h1 : k1 = k
    · subst h1
      simp only [if_true, GoMap.get]
      by_cases h2 : k1 = k' <;> simp [h2]
    · simp only [h1, if_false, GoMap.get, ih]
      by_cases h2 : k1 = k'
      · subst h2
        have : ¬ k = k1 := fun h => h1 h.symm
        simp [this]
      · simp [h2]

/-- A key that a map does not hold reads as absent. -/
theorem GoMap.get_of_not_mem_keys {α : Type} (m : GoMap α) (k : String)
    (h : k ∉ m.keys) : m.get k = none := by
  induction m with
  | nil => rfl
  | cons kv rest ih =>
    obtain ⟨k1, v1⟩ := kv
    simp only [GoMap.keys, List.map_cons, List.mem_cons, not_or] at h
    have h1 : ¬ k1 = k := fun hk => h.1 hk.symm
    simp only [GoMap.get, h1, if_false]
    exact ih h.2

/-- The key-wise merge reads a key from the later map when it holds the key,
else from the earlier one. -/
theorem mergeMaps_get {α : Type} (earlier later : GoMap α) (k : String)
    (hkeys : later.keys.Nodup) :
    (mergeMaps earlier later).get k =
      match later.get k with
      | some v => some v
      | none => earlier.get k := by
  induction later generalizing earlier with
  | nil => rfl
  | cons kv rest ih =>
    obtain ⟨k1, v1⟩ := kv
    simp only [GoMap.keys, List.map_cons, List.nodup_cons] at hkeys
    have hrest := ih (earlier.set k1 v1) hkeys.2
    simp only [mergeMaps, List.foldl_cons] at hrest ⊢
    rw [hrest, GoMap.get_set]
    by_cases h1 : k1 = k
    · subst h1
      have hnone : GoMap.get rest k1 = none := GoMap.get_of_not_mem_keys rest k1 hkeys.1
      simp [GoMap.get, hnone]
    · simp [GoMap.get, h1]

/-- The packages of a merge of three configs: the packages of the third merged
over those of the merge of the first two. -/
theorem Merge_three_Packages (a b c : Config) :
    (Merge [a, b, c]).Packages = mergeMaps (Merge [a, b]).Packages c.Packages := rfl

/-- C10: with options and an environment at hand, when the file config is
read, `GetConfig` returns the merge of the options, environment and file
configs in this order; for every package name that the file pins the merged
version is the file's, and for every other name it is the one of the merged
options and environment configs; when reading the chosen config file fails,
`GetConfig` returns the error of `GenerateConfigFromFile`, which wraps the read
error, and no config. -/
theorem GetConfig_file_wins (app : App) (e : Environment) (o : GenerateBuildPlanOptions) :
    (∀ fileConfig : Config, GenerateConfigFromFile app (some e) (some o) = .ok fileConfig →
      GetConfig app (some e) (some o) =
          .ok (Merge [GenerateConfigFromOptions (some o),
            GenerateConfigFromEnvironment app (some e), fileConfig]) ∧
        (fileConfig.Packages.keys.Nodup →
          (∀ name version : String, fileConfig.Packages.get name = some version →
            (Merge [GenerateConfigFromOptions (some o),
              GenerateConfigFromEnvironment app (some e), fileConfig]).Packages.get name =
              some version) ∧
          (∀ name : String, fileConfig.Packages.get name = none →
            (Merge [GenerateConfigFromOptions (some o),
              GenerateConfigFromEnvironment app (some e), fileConfig]).Packages.get name =
              (Merge [GenerateConfigFromOptions (some o),
                GenerateConfigFromEnvironment app (some e)]).Packages.get name))) ∧
      (∀ err : GoError, GenerateConfigFromFile app (some e) (some o) = .error err →
        GetConfig app (some e) (some o) = .error err) ∧
      (∀ readErr : GoError, app.HasMatch (chosenConfigFileName e o) = true →
        app.ReadJSON (chosenConfigFileName e o) EmptyConfig = .error readErr →
        GetConfig app (some e) (some o) =
          .error (Errorf "failed to read config file: " readErr)) := by
  refine ⟨?_, ?_, ?_⟩
  · intro fileConfig hfile
    refine ⟨by simp [GetConfig, hfile], ?_⟩
    intro hkeys
    refine ⟨?_, ?_⟩
    · intro name version hpin
      rw [Merge_three_Packages, mergeMaps_get _ _ name hkeys, hpin]
    · intro name hfree
      rw [Merge_three_Packages, mergeMaps_get _ _ name hkeys, hfree]
  · intro err hfile
    simp [GetConfig, hfile]
  · intro readErr hmatch hread
    have hfile : GenerateConfigFromFile app (some e) (some o) =
        .error (Errorf "failed to read config file: " readErr) := by
      unfold chosenConfigFileName at hmatch hread
      simp only [] at hmatch hread
      unfold GenerateConfigFromFile
      simp only [hmatch, hread]
      rfl
    simp [GetConfig, hfile]

/-- C10 at end-to-end scenario 6: the config file pins node to 20 and
`RAILPACK_PACKAGES` is node python; the merged config has node at 20 and
python at latest. -/
theorem GetConfig_file_wins_witness :
    GenerateConfigFromFile (appWithConfigFile packagesFileConfig) (some packagesEnvironment)
        (some {}) = .ok packagesFileConfig ∧
      packagesFileConfig.Packages.keys.Nodup ∧
      ∃ config : Config,
        GetConfig (appWithConfigFile packagesFileConfig) (some packagesEnvironment) (some {}) =
          .ok config ∧
        config.Packages.get "node" = some "20" ∧
        config.Packages.get "python" = some "latest" :=
  have h := (GetConfig_file_wins (appWithConfigFile packagesFileConfig) packagesEnvironment
    {}).1 packagesFileConfig rfl
  ⟨rfl, by decide, _, h.1, (h.2 (by decide)).1 "node" "20" (by decide),
    ((h.2 (by decide)).2 "python" (by decide)).trans (by decide)⟩

/-! ### The three config sources -/

/-- The steps of the config that `GenerateConfigFromEnvironment` returns are
those set for `RAILPACK_BUILD_CMD`: no later branch touches them. -/
theorem GenerateConfigFromEnvironment_Steps (app : App) (e : Environment) :
    (GenerateConfigFromEnvironment app (some e)).Steps =
      if e.GetConfigVariable "BUILD_CMD" ≠ "" then
        [("build", { Name := "build", Commands :=
          [.Copy "." none none,
            .ExecShell (e.GetConfigVariable "BUILD_CMD") (e.GetConfigVariable "BUILD_CMD")] })]
      else [] := by
  simp only [GenerateConfigFromEnvironment]
  split_ifs <;> rfl

/-- The steps of the config that `GenerateConfigFromOptions` returns are those
set for `options.BuildCommand`. -/
theorem GenerateConfigFromOptions_Steps (o : GenerateBuildPlanOptions) :
    (GenerateConfigFromOptions (some o)).Steps =
      if o.BuildCommand ≠ "" then
        [("build", { Name := "build", Commands :=
          [.Copy "." none none, .ExecShell o.BuildCommand o.BuildCommand] })]
      else [] := by
  simp only [GenerateConfigFromOptions]
  split_ifs <;> rfl

/-- C11: for a non-empty command `c`, the config from options with
`BuildCommand` `c` and the config from an environment whose
`RAILPACK_BUILD_CMD` is `c` both register under build the step whose commands
are `Copy` of the dot followed by `ExecShell` of `c` (so the two steps are
equal); with an empty or unset command, and with nil options or a nil
environment, the config has no build step. -/
theorem build_command_step (c : String) (hc : c ≠ "") :
    (∀ o : GenerateBuildPlanOptions, o.BuildCommand = c →
      (GenerateConfigFromOptions (some o)).Steps.get "build" =
        some { Name := "build", Commands := [.Copy "." none none, .ExecShell c c] }) ∧
    (∀ (app : App) (e : Environment), e.GetConfigVariable "BUILD_CMD" = c →
      (GenerateConfigFromEnvironment app (some e)).Steps.get "build" =
        some { Name := "build", Commands := [.Copy "." none none, .ExecShell c c] }) ∧
    (∀ o : GenerateBuildPlanOptions, o.BuildCommand = "" →
      (GenerateConfigFromOptions (some o)).Steps.get "build" = none) ∧
    (∀ (app : App) (e : Environment), e.GetConfigVariable "BUILD_CMD" = "" →
      (GenerateConfigFromEnvironment app (some e)).Steps.get "build" = none) ∧
    (GenerateConfigFromOptions none).Steps.get "build" = none ∧
    (∀ app : App, (GenerateConfigFromEnvironment app none).Steps.get "build" = none) := by
  refine ⟨?_, ?_, ?_, ?_, rfl, fun _ => rfl⟩
  · intro o ho
    rw [GenerateConfigFromOptions_Steps, ho, if_pos hc]
    simp [GoMap.get]
  · intro app e he
    rw [GenerateConfigFromEnvironment_Steps, he, if_pos hc]
    simp [GoMap.get]
  · intro o ho
    rw [GenerateConfigFromOptions_Steps, ho]
    simp [GoMap.get]
  · intro app e he
    rw [GenerateConfigFromEnvironment_Steps, he]
    simp [GoMap.get]

/-- C11 at the command npm run build, given as an option and as
`RAILPACK_BUILD_CMD`: both configs hold the same build step. -/
theorem build_command_step_witness :
    "npm run build" ≠ "" ∧
      (GenerateConfigFromOptions (some { BuildCommand := "npm run build" })).Steps.get "build" =
        some { Name := "build", Commands :=
          [.Copy "." none none, .ExecShell "npm run build" "npm run build"] } ∧
      (GenerateConfigFromEnvironment emptyApp (some buildCmdEnvironment)).Steps.get "build" =
        (GenerateConfigFromOptions (some { BuildCommand := "npm run build" })).Steps.get "build" :=
  have h := build_command_step "npm run build" (by decide)
  have h1 := h.1 { BuildCommand := "npm run build" } rfl
  have h2 := h.2.1 emptyApp buildCmdEnvironment (by decide)
  ⟨by decide, h1, h2.trans h1.symm⟩

/-- Reading a key after a run of assignments of one value. -/
theorem foldl_set_get (pieces : List String) (v : String) (init : GoMap String) (k : String) :
    (pieces.foldl (fun m piece => m.set piece v) init).get k =
      if k ∈ pieces then some v else init.get k := by
  induction pieces generalizing init with
  | nil => simp
  | cons piece rest ih =>
    rw [List.foldl_cons, ih, GoMap.get_set]
    by_cases hk : k ∈ rest
    · simp [hk]
    · by_cases hp : piece = k
      · subst hp
        simp [hk]
      · have hp' : ¬ k = piece := fun h => hp h.symm
        simp [hk, hp, hp']

/-- For a non-empty `RAILPACK_PACKAGES` the packages map holds the pieces of
`strings.Split(value, " ")`, each at latest, and no other name. -/
theorem GenerateConfigFromEnvironment_Packages (app : App) (e : Environment)
    (h : e.GetConfigVariable "PACKAGES" ≠ "") (name : String) :
    (GenerateConfigFromEnvironment app (some e)).Packages.get name =
      if name ∈ stringsSplit (e.GetConfigVariable "PACKAGES") ' ' then some "latest"
      else none := by
  have hp : (GenerateConfigFromEnvironment app (some e)).Packages =
      (stringsSplit (e.GetConfigVariable "PACKAGES") ' ').foldl
        (fun (m : GoMap String) pkg => GoMap.set m pkg "latest") [] := by
    simp only [GenerateConfigFromEnvironment]
    split_ifs <;> rfl
  rw [hp, foldl_set_get]
  rfl

/-- C12, at `RAILPACK_PACKAGES` set to node, two spaces, python: the packages
map has an entry whose package name is the empty string. -/
theorem packages_empty_name_entry :
    repeatedSpaceEnvironment.GetConfigVariable "PACKAGES" = "node  python" ∧
      stringsSplit "node  python" ' ' = ["node", "", "python"] ∧
      (GenerateConfigFromEnvironment emptyApp (some repeatedSpaceEnvironment)).Packages =
        [("node", "latest"), ("", "latest"), ("python", "latest")] ∧
      (GenerateConfigFromEnvironment emptyApp (some repeatedSpaceEnvironment)).Packages.get "" =
        some "latest" := by
  decide

/-- Appending the name of every entry of a map appends its keys. -/
theorem foldl_append_keys (m : GoMap String) (init : List String) :
    m.foldl (fun secrets kv => secrets ++ [kv.1]) init = init ++ m.keys := by
  induction m generalizing init with
  | nil => simp [GoMap.keys]
  | cons kv rest ih =>
    rw [List.foldl_cons, ih]
    simp [GoMap.keys]

/-- C13: for a non-nil environment the secrets of the config from the
environment are the variable names, in the order in which the map is ranged
over, and nothing else; as the names of a Go map are pairwise different, every
name occurs exactly once; for a nil environment the config is the empty one. -/
theorem secrets_are_variable_names (app : App) :
    (∀ e : Environment,
      (GenerateConfigFromEnvironment app (some e)).Secrets = e.Variables.keys ∧
      (e.Variables.keys.Nodup → ∀ name ∈ e.Variables.keys,
        (GenerateConfigFromEnvironment app (some e)).Secrets.count name = 1)) ∧
    GenerateConfigFromEnvironment app none = EmptyConfig := by
  refine ⟨?_, rfl⟩
  intro e
  have hs : (GenerateConfigFromEnvironment app (some e)).Secrets = e.Variables.keys := by
    have h0 : (GenerateConfigFromEnvironment app (some e)).Secrets =
        e.Variables.foldl (fun secrets kv => secrets ++ [kv.1]) [] := by
      simp only [GenerateConfigFromEnvironment]
      split_ifs <;> rfl
    rw [h0, foldl_append_keys]
    rfl
  refine ⟨hs, ?_⟩
  intro hnodup name hname
  rw [hs]
  exact List.count_eq_one_of_mem hnodup hname

/-- C13 at an environment with the variables `DATABASE_URL` and
`RAILPACK_START_CMD`: the secrets are the two names, no value. -/
theorem secrets_are_variable_names_witness :
    twoVariablesEnvironment.Variables.keys.Nodup ∧
      (GenerateConfigFromEnvironment emptyApp (some twoVariablesEnvironment)).Secrets =
        ["DATABASE_URL", "RAILPACK_START_CMD"] ∧
      (GenerateConfigFromEnvironment emptyApp (some twoVariablesEnvironment)).Secrets.count
        "DATABASE_URL" = 1 :=
  have h := (secrets_are_variable_names emptyApp).1 twoVariablesEnvironment
  ⟨by decide, h.1.trans (by decide), h.2 (by decide) "DATABASE_URL" (by decide)⟩

/-- With options and an environment at hand, `GenerateConfigFromFile` looks up
the chosen config file name: the empty config when the app has no match for
it, else what reading it as JSON gives, a read error being wrapped. -/
theorem GenerateConfigFromFile_lookup (app : App) (e : Environment)
    (o : GenerateBuildPlanOptions) :
    GenerateConfigFromFile app (some e) (some o) =
      if !app.HasMatch (chosenConfigFileName e o) then .ok EmptyConfig
      else
        match app.ReadJSON (chosenConfigFileName e o) EmptyConfig with
        | .error err => .error (Errorf "failed to read config file: " err)
        | .ok config => .ok config := rfl

/-- C14: the config file name looked up is the value of `RAILPACK_CONFIG_FILE`
whenever that is non-empty, whatever `options.ConfigFilePath` is; when it is
empty the name is `options.ConfigFilePath` if that is non-empty, and
railpack.json when both are empty. -/
theorem config_file_name_precedence (e : Environment) (o : GenerateBuildPlanOptions) :
    (e.GetConfigVariable "CONFIG_FILE" ≠ "" →
      chosenConfigFileName e o = e.GetConfigVariable "CONFIG_FILE") ∧
    (e.GetConfigVariable "CONFIG_FILE" = "" → o.ConfigFilePath ≠ "" →
      chosenConfigFileName e o = o.ConfigFilePath) ∧
    (e.GetConfigVariable "CONFIG_FILE" = "" → o.ConfigFilePath = "" →
      chosenConfigFileName e o = "railpack.json") ∧
    (∀ app : App, app.HasMatch (chosenConfigFileName e o) = false →
      GenerateConfigFromFile app (some e) (some o) = .ok EmptyConfig) ∧
    (∀ (app : App) (config : Config), app.HasMatch (chosenConfigFileName e o) = true →
      app.ReadJSON (chosenConfigFileName e o) EmptyConfig = .ok config →
      GenerateConfigFromFile app (some e) (some o) = .ok config) := by
  refine ⟨?_, ?_, ?_, ?_, ?_⟩
  · intro h
    simp [chosenConfigFileName, h]
  · intro h1 h2
    simp [chosenConfigFileName, h1, h2]
  · intro h1 h2
    simp [chosenConfigFileName, h1, h2, defaultConfigFileName]
  · intro app h
    rw [GenerateConfigFromFile_lookup]
    simp [h]
  · intro app config h1 h2
    rw [GenerateConfigFromFile_lookup]
    simp [h1, h2]

/-- C14 at `RAILPACK_CONFIG_FILE` set to custom.json and the option path
other.json: custom.json is the name looked up. -/
theorem config_file_name_precedence_witness :
    configFileEnvironment.GetConfigVariable "CONFIG_FILE" ≠ "" ∧
      chosenConfigFileName configFileEnvironment { ConfigFilePath := "other.json" } =
        "custom.json" ∧
      chosenConfigFileName emptyEnvironment { ConfigFilePath := "other.json" } = "other.json" ∧
      chosenConfigFileName emptyEnvironment {} = "railpack.json" :=
  ⟨by decide,
    ((config_file_name_precedence configFileEnvironment
      { ConfigFilePath := "other.json" }).1 (by decide)).trans (by decide),
    (config_file_name_precedence emptyEnvironment
      { ConfigFilePath := "other.json" }).2.1 (by decide) (by decide),
    (config_file_name_precedence emptyEnvironment {}).2.2.1 (by decide) (by decide)⟩

/-- C15: with options and an environment at hand, `GenerateConfigFromFile`
returns an error exactly when the app has a match for the chosen config file
name and reading it as JSON fails; the error is then the read error wrapped
with the message failed to read config file; when the app has no match for the
name, the result is the empty config and no error. -/
theorem config_file_error_iff (app : App) (e : Environment) (o : GenerateBuildPlanOptions) :
    ((∃ err, GenerateConfigFromFile app (some e) (some o) = .error err) ↔
      (app.HasMatch (chosenConfigFileName e o) = true ∧
        ∃ readErr, app.ReadJSON (chosenConfigFileName e o) EmptyConfig = .error readErr)) ∧
    (∀ readErr, app.HasMatch (chosenConfigFileName e o) = true →
      app.ReadJSON (chosenConfigFileName e o) EmptyConfig = .error readErr →
      GenerateConfigFromFile app (some e) (some o) =
        .error (Errorf "failed to read config file: " readErr) ∧
      (Errorf "failed to read config file: " readErr).Error =
        "failed to read config file: " ++ readErr.Error ∧
      (Errorf "failed to read config file: " readErr).Unwrap = some readErr) ∧
    (app.HasMatch (chosenConfigFileName e o) = false →
      GenerateConfigFromFile app (some e) (some o) = .ok EmptyConfig) := by
  rw [GenerateConfigFromFile_lookup]
  cases hm : app.HasMatch (chosenConfigFileName e o) with
  | false => simp
  | true =>
    cases hr : app.ReadJSON (chosenConfigFileName e o) EmptyConfig with
    | error readErr => simp [Errorf, GoError.Error, GoError.Unwrap]
    | ok config => simp

/-- C15 at an app whose railpack.json cannot be parsed, and at an app without
files: the first gives the wrapped read error, the second the empty config. -/
theorem config_file_error_iff_witness :
    appWithBrokenConfigFile.HasMatch (chosenConfigFileName emptyEnvironment {}) = true ∧
      GenerateConfigFromFile appWithBrokenConfigFile (some emptyEnvironment) (some {}) =
        .error (.wrap "failed to read config file: unexpected end of JSON input"
          (.base "unexpected end of JSON input")) ∧
      emptyApp.HasMatch (chosenConfigFileName emptyEnvironment {}) = false ∧
      GenerateConfigFromFile emptyApp (some emptyEnvironment) (some {}) = .ok EmptyConfig :=
  ⟨by decide,
    ((config_file_error_iff appWithBrokenConfigFile emptyEnvironment {}).2.1
      (.base "unexpected end of JSON input") (by decide) rfl).1.trans (by decide),
    by decide,
    (config_file_error_iff emptyApp emptyEnvironment {}).2.2 (by decide)⟩

/-! ### The providers entry of the metadata -/

/-- Reading the key that `SetMetadata` has just set. -/
theorem SetMetadata_get {σ : Type} (c : GenerateContext σ) (key value : String) :
    (c.SetMetadata key value).Metadata.get key = some value := by
  simp [GenerateContext.SetMetadata, GoMap.get_set]

/-- When no `Plan` of the use list changes the entry of a metadata key, the
provider loop does not change it. -/
theorem planLoop_metadata {σ : Type} (key : String) (use : List (Provider σ)) (i : Nat)
    (ctx : GenerateContext σ)
    (hplan : ∀ p ∈ use, ∀ c : GenerateContext σ,
      (p.Plan c).1.Metadata.get key = c.Metadata.get key) :
    (planLoop i use ctx).ctx.Metadata.get key = ctx.Metadata.get key := by
  induction use generalizing i ctx with
  | nil => rfl
  | cons p rest ih =>
    have hrest : ∀ q ∈ rest, ∀ c : GenerateContext σ,
        (q.Plan c).1.Metadata.get key = c.Metadata.get key :=
      fun q hq => hplan q (List.mem_cons_of_mem _ hq)
    have hp := hplan p (List.mem_cons_self _ _)
    simp only [planLoop]
    split
    next e he =>
      by_cases hi : i > 0
      · simp only [hi, if_true, hp]
        rfl
      · simp only [hi, if_false, hp]
    next he =>
      by_cases hi : i > 0
      · simp only [hi, if_true]
        rw [ih (i + 1) _ hrest]
        show (p.Plan (ctx.EnterSubContext p.Name)).1.Metadata.get key = _
        rw [hp]
        rfl
      · simp only [hi, if_false]
        rw [ih (i + 1) _ hrest, hp]

/-- C16: `GenerateBuildPlan` sets the providers entry of the metadata to the
names of the use list, in order, joined by commas (the empty string for an empty
use list); when no provider plan, nor the procfile provider, `ApplyConfig` or
`Generate`, changes that entry, it is the providers entry of the metadata of the
returned result. -/
theorem providers_metadata {σ : Type} (ext : Externals σ) (app : App)
    (env : Option Environment) (o : GenerateBuildPlanOptions) (ctx0 : GenerateContext σ)
    (config : Config)
    (hctx : ext.NewGenerateContext app env = .ok ctx0)
    (hcfg : GetConfig app env (some o) = .ok config)
    (hplan : ∀ p ∈ (getProviders ext.LanguageProviders (setPreviousVersions o ctx0)
        config).providersToUse, ∀ c : GenerateContext σ,
      (p.Plan c).1.Metadata.get "providers" = c.Metadata.get "providers")
    (hproc : ∀ c : GenerateContext σ,
      (ext.ProcfilePlan c).1.Metadata.get "providers" = c.Metadata.get "providers")
    (happly : ∀ (c : GenerateContext σ) (cfg : Config),
      (ext.ApplyConfig c cfg).1.Metadata.get "providers" = c.Metadata.get "providers")
    (hgen : ∀ c : GenerateContext σ,
      (ext.Generate c).1.Metadata.get "providers" = c.Metadata.get "providers") :
    stringsJoin [] "," = "" ∧
      ((getProviders ext.LanguageProviders (setPreviousVersions o ctx0) config).ctx.SetMetadata
        "providers"
        (stringsJoin ((getProviders ext.LanguageProviders (setPreviousVersions o ctx0)
          config).providersToUse.map (fun p => p.Name)) ",")).Metadata.get "providers" =
        some (stringsJoin ((getProviders ext.LanguageProviders (setPreviousVersions o ctx0)
          config).providersToUse.map (fun p => p.Name)) ",") ∧
      ∀ result : BuildResult, (GenerateBuildPlan ext app env (some o)).outcome = .ok result →
        result.Metadata.get "providers" =
          some (stringsJoin ((getProviders ext.LanguageProviders (setPreviousVersions o ctx0)
            config).providersToUse.map (fun p => p.Name)) ",") := by
  refine ⟨rfl, SetMetadata_get _ _ _, ?_⟩
  intro result hres
  simp only [GenerateBuildPlan, hctx, hcfg] at hres
  split at hres
  · cases hres
  · split at hres
    · cases hres
    · split at hres
      · cases hres
      · split at hres
        · cases hres
        · cases hres
          simp only []
          rw [hgen, happly, hproc, planLoop_metadata "providers" _ 0 _ hplan]
          exact SetMetadata_get _ _ _

/-- C16 at a config file naming staticfile, cobol and php: the result is
returned and the providers entry of its metadata is staticfile,php. -/
theorem providers_metadata_witness :
    ∃ result : BuildResult,
      (GenerateBuildPlan (sampleExternals sampleProviders) (appWithConfigFile namedProvidersConfig)
        (some emptyEnvironment) (some {})).outcome = .ok result ∧
      result.Metadata.get "providers" = some "staticfile,php" :=
  have hplan : ∀ p ∈ (getProviders (sampleExternals sampleProviders).LanguageProviders
      (setPreviousVersions {} freshContext)
      (Merge [GenerateConfigFromOptions (some {}),
        GenerateConfigFromEnvironment (appWithConfigFile namedProvidersConfig)
          (some emptyEnvironment), namedProvidersConfig])).providersToUse,
      ∀ c : GenerateContext Unit,
        (p.Plan c).1.Metadata.get "providers" = c.Metadata.get "providers" := by
    intro p hp c
    have hu : (getProviders (sampleExternals sampleProviders).LanguageProviders
        (setPreviousVersions {} freshContext)
        (Merge [GenerateConfigFromOptions (some {}),
          GenerateConfigFromEnvironment (appWithConfigFile namedProvidersConfig)
            (some emptyEnvironment), namedProvidersConfig])).providersToUse =
        [fixedProvider "staticfile" true none none, fixedProvider "php" true none none] := rfl
    rw [hu] at hp
    simp only [List.mem_cons, List.mem_singleton, List.not_mem_nil, or_false] at hp
    rcases hp with rfl | rfl <;> rfl
  have h := providers_metadata (sampleExternals sampleProviders)
    (appWithConfigFile namedProvidersConfig) (some emptyEnvironment) {} freshContext
    (Merge [GenerateConfigFromOptions (some {}),
      GenerateConfigFromEnvironment (appWithConfigFile namedProvidersConfig)
        (some emptyEnvironment), namedProvidersConfig])
    rfl rfl hplan (fun _ => rfl) (fun _ _ => rfl) (fun _ => rfl)
  ⟨_, rfl, (h.2.2 _ rfl).trans (by decide)⟩

/-! ### Step builders -/

/-- For every image step builder and build options, `Build` returns a step
without commands. -/
theorem ImageStepBuilder_Build_no_commands (b : ImageStepBuilder) (o : BuildStepOptions) :
    ∃ step, b.Build o = .ok step ∧ step.Commands = [] :=
  ⟨_, rfl, rfl⟩

/-- C17, at the PHP app with an index.php alone, on a fresh context whose
config names the build apt package ffmpeg and the deploy apt package libvips:
the PHP provider collects git, zip, unzip, ca-certificates, ffmpeg and libvips
for its image step; the first builder that its `Plan` registers is the image
step builder packages:image, and `Build` returns for it a step with the one
image input and no command at all, so the first command of the step is not the
apt install of the collected packages. -/
theorem php_image_step_without_apt_install :
    PhpProvider.imageAptPackages
        (freshProviderContext indexPhpApp emptyEnvironment aptPackagesConfig sampleCaches) =
        ["git", "zip", "unzip", "ca-certificates", "ffmpeg", "libvips"] ∧
      ∃ b,
        ProviderContext.imageStep
          (({} : PhpProvider).Plan samplePlanExternals noNode
            (freshProviderContext indexPhpApp emptyEnvironment aptPackagesConfig
              sampleCaches)).1 0 = some b ∧
        b.Name = "packages:image" ∧
        ∃ step, b.Build sampleBuildOptions = .ok step ∧
          step.Inputs = [Input.Image "dunglas/frankenphp:php8.4.3-bookworm"] ∧
          step.Commands = [] ∧
          step.Commands.head? ≠
            some (sampleBuildOptions.NewAptInstallCommand
              (PhpProvider.imageAptPackages
                (freshProviderContext indexPhpApp emptyEnvironment aptPackagesConfig
                  sampleCaches))) :=
  ⟨rfl, _, rfl, rfl, _, rfl, rfl, rfl, by simp [ImageStepBuilder.Build, NewStep]⟩

/-- C18: for every image step builder and build options, `Build` returns no
error and a step named by the display name of the builder whose inputs are
exactly the one `Image` input of the reference that `ResolveStepImage` gives
for the options. -/
theorem ImageStepBuilder_Build_image_input (b : ImageStepBuilder) (o : BuildStepOptions) :
    ∃ step, b.Build o = .ok step ∧ step.Name = b.DisplayName ∧
      step.Inputs = [Input.Image (b.ResolveStepImage o)] ∧ step.Inputs.length = 1 :=
  ⟨_, rfl, rfl, rfl, rfl⟩

/-- C19, at the builder that `newMiseStepBuilder` returns, with no mise package
requested: `Build` returns the bare step, whose outputs are not set. -/
theorem mise_no_packages_no_outputs :
    (newMiseStepBuilder emptyApp).Outputs = some ["/mise/shims", "/mise/installs"] ∧
      ∃ step, (newMiseStepBuilder emptyApp).Build sampleEncode sampleBuildOptions = .ok step ∧
        step.Outputs = none ∧ step.Outputs ≠ some ["/mise/shims", "/mise/installs"] :=
  ⟨rfl, _, rfl, rfl, by simp [NewStep]⟩

/-- The commands after a run of `AddCommands`, one command per element. -/
theorem foldl_AddCommands {α : Type} (f : α → Command) (l : List α) (step : Step) :
    (l.foldl (fun step x => step.AddCommands [f x]) step).Commands =
      step.Commands ++ l.map f := by
  induction l generalizing step with
  | nil => simp
  | cons x rest ih =>
    rw [List.foldl_cons, ih]
    simp [Step.AddCommands]

/-- Appending the elements that satisfy a test is filtering. -/
theorem foldl_append_if (p : String → Bool) (l init : List String) :
    l.foldl (fun files file => if p file then files ++ [file] else files) init =
      init ++ l.filter p := by
  induction l generalizing init with
  | nil => simp
  | cons x rest ih =>
    rw [List.foldl_cons, ih]
    by_cases hx : p x <;> simp [hx]

/-- The commands after the path loop of `Build`: the path commands appended. -/
theorem pathLoop_Commands (options : BuildStepOptions) (packages : List PackageRef)
    (step : Step) :
    (packages.foldl
      (fun step pkg =>
        match options.ResolvedPackages.get pkg.Name with
        | some resolved =>
          match resolved.ResolvedVersion with
          | some version =>
            step.AddCommands
              [NewPathCommand ("/mise/installs/" ++ pkg.Name ++ "/" ++ version ++ "/bin")]
          | none => step
        | none => step)
      step).Commands = step.Commands ++ misePathCommands packages options := by
  induction packages generalizing step with
  | nil => simp [misePathCommands]
  | cons pkg rest ih =>
    rw [List.foldl_cons, ih]
    cases hget : options.ResolvedPackages.get pkg.Name with
    | none => simp [misePathCommands, hget]
    | some resolved =>
      cases hver : resolved.ResolvedVersion with
      | none => simp [misePathCommands, hget, hver]
      | some version =>
        simp [misePathCommands, hget, hver, Step.AddCommands, NewPathCommand]

/-- The commands and the outputs of the step that `finishStep` returns. -/
theorem finishStep_fields (b : MiseStepBuilder) (options : BuildStepOptions)
    (assets : GoMap String) (step : Step) :
    (b.finishStep options assets step).Commands =
        step.Commands ++ misePathCommands b.MisePackages options ∧
      (b.finishStep options assets step).Outputs = b.Outputs ∧
      (b.finishStep options assets step).Assets = assets := by
  refine ⟨?_, rfl, rfl⟩
  simp only [MiseStepBuilder.finishStep]
  exact pathLoop_Commands options b.MisePackages step

/-- The commands after `AddCommands`: the commands appended. -/
theorem AddCommands_Commands (step : Step) (commands : List Command) :
    (step.AddCommands commands).Commands = step.Commands ++ commands := rfl

/-- The supporting mise config files are the files of `miseConfigFiles` that
the app has, in that order. -/
theorem GetSupportingMiseConfigFiles_eq (b : MiseStepBuilder) :
    b.GetSupportingMiseConfigFiles =
      ["mise.toml", ".python-version", ".nvmrc"].filter (fun file => b.app.HasMatch file) := by
  simp only [MiseStepBuilder.GetSupportingMiseConfigFiles, miseConfigFiles]
  rw [foldl_append_if]
  rfl

/-- With at least one mise package and a `mise.toml` text generated, `Build`
returns a step with the commands of the build sequence, the outputs of the
builder and the assets of the builder with the text under mise.toml. -/
theorem mise_Build_step (encode : MiseConfig → Except GoError String) (b : MiseStepBuilder)
    (o : BuildStepOptions) (toml : String) (hpk : b.MisePackages ≠ [])
    (htoml : GenerateMiseToml encode (b.packagesToInstall o) = .ok toml) :
    ∃ step, b.Build encode o = .ok step ∧
      step.Commands =
        [ Command.Variable "MISE_DATA_DIR" "/mise",
          Command.Variable "MISE_CONFIG_DIR" "/mise",
          Command.Variable "MISE_INSTALL_PATH" "/usr/local/bin/mise",
          Command.Variable "MISE_CACHE_DIR" "/mise/cache",
          o.NewAptInstallCommand ["curl", "ca-certificates", "git"],
          Command.Exec "sh -c 'curl -fsSL https://mise.run | sh'" "install mise"
            [o.AddCache "mise" "/mise/cache"] ] ++
        miseCopyCommands b.app ++
        (if b.SupportingAptPackages = [] then []
          else [o.NewAptInstallCommand b.SupportingAptPackages]) ++
        [ Command.File "/etc/mise/config.toml" "mise.toml" none "create mise config",
          Command.Exec "sh -c 'mise trust -a && mise install'"
            ("install mise packages: " ++
              stringsJoin (sortStrings (b.packagesToInstall o).keys) ", ")
            [o.AddCache "mise" "/mise/cache"] ] ++
        misePathCommands b.MisePackages o ∧
      step.Outputs = b.Outputs ∧
      step.Assets = b.Assets.set "mise.toml" toml := by
  have hlen : ¬ b.MisePackages.length = 0 := by
    intro h
    exact hpk (List.length_eq_zero.1 h)
  have hpos : b.MisePackages.length > 0 := Nat.pos_of_ne_zero hlen
  simp only [MiseStepBuilder.Build, hlen, hpos, if_true, if_false, htoml]
  refine ⟨_, rfl, ?_, (finishStep_fields _ _ _ _).2.1, (finishStep_fields _ _ _ _).2.2⟩
  rw [(finishStep_fields _ _ _ _).1]
  cases hs : b.SupportingAptPackages with
  | nil =>
    simp [AddCommands_Commands, foldl_AddCommands, GetSupportingMiseConfigFiles_eq,
      miseCopyCommands, NewStep, NewVariableCommand, NewExecCommand, NewFileCommand,
      NewCopyCommandTo]
  | cons pkg rest =>
    simp [AddCommands_Commands, foldl_AddCommands, GetSupportingMiseConfigFiles_eq,
      miseCopyCommands, NewStep, NewVariableCommand, NewExecCommand, NewFileCommand,
      NewCopyCommandTo]

/-- C19, amended: for a builder whose outputs are those set by
`newMiseStepBuilder`, with at least one mise package and a `mise.toml` text
generated, the step returned by `Build` has exactly the outputs /mise/shims and
/mise/installs; with no mise package `Build` returns the bare step of the
display name, whose outputs are not set. -/
theorem mise_outputs (encode : MiseConfig → Except GoError String) (b : MiseStepBuilder)
    (o : BuildStepOptions) (hout : b.Outputs = (newMiseStepBuilder b.app).Outputs) :
    (b.MisePackages ≠ [] → ∀ toml : String,
      GenerateMiseToml encode (b.packagesToInstall o) = .ok toml →
      ∃ step, b.Build encode o = .ok step ∧
        step.Outputs = some ["/mise/shims", "/mise/installs"]) ∧
    (b.MisePackages = [] →
      b.Build encode o = .ok (NewStep b.DisplayName) ∧
        (NewStep b.DisplayName).Outputs = none) := by
  refine ⟨?_, ?_⟩
  · intro hpk toml htoml
    obtain ⟨step, hstep, _, hoC, _⟩ := mise_Build_step encode b o toml hpk htoml
    exact ⟨step, hstep, by rw [hoC, hout]; rfl⟩
  · intro hpk
    simp [MiseStepBuilder.Build, hpk, NewStep]

/-- C19, amended, at the builder with the packages node and python: the step is
returned and its outputs are /mise/shims and /mise/installs. -/
theorem mise_outputs_witness :
    nodeMiseStepBuilder.MisePackages ≠ [] ∧
      GenerateMiseToml sampleEncode (nodeMiseStepBuilder.packagesToInstall sampleBuildOptions) =
        .ok "[tools] node=22.1.0" ∧
      ∃ step, nodeMiseStepBuilder.Build sampleEncode sampleBuildOptions = .ok step ∧
        step.Outputs = some ["/mise/shims", "/mise/installs"] :=
  ⟨by decide, rfl,
    (mise_outputs sampleEncode nodeMiseStepBuilder sampleBuildOptions rfl).1 (by decide)
      "[tools] node=22.1.0" rfl⟩

/-- C20: for a mise step builder with at least one package, and a `mise.toml`
text generated, the commands of the step that `Build` returns are, in this
order: the four `Variable` commands, the apt install of curl, ca-certificates
and git, the exec installing the mise binary, one `Copy` per user mise config
file that the app has, the apt install of the supporting apt packages when
there are any, the `File` command writing the asset mise.toml to
/etc/mise/config.toml, the exec of mise trust and mise install, and the `Path`
commands; and no other command. -/
theorem mise_build_sequence (encode : MiseConfig → Except GoError String) (b : MiseStepBuilder)
    (o : BuildStepOptions) (toml : String) (hpk : b.MisePackages ≠ [])
    (htoml : GenerateMiseToml encode (b.packagesToInstall o) = .ok toml) :
    ∃ step, b.Build encode o = .ok step ∧
      step.Commands =
        [ Command.Variable "MISE_DATA_DIR" "/mise",
          Command.Variable "MISE_CONFIG_DIR" "/mise",
          Command.Variable "MISE_INSTALL_PATH" "/usr/local/bin/mise",
          Command.Variable "MISE_CACHE_DIR" "/mise/cache",
          o.NewAptInstallCommand ["curl", "ca-certificates", "git"],
          Command.Exec "sh -c 'curl -fsSL https://mise.run | sh'" "install mise"
            [o.AddCache "mise" "/mise/cache"] ] ++
        miseCopyCommands b.app ++
        (if b.SupportingAptPackages = [] then []
          else [o.NewAptInstallCommand b.SupportingAptPackages]) ++
        [ Command.File "/etc/mise/config.toml" "mise.toml" none "create mise config",
          Command.Exec "sh -c 'mise trust -a && mise install'"
            ("install mise packages: " ++
              stringsJoin (sortStrings (b.packagesToInstall o).keys) ", ")
            [o.AddCache "mise" "/mise/cache"] ] ++
        misePathCommands b.MisePackages o := by
  obtain ⟨step, hstep, hcommands, _, _⟩ := mise_Build_step encode b o toml hpk htoml
  exact ⟨step, hstep, hcommands⟩

/-- C20 at the builder with the packages node (resolved to 22.1.0) and python
(unresolved), the supporting apt package libatomic1 and an app with a `.nvmrc`
file: the eleven commands of the step. -/
theorem mise_build_sequence_witness :
    nodeMiseStepBuilder.MisePackages ≠ [] ∧
      ∃ step, nodeMiseStepBuilder.Build sampleEncode sampleBuildOptions = .ok step ∧
        step.Commands =
          [ Command.Variable "MISE_DATA_DIR" "/mise",
            Command.Variable "MISE_CONFIG_DIR" "/mise",
            Command.Variable "MISE_INSTALL_PATH" "/usr/local/bin/mise",
            Command.Variable "MISE_CACHE_DIR" "/mise/cache",
            Command.Exec "apt-get install -y curl ca-certificates git"
              "install apt packages: curl ca-certificates git" [],
            Command.Exec "sh -c 'curl -fsSL https://mise.run | sh'" "install mise" ["mise"],
            Command.Copy ".nvmrc" (some "/app/.nvmrc") none,
            Command.Exec "apt-get install -y libatomic1" "install apt packages: libatomic1" [],
            Command.File "/etc/mise/config.toml" "mise.toml" none "create mise config",
            Command.Exec "sh -c 'mise trust -a && mise install'" "install mise packages: node"
              ["mise"],
            Command.Path "/mise/installs/node/22.1.0/bin" ] :=
  have h := mise_build_sequence sampleEncode nodeMiseStepBuilder sampleBuildOptions
    "[tools] node=22.1.0" (by decide) rfl
  ⟨by decide, h.choose, h.choose_spec.1, h.choose_spec.2.trans (by decide)⟩

/-! ### The packages of the mise step -/

/-- The map of packages to install reads a name as its resolved version when
the builder holds a package of that name, and as absent otherwise. -/
theorem packagesToInstall_get_aux (o : BuildStepOptions) (packages : List PackageRef)
    (init : GoMap String) (name : String) :
    (packages.foldl
      (fun m pkg =>
        match o.ResolvedPackages.get pkg.Name with
        | some resolved =>
          match resolved.ResolvedVersion with
          | some version => GoMap.set m pkg.Name version
          | none => m
        | none => m)
      init).get name =
      if name ∈ packages.map (fun pkg => pkg.Name) ∧ (resolvedVersion o name).isSome
      then resolvedVersion o name else init.get name := by
  induction packages generalizing init with
  | nil => simp
  | cons pkg rest ih =>
    rw [List.foldl_cons, ih]
    by_cases hrest : name ∈ rest.map (fun pkg => pkg.Name) ∧ (resolvedVersion o name).isSome
    · have hcons : name ∈ (pkg :: rest).map (fun pkg => pkg.Name) ∧
          (resolvedVersion o name).isSome :=
        ⟨by simp only [List.map_cons, List.mem_cons]; exact Or.inr hrest.1, hrest.2⟩
      rw [if_pos hrest, if_pos hcons]
    · rw [if_neg hrest]
      by_cases hname : pkg.Name = name
      · subst hname
        cases hget : o.ResolvedPackages.get pkg.Name with
        | none => simp [resolvedVersion, hget]
        | some resolved =>
          cases hver : resolved.ResolvedVersion with
          | none => simp [resolvedVersion, hget, hver]
          | some version => simp [resolvedVersion, hget, hver, GoMap.get_set]
      · have hne : ¬ name = pkg.Name := fun h => hname h.symm
        have hiff : ¬ (name ∈ (pkg :: rest).map (fun pkg => pkg.Name) ∧
            (resolvedVersion o name).isSome) := by
          intro h
          apply hrest
          refine ⟨?_, h.2⟩
          have h1 := h.1
          simp only [List.map_cons, List.mem_cons] at h1
          rcases h1 with h1 | h1
          · exact absurd h1 hne
          · exact h1
        rw [if_neg hiff]
        cases hget : o.ResolvedPackages.get pkg.Name with
        | none => rfl
        | some resolved =>
          cases hver : resolved.ResolvedVersion with
          | none => simp [hver]
          | some version => simp [hver, GoMap.get_set, hname]

/-- The map of packages to install holds exactly the builder's packages that
have a resolved version, each with that version. -/
theorem packagesToInstall_get (b : MiseStepBuilder) (o : BuildStepOptions) (name : String) :
    (b.packagesToInstall o).get name =
      if name ∈ b.MisePackages.map (fun pkg => pkg.Name) then resolvedVersion o name
      else none := by
  rw [MiseStepBuilder.packagesToInstall, packagesToInstall_get_aux]
  by_cases hmem : name ∈ b.MisePackages.map (fun pkg => pkg.Name)
  · cases hres : resolvedVersion o name with
    | none => simp [GoMap.get]
    | some version => simp [hmem]
  · simp [hmem, GoMap.get]

/-- The path commands are `Path` commands. -/
theorem misePathCommands_filter_isPath (packages : List PackageRef) (o : BuildStepOptions) :
    (misePathCommands packages o).filter Command.isPath = misePathCommands packages o := by
  rw [List.filter_eq_self]
  intro command hmem
  simp only [misePathCommands, List.mem_filterMap, Option.map_eq_some'] at hmem
  obtain ⟨pkg, _, version, _, rfl⟩ := hmem
  rfl

/-- The copy commands hold no `Path` command. -/
theorem miseCopyCommands_filter_isPath (app : App) :
    (miseCopyCommands app).filter Command.isPath = [] := by
  rw [List.filter_eq_nil_iff]
  intro command hmem
  simp only [miseCopyCommands, List.mem_map] at hmem
  obtain ⟨file, _, rfl⟩ := hmem
  simp [Command.isPath]

/-- C21: for a mise step builder with at least one package, the map that
`Build` hands to `GenerateMiseToml` reads a name as its resolved version exactly
when the builder holds a package of that name and the resolved-packages map has
a non-null resolved version for it; `Build` fails only when `GenerateMiseToml`
fails on that map; otherwise the `Path` commands of the step are one per
package with a resolved version, in registration order, with the value
/mise/installs/name/version/bin, a package without resolved version being left
out of both.  The apt install commands of the options are taken not to be
`Path` commands. -/
theorem mise_resolved_packages (encode : MiseConfig → Except GoError String)
    (b : MiseStepBuilder) (o : BuildStepOptions) (hpk : b.MisePackages ≠ [])
    (hapt : ∀ packages, (o.NewAptInstallCommand packages).isPath = false) :
    (∀ name : String, (b.packagesToInstall o).get name =
      if name ∈ b.MisePackages.map (fun pkg => pkg.Name) then resolvedVersion o name
      else none) ∧
    (∀ err, GenerateMiseToml encode (b.packagesToInstall o) = .error err →
      b.Build encode o = .error (Errorf "failed to generate mise.toml: " err)) ∧
    (∀ toml, GenerateMiseToml encode (b.packagesToInstall o) = .ok toml →
      ∃ step, b.Build encode o = .ok step ∧
        step.Assets.get "mise.toml" = some toml ∧
        step.Commands.filter Command.isPath =
          b.MisePackages.filterMap (fun pkg =>
            (resolvedVersion o pkg.Name).map (fun version =>
              Command.Path ("/mise/installs/" ++ pkg.Name ++ "/" ++ version ++ "/bin")))) := by
  refine ⟨packagesToInstall_get b o, ?_, ?_⟩
  · intro err herr
    have hlen : ¬ b.MisePackages.length = 0 := fun h => hpk (List.length_eq_zero.1 h)
    have hpos : b.MisePackages.length > 0 := Nat.pos_of_ne_zero hlen
    simp only [MiseStepBuilder.Build, hlen, hpos, if_true, if_false, herr]
  · intro toml htoml
    obtain ⟨step, hstep, hcommands, _, hassets⟩ := mise_Build_step encode b o toml hpk htoml
    refine ⟨step, hstep, by rw [hassets, GoMap.get_set]; simp, ?_⟩
    rw [hcommands]
    have hnone : ∀ l : List Command, (∀ c ∈ l, c.isPath = false) →
        l.filter Command.isPath = [] := by
      intro l hl
      rw [List.filter_eq_nil_iff]
      intro c hc
      simp [hl c hc]
    simp only [List.filter_append, misePathCommands_filter_isPath,
      miseCopyCommands_filter_isPath]
    rw [hnone _ (by
        intro c hc
        simp only [List.mem_cons, List.mem_singleton, List.not_mem_nil, or_false] at hc
        rcases hc with rfl | rfl | rfl | rfl | rfl | rfl
        · rfl
        · rfl
        · rfl
        · rfl
        · exact hapt _
        · rfl),
      hnone (if b.SupportingAptPackages = [] then []
        else [o.NewAptInstallCommand b.SupportingAptPackages]) (by
        intro c hc
        by_cases hs : b.SupportingAptPackages = []
        · simp [hs] at hc
        · simp only [hs, if_false, List.mem_singleton] at hc
          rw [hc]
          exact hapt _),
      hnone [Command.File "/etc/mise/config.toml" "mise.toml" none "create mise config", _] (by
        intro c hc
        simp only [List.mem_cons, List.mem_singleton, List.not_mem_nil, or_false] at hc
        rcases hc with rfl | rfl <;> rfl)]
    rfl

/-- C21 at the builder with the packages node (resolved to 22.1.0) and python
(no resolved version): the map holds node only, the step is returned and its
only `Path` command is the one of node. -/
theorem mise_resolved_packages_witness :
    nodeMiseStepBuilder.MisePackages ≠ [] ∧
      nodeMiseStepBuilder.packagesToInstall sampleBuildOptions = [("node", "22.1.0")] ∧
      ∃ step, nodeMiseStepBuilder.Build sampleEncode sampleBuildOptions = .ok step ∧
        step.Commands.filter Command.isPath = [Command.Path "/mise/installs/node/22.1.0/bin"] :=
  have h := (mise_resolved_packages sampleEncode nodeMiseStepBuilder sampleBuildOptions
    (by decide) (fun _ => rfl)).2.2 "[tools] node=22.1.0" rfl
  ⟨by decide, by decide, h.choose, h.choose_spec.1, h.choose_spec.2.2.trans (by decide)⟩

/-! ### The order of package names -/

/-- The order of Go strings is asymmetric. -/
theorem charsLess_asymm (a b : List Char) (h : charsLess a b = true) : charsLess b a = false := by
  induction a generalizing b with
  | nil => cases b <;> simp_all [charsLess]
  | cons x xs ih =>
    cases b with
    | nil => simp [charsLess] at h
    | cons y ys =>
      simp only [charsLess] at h ⊢
      by_cases h1 : x.toNat < y.toNat
      · have h2 : ¬ y.toNat < x.toNat := by omega
        simp [h1, h2]
      · by_cases h2 : y.toNat < x.toNat
        · simp [h1, h2] at h
        · simp only [h1, h2, if_false] at h ⊢
          exact ih ys h

/-- Two strings neither of which is less than the other are equal. -/
theorem charsLess_antisymm (a b : List Char) (h1 : charsLess a b = false)
    (h2 : charsLess b a = false) : a = b := by
  induction a generalizing b with
  | nil => cases b <;> simp_all [charsLess]
  | cons x xs ih =>
    cases b with
    | nil => simp [charsLess] at h2
    | cons y ys =>
      simp only [charsLess] at h1 h2
      by_cases hxy : x.toNat < y.toNat
      · simp [hxy] at h1
      · by_cases hyx : y.toNat < x.toNat
        · simp [hyx] at h2
        · simp only [hxy, hyx, if_false] at h1 h2
          have hval : x.toNat = y.toNat := by omega
          have hx : x = y := Char.ext (UInt32.ext hval)
          rw [hx, ih ys h1 h2]

/-- The order `<=` of Go strings is transitive. -/
theorem charsLess_trans (a b c : List Char) (h1 : charsLess b a = false)
    (h2 : charsLess c b = false) : charsLess c a = false := by
  induction a generalizing b c with
  | nil => cases c <;> rfl
  | cons x xs ih =>
    cases c with
    | nil =>
      cases b with
      | nil => exact h1
      | cons y ys => simp [charsLess] at h2
    | cons z zs =>
      cases b with
      | nil => simp [charsLess] at h1
      | cons y ys =>
        simp only [charsLess] at h1 h2 ⊢
        by_cases hyx : y.toNat < x.toNat
        · simp [hyx] at h1
        · by_cases hzy : z.toNat < y.toNat
          · simp [hzy] at h2
          · have hzx : ¬ z.toNat < x.toNat := by omega
            simp only [hzx, if_false]
            by_cases hxz : x.toNat < z.toNat
            · simp [hxz]
            · simp only [hxz, if_false]
              have hxy : ¬ x.toNat < y.toNat := by omega
              have hyz : ¬ y.toNat < z.toNat := by omega
              simp only [hyx, hxy, hzy, hyz, if_false] at h1 h2
              exact ih ys zs h1 h2

instance stringLE_total : IsTotal String stringLE where
  total a b := by
    unfold stringLE stringLess
    cases h : charsLess b.data a.data with
    | false => exact Or.inl rfl
    | true => exact Or.inr (charsLess_asymm _ _ h)

instance stringLE_trans : IsTrans String stringLE where
  trans a b c hab hbc := by
    unfold stringLE stringLess at *
    exact charsLess_trans a.data b.data c.data hab hbc

instance stringLE_antisymm : IsAntisymm String stringLE where
  antisymm a b hab hba := by
    unfold stringLE stringLess at *
    exact String.ext (charsLess_antisymm a.data b.data hba hab)

/-- The function `sortStrings` is insertion sort for the order of Go strings. -/
theorem sortStrings_eq_insertionSort (l : List String) :
    sortStrings l = List.insertionSort stringLE l := by
  have hins : ∀ (s : String) (l : List String),
      insertSorted s l = List.orderedInsert stringLE s l := by
    intro s l
    induction l with
    | nil => rfl
    | cons t rest ih =>
      simp only [insertSorted, List.orderedInsert, stringLE]
      rcases Bool.eq_false_or_eq_true (stringLess t s) with h | h <;> simp [h, ih]
  induction l with
  | nil => rfl
  | cons s rest ih => simp only [sortStrings, List.insertionSort, ih, hins]

/-- The sorted names are in ascending order. -/
theorem sortStrings_sorted (l : List String) : (sortStrings l).Sorted stringLE := by
  rw [sortStrings_eq_insertionSort]
  exact List.sorted_insertionSort stringLE l

/-- The sorted names are the names. -/
theorem sortStrings_perm (l : List String) : (sortStrings l).Perm l := by
  rw [sortStrings_eq_insertionSort]
  exact List.perm_insertionSort stringLE l

/-- Sorting does not depend on the order of the names. -/
theorem sortStrings_of_perm (l1 l2 : List String) (h : l1.Perm l2) :
    sortStrings l1 = sortStrings l2 :=
  List.eq_of_perm_of_sorted (((sortStrings_perm l1).trans h).trans (sortStrings_perm l2).symm)
    (sortStrings_sorted l1) (sortStrings_sorted l2)

/-! ### Maps with pairwise different keys -/

/-- The keys after an assignment: the key assigned and the keys before. -/
theorem GoMap.mem_keys_set {α : Type} (m : GoMap α) (k k' : String) (v : α) :
    k' ∈ (m.set k v).keys ↔ k' = k ∨ k' ∈ m.keys := by
  induction m with
  | nil => simp [GoMap.set, GoMap.keys]
  | cons kv rest ih =>
    obtain ⟨k1, v1⟩ := kv
    simp only [GoMap.set]
    by_cases h1 : k1 = k
    · subst h1
      simp [GoMap.keys]
    · simp only [h1, if_false]
      simp only [GoMap.keys, List.map_cons, List.mem_cons] at ih ⊢
      rw [ih]
      tauto

/-- An assignment keeps the keys pairwise different. -/
theorem GoMap.keys_nodup_set {α : Type} (m : GoMap α) (k : String) (v : α)
    (h : m.keys.Nodup) : (m.set k v).keys.Nodup := by
  induction m with
  | nil => simp [GoMap.set, GoMap.keys]
  | cons kv rest ih =>
    obtain ⟨k1, v1⟩ := kv
    simp only [GoMap.keys, List.map_cons, List.nodup_cons] at h
    simp only [GoMap.set]
    by_cases h1 : k1 = k
    · subst h1
      simpa [GoMap.keys] using h
    · simp only [h1, if_false]
      have hrest := ih h.2
      simp only [GoMap.keys, List.map_cons, List.nodup_cons]
      refine ⟨?_, hrest⟩
      intro hmem
      have := (GoMap.mem_keys_set rest k k1 v).1 hmem
      rcases this with h2 | h2
      · exact h1 h2
      · exact h.1 h2

/-- A key is a key of the map exactly when it reads as present. -/
theorem GoMap.mem_keys_iff {α : Type} (m : GoMap α) (k : String) :
    k ∈ m.keys ↔ (m.get k).isSome = true := by
  induction m with
  | nil => simp [GoMap.keys, GoMap.get]
  | cons kv rest ih =>
    obtain ⟨k1, v1⟩ := kv
    simp only [GoMap.keys, List.map_cons, List.mem_cons, GoMap.get]
    by_cases h1 : k1 = k
    · subst h1
      simp
    · have h2 : ¬ k = k1 := fun h => h1 h.symm
      simp only [h1, if_false, h2, false_or]
      exact ih

/-- Two maps with pairwise different keys that hold the same names have the
same keys up to order. -/
theorem GoMap.keys_perm {α β : Type} (m1 : GoMap α) (m2 : GoMap β) (h1 : m1.keys.Nodup)
    (h2 : m2.keys.Nodup) (h : ∀ k, (m1.get k).isSome = (m2.get k).isSome) :
    m1.keys.Perm m2.keys := by
  rw [List.perm_ext_iff_of_nodup h1 h2]
  intro k
  rw [GoMap.mem_keys_iff, GoMap.mem_keys_iff, h]

/-- The keys of the map of packages to install are pairwise different. -/
theorem packagesToInstall_keys_nodup (b : MiseStepBuilder) (o : BuildStepOptions) :
    (b.packagesToInstall o).keys.Nodup := by
  have haux : ∀ (packages : List PackageRef) (init : GoMap String), init.keys.Nodup →
      (packages.foldl
        (fun m pkg =>
          match o.ResolvedPackages.get pkg.Name with
          | some resolved =>
            match resolved.ResolvedVersion with
            | some version => GoMap.set m pkg.Name version
            | none => m
          | none => m)
        init).keys.Nodup := by
    intro packages
    induction packages with
    | nil => intro init h; exact h
    | cons pkg rest ih =>
      intro init h
      rw [List.foldl_cons]
      apply ih
      cases hget : o.ResolvedPackages.get pkg.Name with
      | none => exact h
      | some resolved =>
        cases hver : resolved.ResolvedVersion with
        | none => simpa [hver] using h
        | some version => simpa [hver] using GoMap.keys_nodup_set init pkg.Name version h
  exact haux b.MisePackages [] (by simp [GoMap.keys])

/-- The tools of the config that `GenerateMiseToml` encodes: pairwise different
keys, and each name of the package map with its version. -/
theorem tools_of_packages (packages : GoMap String) (hkeys : packages.keys.Nodup) :
    (packages.foldl (fun (tools : GoMap MisePackage) kv =>
        GoMap.set tools kv.1 { Version := kv.2 }) []).keys.Nodup ∧
      ∀ name, (packages.foldl (fun (tools : GoMap MisePackage) kv =>
        GoMap.set tools kv.1 { Version := kv.2 }) []).get name =
        (packages.get name).map (fun version => { Version := version }) := by
  have haux : ∀ (l : GoMap String) (init : GoMap MisePackage), l.keys.Nodup →
      init.keys.Nodup →
      (l.foldl (fun (tools : GoMap MisePackage) kv =>
          GoMap.set tools kv.1 { Version := kv.2 }) init).keys.Nodup ∧
        ∀ name, (l.foldl (fun (tools : GoMap MisePackage) kv =>
          GoMap.set tools kv.1 { Version := kv.2 }) init).get name =
          match l.get name with
          | some version => some { Version := version }
          | none => init.get name := by
    intro l
    induction l with
    | nil => intro init _ hinit; exact ⟨hinit, fun _ => rfl⟩
    | cons kv rest ih =>
      intro init hl hinit
      obtain ⟨k1, v1⟩ := kv
      simp only [GoMap.keys, List.map_cons, List.nodup_cons] at hl
      have h := ih (GoMap.set init k1 { Version := v1 }) hl.2
        (GoMap.keys_nodup_set init k1 _ hinit)
      refine ⟨h.1, ?_⟩
      intro name
      rw [List.foldl_cons, h.2 name, GoMap.get_set]
      by_cases h1 : k1 = name
      · subst h1
        have hnone : GoMap.get rest k1 = none := GoMap.get_of_not_mem_keys rest k1 hl.1
        simp [GoMap.get, hnone]
      · simp [GoMap.get, h1]
  have h := haux packages [] hkeys (by simp [GoMap.keys])
  refine ⟨h.1, ?_⟩
  intro name
  rw [h.2 name]
  cases packages.get name <;> rfl

/-! ### The mise output and the order of registration -/

/-- With an encoder that writes the tools in sorted key order, the text of
`GenerateMiseToml` for a map with pairwise different keys is the rendering of
its names in increasing order, each with its version. -/
theorem GenerateMiseToml_sorted
    (render : List (String × Option MisePackage) → Except GoError String)
    (encode : MiseConfig → Except GoError String)
    (henc : ∀ config, encode config = sortedKeyEncode render config)
    (packages : GoMap String) (hkeys : packages.keys.Nodup) :
    GenerateMiseToml encode packages =
      render ((sortStrings packages.keys).map (fun name =>
        (name, (packages.get name).map (fun version => ({ Version := version } : MisePackage))))) := by
  have htools := tools_of_packages packages hkeys
  have hperm : (packages.foldl (fun (tools : GoMap MisePackage) kv =>
      GoMap.set tools kv.1 { Version := kv.2 }) []).keys.Perm packages.keys := by
    apply GoMap.keys_perm _ _ htools.1 hkeys
    intro k
    rw [htools.2 k]
    cases packages.get k <;> rfl
  have hval : GenerateMiseToml encode packages =
      encode { Tools := packages.foldl (fun (tools : GoMap MisePackage) kv =>
        GoMap.set tools kv.1 { Version := kv.2 }) [] } := by
    simp only [GenerateMiseToml]
    cases encode { Tools := packages.foldl (fun (tools : GoMap MisePackage) kv =>
        GoMap.set tools kv.1 { Version := kv.2 }) [] } <;> rfl
  rw [hval, henc, sortedKeyEncode, sortStrings_of_perm _ _ hperm]
  congr 1
  apply List.map_congr_left
  intro name _
  rw [htools.2 name]

/-- The sorted names of the packages to install of two builders with the same
set of package names, under options that resolve these names alike, are the
same list, and the two maps read alike. -/
theorem packagesToInstall_same_set (b1 b2 : MiseStepBuilder) (o1 o2 : BuildStepOptions)
    (hsame : ∀ name, name ∈ b1.MisePackages.map (fun pkg => pkg.Name) ↔
      name ∈ b2.MisePackages.map (fun pkg => pkg.Name))
    (hver : ∀ name, name ∈ b1.MisePackages.map (fun pkg => pkg.Name) →
      resolvedVersion o1 name = resolvedVersion o2 name) :
    (∀ name, (b1.packagesToInstall o1).get name = (b2.packagesToInstall o2).get name) ∧
      sortStrings (b1.packagesToInstall o1).keys = sortStrings (b2.packagesToInstall o2).keys := by
  have hget : ∀ name, (b1.packagesToInstall o1).get name = (b2.packagesToInstall o2).get name := by
    intro name
    rw [packagesToInstall_get, packagesToInstall_get]
    by_cases hmem : name ∈ b1.MisePackages.map (fun pkg => pkg.Name)
    · rw [if_pos hmem, if_pos ((hsame name).1 hmem), hver name hmem]
    · rw [if_neg hmem, if_neg (fun h => hmem ((hsame name).2 h))]
  refine ⟨hget, ?_⟩
  apply sortStrings_of_perm
  apply GoMap.keys_perm _ _ (packagesToInstall_keys_nodup b1 o1) (packagesToInstall_keys_nodup b2 o2)
  intro k
  rw [hget k]

/-- C22, counterexample: the builder with python then node and the builder with
node then python hold the same set of packages, and with the same resolved
versions `Build` returns steps whose `Path` commands stand in the two
registration orders, so the two steps differ. -/
theorem mise_step_follows_registration_order :
    (∀ name, name ∈ pythonNodeBuilder.MisePackages.map (fun pkg => pkg.Name) ↔
      name ∈ nodePythonBuilder.MisePackages.map (fun pkg => pkg.Name)) ∧
    ((pythonNodeBuilder.Build (sortedKeyEncode sampleRender) bothResolvedOptions).toOption.map
      (fun step => step.Commands.filter Command.isPath)) =
      some [Command.Path "/mise/installs/python/3.13.1/bin",
        Command.Path "/mise/installs/node/22.1.0/bin"] ∧
    ((nodePythonBuilder.Build (sortedKeyEncode sampleRender) bothResolvedOptions).toOption.map
      (fun step => step.Commands.filter Command.isPath)) =
      some [Command.Path "/mise/installs/node/22.1.0/bin",
        Command.Path "/mise/installs/python/3.13.1/bin"] ∧
    pythonNodeBuilder.Build (sortedKeyEncode sampleRender) bothResolvedOptions ≠
      nodePythonBuilder.Build (sortedKeyEncode sampleRender) bothResolvedOptions := by
  have h1 : ((pythonNodeBuilder.Build (sortedKeyEncode sampleRender)
      bothResolvedOptions).toOption.map (fun step => step.Commands.filter Command.isPath)) =
      some [Command.Path "/mise/installs/python/3.13.1/bin",
        Command.Path "/mise/installs/node/22.1.0/bin"] := by rfl
  have h2 : ((nodePythonBuilder.Build (sortedKeyEncode sampleRender)
      bothResolvedOptions).toOption.map (fun step => step.Commands.filter Command.isPath)) =
      some [Command.Path "/mise/installs/node/22.1.0/bin",
        Command.Path "/mise/installs/python/3.13.1/bin"] := by rfl
  refine ⟨?_, h1, h2, ?_⟩
  · intro name
    simp only [pythonNodeBuilder, nodePythonBuilder, List.map_cons, List.map_nil, List.mem_cons,
      List.mem_nil_iff, or_false]
    exact Or.comm
  · intro heq
    rw [heq, h2] at h1
    exact absurd h1 (by decide)

/-- C22, amended: the `mise.toml` text and the name of the install command do
not depend on the order in which packages were registered.  For two builders
with the same set of package names, under options that resolve these names to
the same versions, and with a TOML encoder that writes the tools in sorted key
order: `GenerateMiseToml` returns the same result for both, namely the rendering
of the names with a resolved version in increasing order, each with its
version; the sorted name lists agree, are in increasing order and hold exactly
the packages with a resolved version; and when the text is generated both
builds return a step whose install command is named by these names joined by
", ", with the text under mise.toml.  The `Path` commands of the step are left
out: they follow the order of registration. -/
theorem mise_toml_order_independent
    (render : List (String × Option MisePackage) → Except GoError String)
    (encode : MiseConfig → Except GoError String)
    (henc : ∀ config, encode config = sortedKeyEncode render config)
    (b1 b2 : MiseStepBuilder) (o1 o2 : BuildStepOptions)
    (hpk : b1.MisePackages ≠ [])
    (hsame : ∀ name, name ∈ b1.MisePackages.map (fun pkg => pkg.Name) ↔
      name ∈ b2.MisePackages.map (fun pkg => pkg.Name))
    (hver : ∀ name, name ∈ b1.MisePackages.map (fun pkg => pkg.Name) →
      resolvedVersion o1 name = resolvedVersion o2 name) :
    GenerateMiseToml encode (b1.packagesToInstall o1) =
        GenerateMiseToml encode (b2.packagesToInstall o2) ∧
      GenerateMiseToml encode (b1.packagesToInstall o1) =
        render ((sortStrings (b1.packagesToInstall o1).keys).map (fun name =>
          (name, (resolvedVersion o1 name).map
            (fun version => ({ Version := version } : MisePackage))))) ∧
      sortStrings (b1.packagesToInstall o1).keys = sortStrings (b2.packagesToInstall o2).keys ∧
      (sortStrings (b1.packagesToInstall o1).keys).Sorted stringLE ∧
      (∀ name, name ∈ sortStrings (b1.packagesToInstall o1).keys ↔
        (name ∈ b1.MisePackages.map (fun pkg => pkg.Name) ∧
          (resolvedVersion o1 name).isSome = true)) ∧
      (∀ toml, GenerateMiseToml encode (b1.packagesToInstall o1) = .ok toml →
        ∃ step1 step2, b1.Build encode o1 = .ok step1 ∧ b2.Build encode o2 = .ok step2 ∧
          Command.Exec "sh -c 'mise trust -a && mise install'"
            ("install mise packages: " ++
              stringsJoin (sortStrings (b1.packagesToInstall o1).keys) ", ")
            [o1.AddCache "mise" "/mise/cache"] ∈ step1.Commands ∧
          Command.Exec "sh -c 'mise trust -a && mise install'"
            ("install mise packages: " ++
              stringsJoin (sortStrings (b1.packagesToInstall o1).keys) ", ")
            [o2.AddCache "mise" "/mise/cache"] ∈ step2.Commands ∧
          step1.Assets.get "mise.toml" = some toml ∧
          step2.Assets.get "mise.toml" = some toml) := by
  have hset := packagesToInstall_same_set b1 b2 o1 o2 hsame hver
  have hmem : ∀ name, name ∈ sortStrings (b1.packagesToInstall o1).keys ↔
      (name ∈ b1.MisePackages.map (fun pkg => pkg.Name) ∧
        (resolvedVersion o1 name).isSome = true) := by
    intro name
    rw [(sortStrings_perm _).mem_iff, GoMap.mem_keys_iff, packagesToInstall_get]
    by_cases hin : name ∈ b1.MisePackages.map (fun pkg => pkg.Name)
    · simp [hin]
    · simp [hin]
  have hsorted1 := GenerateMiseToml_sorted render encode henc _ (packagesToInstall_keys_nodup b1 o1)
  have hsorted2 := GenerateMiseToml_sorted render encode henc _ (packagesToInstall_keys_nodup b2 o2)
  have hlist : (sortStrings (b1.packagesToInstall o1).keys).map (fun name =>
      (name, ((b1.packagesToInstall o1).get name).map
        (fun version => ({ Version := version } : MisePackage)))) =
      (sortStrings (b1.packagesToInstall o1).keys).map (fun name =>
        (name, (resolvedVersion o1 name).map
          (fun version => ({ Version := version } : MisePackage)))) := by
    apply List.map_congr_left
    intro name hname
    rw [packagesToInstall_get, if_pos ((hmem name).1 hname).1]
  have hboth : GenerateMiseToml encode (b1.packagesToInstall o1) =
      GenerateMiseToml encode (b2.packagesToInstall o2) := by
    rw [hsorted1, hsorted2, ← hset.2]
    congr 1
    apply List.map_congr_left
    intro name _
    rw [hset.1 name]
  have hpk2 : b2.MisePackages ≠ [] := by
    intro h2
    cases hb : b1.MisePackages with
    | nil => exact hpk hb
    | cons pkg rest =>
      have := (hsame pkg.Name).1 (by simp [hb])
      simp [h2] at this
  refine ⟨hboth, ?_, hset.2, sortStrings_sorted _, hmem, ?_⟩
  · rw [hsorted1, hlist]
  · intro toml htoml
    obtain ⟨step1, hb1, hc1, _, ha1⟩ := mise_Build_step encode b1 o1 toml hpk htoml
    obtain ⟨step2, hb2, hc2, _, ha2⟩ := mise_Build_step encode b2 o2 toml hpk2 (hboth ▸ htoml)
    refine ⟨step1, step2, hb1, hb2, ?_, ?_, ?_, ?_⟩
    · rw [hc1]
      simp
    · rw [hc2, ← hset.2]
      simp
    · rw [ha1, GoMap.get_set]
      simp
    · rw [ha2, GoMap.get_set]
      simp

/-- C22, witness: python then node against node then python, both resolved:
the text is the same, with node before python, and so is the name of the
install command. -/
theorem mise_toml_order_independent_witness :
    GenerateMiseToml (sortedKeyEncode sampleRender)
        (pythonNodeBuilder.packagesToInstall bothResolvedOptions) =
      .ok "[tools] node=22.1.0 python=3.13.1" ∧
    GenerateMiseToml (sortedKeyEncode sampleRender)
        (pythonNodeBuilder.packagesToInstall bothResolvedOptions) =
      GenerateMiseToml (sortedKeyEncode sampleRender)
        (nodePythonBuilder.packagesToInstall bothResolvedOptions) ∧
    sortStrings (pythonNodeBuilder.packagesToInstall bothResolvedOptions).keys =
      ["node", "python"] ∧
    sortStrings (nodePythonBuilder.packagesToInstall bothResolvedOptions).keys =
      ["node", "python"] :=
  have h := mise_toml_order_independent sampleRender (sortedKeyEncode sampleRender)
    (fun _ => rfl) pythonNodeBuilder nodePythonBuilder bothResolvedOptions bothResolvedOptions
    (by decide)
    (by
      intro name
      simp only [pythonNodeBuilder, nodePythonBuilder, List.map_cons, List.map_nil,
        List.mem_cons, List.mem_nil_iff, or_false]
      exact Or.comm)
    (fun _ _ => rfl)
  ⟨rfl, h.1, rfl, h.2.2.1 ▸ rfl⟩

/-! ### `Default` on the step builders -/

/-- The search of `Default` in a package list: a ref found bears the name; when
none is found the name is not among the names of the list; and after a ref of
the name is appended to a list without the name, the search finds that ref. -/
theorem find_package (packages : List PackageRef) (name : String) :
    (∀ pkg, packages.find? (fun pkg => pkg.Name == name) = some pkg → pkg.Name = name) ∧
      (packages.find? (fun pkg => pkg.Name == name) = none →
        name ∉ packages.map (fun pkg => pkg.Name)) ∧
      (∀ pkg : PackageRef, pkg.Name = name →
        packages.find? (fun pkg => pkg.Name == name) = none →
        (packages ++ [pkg]).find? (fun pkg => pkg.Name == name) = some pkg) := by
  refine ⟨?_, ?_, ?_⟩
  · intro pkg h
    have := List.find?_some h
    simpa using this
  · intro h hmem
    rw [List.find?_eq_none] at h
    obtain ⟨pkg, hpkg, hname⟩ := List.mem_map.1 hmem
    exact h pkg hpkg (by simp [hname])
  · intro pkg hname h
    rw [List.find?_append, h]
    simp [List.find?, hname]

/-- A call of `Default` on a mise step builder: a second call with the same
name changes nothing and returns the same ref, and names that were pairwise
different stay so. -/
theorem mise_Default_again {ρ : Type} (resolverDefault : ρ → String → String → ρ × PackageRef)
    (hname : ∀ resolver name version, (resolverDefault resolver name version).2.Name = name)
    (b : MiseStepBuilder) (resolver : ρ) (name v1 v2 : String) :
    (b.Default resolverDefault resolver name v1).1.Default resolverDefault
        (b.Default resolverDefault resolver name v1).2.1 name v2 =
      b.Default resolverDefault resolver name v1 ∧
    ((b.MisePackages.map (fun pkg => pkg.Name)).Nodup →
      ((b.Default resolverDefault resolver name v1).1.MisePackages.map
        (fun pkg => pkg.Name)).Nodup) := by
  have hfind := find_package b.MisePackages name
  cases h : b.MisePackages.find? (fun pkg => pkg.Name == name) with
  | some pkg =>
    have h1 : b.Default resolverDefault resolver name v1 = (b, resolver, pkg) := by
      simp [MiseStepBuilder.Default, h]
    rw [h1]
    refine ⟨?_, fun hn => hn⟩
    simp [MiseStepBuilder.Default, h]
  | none =>
    have h1 : b.Default resolverDefault resolver name v1 =
        ({ b with MisePackages := b.MisePackages ++ [(resolverDefault resolver name v1).2] },
          (resolverDefault resolver name v1).1, (resolverDefault resolver name v1).2) := by
      simp [MiseStepBuilder.Default, h]
    rw [h1]
    have h2 := hfind.2.2 (resolverDefault resolver name v1).2 (hname _ _ _) h
    refine ⟨?_, ?_⟩
    · simp only [MiseStepBuilder.Default, h2]
    · intro hn
      simp only [List.map_append, List.map_cons, List.map_nil, hname]
      rw [List.nodup_append]
      refine ⟨hn, by simp, ?_⟩
      intro x hx1 hx2
      simp only [List.mem_singleton] at hx2
      subst hx2
      exact hfind.2.1 h hx1

/-- The same for a call of `Default` on an image step builder. -/
theorem image_Default_again {ρ : Type} (resolverDefault : ρ → String → String → ρ × PackageRef)
    (hname : ∀ resolver name version, (resolverDefault resolver name version).2.Name = name)
    (b : ImageStepBuilder) (resolver : ρ) (name v1 v2 : String) :
    (b.Default resolverDefault resolver name v1).1.Default resolverDefault
        (b.Default resolverDefault resolver name v1).2.1 name v2 =
      b.Default resolverDefault resolver name v1 ∧
    ((b.Packages.map (fun pkg => pkg.Name)).Nodup →
      ((b.Default resolverDefault resolver name v1).1.Packages.map
        (fun pkg => pkg.Name)).Nodup) := by
  have hfind := find_package b.Packages name
  cases h : b.Packages.find? (fun pkg => pkg.Name == name) with
  | some pkg =>
    have h1 : b.Default resolverDefault resolver name v1 = (b, resolver, pkg) := by
      simp [ImageStepBuilder.Default, h]
    rw [h1]
    refine ⟨?_, fun hn => hn⟩
    simp [ImageStepBuilder.Default, h]
  | none =>
    have h1 : b.Default resolverDefault resolver name v1 =
        ({ b with Packages := b.Packages ++ [(resolverDefault resolver name v1).2] },
          (resolverDefault resolver name v1).1, (resolverDefault resolver name v1).2) := by
      simp [ImageStepBuilder.Default, h]
    rw [h1]
    have h2 := hfind.2.2 (resolverDefault resolver name v1).2 (hname _ _ _) h
    refine ⟨?_, ?_⟩
    · simp only [ImageStepBuilder.Default, h2]
    · intro hn
      simp only [List.map_append, List.map_cons, List.map_nil, hname]
      rw [List.nodup_append]
      refine ⟨hn, by simp, ?_⟩
      intro x hx1 hx2
      simp only [List.mem_singleton] at hx2
      subst hx2
      exact hfind.2.1 h hx1

/-- After any sequence of `Default` calls on a mise step builder whose package
names are pairwise different, they are pairwise different. -/
theorem mise_Defaults_nodup {ρ : Type} (resolverDefault : ρ → String → String → ρ × PackageRef)
    (hname : ∀ resolver name version, (resolverDefault resolver name version).2.Name = name)
    (calls : List (String × String)) (b : MiseStepBuilder) (resolver : ρ)
    (hb : (b.MisePackages.map (fun pkg => pkg.Name)).Nodup) :
    ((b.Defaults resolverDefault resolver calls).1.MisePackages.map
      (fun pkg => pkg.Name)).Nodup := by
  induction calls generalizing b resolver with
  | nil => exact hb
  | cons call rest ih =>
    simp only [MiseStepBuilder.Defaults, List.foldl_cons]
    exact ih _ _ ((mise_Default_again resolverDefault hname b resolver call.1 call.2 call.2).2 hb)

/-- The same for an image step builder. -/
theorem image_Defaults_nodup {ρ : Type} (resolverDefault : ρ → String → String → ρ × PackageRef)
    (hname : ∀ resolver name version, (resolverDefault resolver name version).2.Name = name)
    (calls : List (String × String)) (b : ImageStepBuilder) (resolver : ρ)
    (hb : (b.Packages.map (fun pkg => pkg.Name)).Nodup) :
    ((b.Defaults resolverDefault resolver calls).1.Packages.map
      (fun pkg => pkg.Name)).Nodup := by
  induction calls generalizing b resolver with
  | nil => exact hb
  | cons call rest ih =>
    simp only [ImageStepBuilder.Defaults, List.foldl_cons]
    exact ih _ _ ((image_Default_again resolverDefault hname b resolver call.1 call.2 call.2).2 hb)

/-- C23: `Default` is idempotent per name on the step builders.  For every
resolver whose `Default` returns the ref of the name it is given, every
`MiseStepBuilder`, every `ImageStepBuilder` and every name, the call
`Default(name, v2)` made after `Default(name, v1)` returns the ref of the first
call, leaves the resolver as the first call left it, whatever the resolver
does when called, and leaves the builder with its package list unchanged; and
after any sequence of `Default` calls on a new builder no two refs of its
package list bear the same name. -/
theorem Default_idempotent {ρ : Type} (resolverDefault : ρ → String → String → ρ × PackageRef)
    (hname : ∀ resolver name version, (resolverDefault resolver name version).2.Name = name)
    (b : MiseStepBuilder) (image : ImageStepBuilder) (resolver : ρ) (name v1 v2 : String) :
    ((b.Default resolverDefault resolver name v1).1.Default resolverDefault
        (b.Default resolverDefault resolver name v1).2.1 name v2).2.2 =
      (b.Default resolverDefault resolver name v1).2.2 ∧
    ((b.Default resolverDefault resolver name v1).1.Default resolverDefault
        (b.Default resolverDefault resolver name v1).2.1 name v2).2.1 =
      (b.Default resolverDefault resolver name v1).2.1 ∧
    ((b.Default resolverDefault resolver name v1).1.Default resolverDefault
        (b.Default resolverDefault resolver name v1).2.1 name v2).1.MisePackages =
      (b.Default resolverDefault resolver name v1).1.MisePackages ∧
    ((image.Default resolverDefault resolver name v1).1.Default resolverDefault
        (image.Default resolverDefault resolver name v1).2.1 name v2).2.2 =
      (image.Default resolverDefault resolver name v1).2.2 ∧
    ((image.Default resolverDefault resolver name v1).1.Default resolverDefault
        (image.Default resolverDefault resolver name v1).2.1 name v2).2.1 =
      (image.Default resolverDefault resolver name v1).2.1 ∧
    ((image.Default resolverDefault resolver name v1).1.Default resolverDefault
        (image.Default resolverDefault resolver name v1).2.1 name v2).1.Packages =
      (image.Default resolverDefault resolver name v1).1.Packages ∧
    (∀ (calls : List (String × String)) (app : App),
      (((newMiseStepBuilder app).Defaults resolverDefault resolver calls).1.MisePackages.map
        (fun pkg => pkg.Name)).Nodup) ∧
    (∀ (calls : List (String × String)) (stepName : String)
      (resolveStepImage : BuildStepOptions → String),
      ((({ DisplayName := stepName, ResolveStepImage := resolveStepImage } :
        ImageStepBuilder).Defaults resolverDefault resolver calls).1.Packages.map
        (fun pkg => pkg.Name)).Nodup) := by
  have hm := (mise_Default_again resolverDefault hname b resolver name v1 v2).1
  have hi := (image_Default_again resolverDefault hname image resolver name v1 v2).1
  refine ⟨by rw [hm], by rw [hm], by rw [hm], by rw [hi], by rw [hi], by rw [hi], ?_, ?_⟩
  · intro calls app
    exact mise_Defaults_nodup resolverDefault hname calls _ resolver (by simp [newMiseStepBuilder])
  · intro calls stepName resolveStepImage
    exact image_Defaults_nodup resolverDefault hname calls _ resolver (by simp)

/-- C23, witness: on a new mise step builder and on the php image step builder,
`Default("caddy", "latest")` followed by `Default("caddy", "2")` makes one call
of the resolver, with the version latest, and the package list holds caddy
once. -/
theorem Default_idempotent_witness :
    (((newMiseStepBuilder emptyApp).Default recordingDefault [] "caddy" "latest").1.Default
        recordingDefault
        ((newMiseStepBuilder emptyApp).Default recordingDefault [] "caddy" "latest").2.1
        "caddy" "2").2.1 = [("caddy", "latest")] ∧
    (((newMiseStepBuilder emptyApp).Default recordingDefault [] "caddy" "latest").1.Default
        recordingDefault
        ((newMiseStepBuilder emptyApp).Default recordingDefault [] "caddy" "latest").2.1
        "caddy" "2").1.MisePackages = [{ Name := "caddy" }] ∧
    ((phpImageStepBuilder.Default recordingDefault [] "php" "8.4.3").1.Default
        recordingDefault
        (phpImageStepBuilder.Default recordingDefault [] "php" "8.4.3").2.1
        "php" "8.2").1.Packages = [{ Name := "php" }] :=
  have h := Default_idempotent recordingDefault (fun _ _ _ => rfl) (newMiseStepBuilder emptyApp)
    phpImageStepBuilder [] "caddy" "latest" "2"
  have h2 := Default_idempotent recordingDefault (fun _ _ _ => rfl) (newMiseStepBuilder emptyApp)
    phpImageStepBuilder [] "php" "8.4.3" "8.2"
  ⟨h.2.1.trans rfl, h.2.2.1.trans rfl, h2.2.2.2.2.2.1.trans rfl⟩

/-! ### `GetLatestVersion` -/

/-- The text that `strings.TrimSpace` returns neither starts nor ends with
white space, and the string is that text between a run of white space and
another. -/
theorem stringsTrimSpace_spec (s : String) :
    (∃ before after : List Char, s.data = before ++ (stringsTrimSpace s).data ++ after ∧
      (∀ c ∈ before, unicodeIsSpace c = true) ∧ (∀ c ∈ after, unicodeIsSpace c = true)) ∧
    (∀ c, (stringsTrimSpace s).data.head? = some c → unicodeIsSpace c = false) ∧
    (∀ c, (stringsTrimSpace s).data.getLast? = some c → unicodeIsSpace c = false) := by
  have hdrop : ∀ l : List Char, ∀ c, (l.dropWhile unicodeIsSpace).head? = some c →
      unicodeIsSpace c = false := by
    intro l c h
    have := List.head?_dropWhile_not unicodeIsSpace l
    rw [h] at this
    simpa using this
  have hsplit : ∀ l : List Char, l = l.takeWhile unicodeIsSpace ++ l.dropWhile unicodeIsSpace :=
    fun l => (List.takeWhile_append_dropWhile unicodeIsSpace l).symm
  have htake : ∀ l : List Char, ∀ c ∈ l.takeWhile unicodeIsSpace, unicodeIsSpace c = true :=
    fun l c hc => List.mem_takeWhile_imp hc
  have hsub : ∀ l : List Char, ∀ c, ((l.reverse.dropWhile unicodeIsSpace).reverse).head? = some c →
      l.head? = some c := by
    intro l c h
    have h2 : l = (l.reverse.dropWhile unicodeIsSpace).reverse ++
        (l.reverse.takeWhile unicodeIsSpace).reverse := by
      have h3 : (l.reverse.takeWhile unicodeIsSpace ++
          l.reverse.dropWhile unicodeIsSpace).reverse = l := by
        rw [List.takeWhile_append_dropWhile, List.reverse_reverse]
      rw [List.reverse_append] at h3
      exact h3.symm
    rw [h2]
    cases hd : (l.reverse.dropWhile unicodeIsSpace).reverse with
    | nil => rw [hd] at h; simp at h
    | cons x xs => rw [hd] at h; simpa using h
  refine ⟨?_, ?_, ?_⟩
  · refine ⟨s.data.takeWhile unicodeIsSpace,
      (((s.data.dropWhile unicodeIsSpace).reverse).takeWhile unicodeIsSpace).reverse, ?_,
      htake _, ?_⟩
    · have h1 := hsplit s.data
      have h2 := congrArg List.reverse (hsplit (s.data.dropWhile unicodeIsSpace).reverse)
      simp only [List.reverse_reverse, List.reverse_append] at h2
      simp only [stringsTrimSpace]
      rw [List.append_assoc, ← h2]
      exact h1
    · intro c hc
      exact htake _ c (List.mem_reverse.1 hc)
  · intro c h
    simp only [stringsTrimSpace] at h
    exact hdrop s.data c (hsub _ c h)
  · intro c h
    simp only [stringsTrimSpace, List.getLast?_reverse] at h
    exact hdrop _ c h

/-- C25: for every package name and version, `GetLatestVersion` calls the
oracle once, with the arguments latest, --verbose and the package name, an at
sign and the version with surrounding white space trimmed.  It returns an error
if and only if the oracle command fails or its stdout is empty after trimming
white space: the error of the oracle in the first case, an error that names the
query in the second.  Otherwise it returns the stdout with surrounding white
space trimmed, which is then a non-empty string. -/
theorem GetLatestVersion_result (runCmd : List String → Except GoError String)
    (pkg version : String) :
    (GetLatestVersion runCmd pkg version).1 =
      [["latest", "--verbose", pkg ++ "@" ++ stringsTrimSpace version]] ∧
    (∀ err, runCmd ["latest", "--verbose", pkg ++ "@" ++ stringsTrimSpace version] = .error err →
      (GetLatestVersion runCmd pkg version).2 = .error err) ∧
    (∀ output, runCmd ["latest", "--verbose", pkg ++ "@" ++ stringsTrimSpace version] =
        .ok output → stringsTrimSpace output = "" →
      (GetLatestVersion runCmd pkg version).2 = .error (.base
        ("failed to get latest version for " ++ pkg ++ "@" ++ stringsTrimSpace version))) ∧
    (∀ output, runCmd ["latest", "--verbose", pkg ++ "@" ++ stringsTrimSpace version] =
        .ok output → stringsTrimSpace output ≠ "" →
      (GetLatestVersion runCmd pkg version).2 = .ok (stringsTrimSpace output)) ∧
    ((∃ err, (GetLatestVersion runCmd pkg version).2 = .error err) ↔
      ((∃ err, runCmd ["latest", "--verbose", pkg ++ "@" ++ stringsTrimSpace version] =
          .error err) ∨
        (∃ output, runCmd ["latest", "--verbose", pkg ++ "@" ++ stringsTrimSpace version] =
          .ok output ∧ stringsTrimSpace output = ""))) ∧
    (∀ latest, (GetLatestVersion runCmd pkg version).2 = .ok latest → latest ≠ "" ∧
      ∃ output, runCmd ["latest", "--verbose", pkg ++ "@" ++ stringsTrimSpace version] =
        .ok output ∧ latest = stringsTrimSpace output) := by
  cases h : runCmd ["latest", "--verbose", pkg ++ "@" ++ stringsTrimSpace version] with
  | error err =>
    have hres : GetLatestVersion runCmd pkg version =
        ([["latest", "--verbose", pkg ++ "@" ++ stringsTrimSpace version]], .error err) := by
      simp [GetLatestVersion, h]
    rw [hres]
    refine ⟨rfl, ?_, ?_, ?_, ?_, ?_⟩
    · intro err1 h1
      cases h1
      rfl
    · intro output h1
      cases h1
    · intro output h1
      cases h1
    · exact ⟨fun _ => Or.inl ⟨err, rfl⟩, fun _ => ⟨err, rfl⟩⟩
    · intro latest h1
      cases h1
  | ok output =>
    by_cases hempty : stringsTrimSpace output = ""
    · have hres : GetLatestVersion runCmd pkg version =
          ([["latest", "--verbose", pkg ++ "@" ++ stringsTrimSpace version]],
            .error (.base ("failed to get latest version for " ++
              (pkg ++ "@" ++ stringsTrimSpace version)))) := by
        simp [GetLatestVersion, h, hempty]
      rw [hres]
      refine ⟨rfl, ?_, ?_, ?_, ?_, ?_⟩
      · intro err1 h1
        cases h1
      · intro output1 _ _
        simp [String.append_assoc]
      · intro output1 h1 hne
        cases h1
        exact absurd hempty hne
      · exact ⟨fun _ => Or.inr ⟨output, rfl, hempty⟩, fun _ => ⟨_, rfl⟩⟩
      · intro latest h1
        cases h1
    · have hres : GetLatestVersion runCmd pkg version =
          ([["latest", "--verbose", pkg ++ "@" ++ stringsTrimSpace version]],
            .ok (stringsTrimSpace output)) := by
        simp [GetLatestVersion, h, hempty]
      rw [hres]
      refine ⟨rfl, ?_, ?_, ?_, ?_, ?_⟩
      · intro err1 h1
        cases h1
      · intro output1 h1 he
        cases h1
        exact absurd he hempty
      · intro output1 h1 _
        cases h1
        rfl
      · constructor
        · rintro ⟨err, herr⟩
          cases herr
        · rintro (⟨err, herr⟩ | ⟨output1, h1, he⟩)
          · cases herr
          · cases h1
            exact absurd he hempty
      · intro latest h1
        cases h1
        exact ⟨hempty, output, rfl, rfl⟩

/-- C25, witness: the query for node with the version 22 between blanks is
node@22 and the answer is 22.1.0 without its line break; an answer of a line
break alone is an error; and so is a failure of the oracle. -/
theorem GetLatestVersion_result_witness :
    GetLatestVersion sampleRunCmd "node" " 22 " =
      ([["latest", "--verbose", "node@22"]], .ok "22.1.0") ∧
    (GetLatestVersion sampleRunCmd "ghost" "1").2 =
      .error (.base "failed to get latest version for ghost@1") ∧
    (GetLatestVersion sampleRunCmd "python" "3").2 =
      .error (.base "failed to run mise command") :=
  have h := GetLatestVersion_result sampleRunCmd "node" " 22 "
  have h2 := GetLatestVersion_result sampleRunCmd "ghost" "1"
  have h3 := GetLatestVersion_result sampleRunCmd "python" "3"
  ⟨Prod.ext h.1 (h.2.2.2.1 "22.1.0\n" rfl (by decide)), h2.2.2.1 "\n" rfl rfl,
    h3.2.1 _ rfl⟩

/-! ### The staticfile provider -/

/-- The results of `getRootDir` by the case of its precedence. -/
theorem getRootDir_cases (ctx : ProviderContext) :
    (ctx.State.Env.GetConfigVariable "STATIC_FILE_ROOT" ≠ "" →
      getRootDir ctx = (ctx.State.Env.GetConfigVariable "STATIC_FILE_ROOT", none)) ∧
    (ctx.State.Env.GetConfigVariable "STATIC_FILE_ROOT" = "" →
      ctx.State.App.HasMatch "Staticfile" = true →
      ∀ config, ctx.State.App.ReadYAML "Staticfile" = .ok config →
        getRootDir ctx = (config.RootDir, none)) ∧
    (ctx.State.Env.GetConfigVariable "STATIC_FILE_ROOT" = "" →
      (ctx.State.App.HasMatch "Staticfile" = false ∨
        ∃ err, ctx.State.App.ReadYAML "Staticfile" = .error err) →
      getRootDir ctx =
        if ctx.State.App.HasMatch "public" then ("public", none)
        else if ctx.State.App.HasMatch "index.html" then (".", none)
        else ("", some (.base "no static file root dir found"))) := by
  refine ⟨?_, ?_, ?_⟩
  · intro henv
    simp [getRootDir, henv]
  · intro henv hfile config hread
    simp [getRootDir, henv, getStaticfileConfig, hfile, hread]
  · intro henv hnone
    rcases hnone with hfile | ⟨err, hread⟩
    · simp [getRootDir, henv, getStaticfileConfig, hfile]
    · cases hfile : ctx.State.App.HasMatch "Staticfile"
      · simp [getRootDir, henv, getStaticfileConfig, hfile]
      · simp [getRootDir, henv, getStaticfileConfig, hfile, hread]

/-- C30: `getRootDir` of the staticfile provider picks the root directory by
this precedence: the value of RAILPACK_STATIC_FILE_ROOT if it is not empty;
else the root field of the Staticfile if the app has that file and it parses;
else public if the app has a match for public; else "." if the app has
index.html; else it fails with the error "no static file root dir found" and
an empty directory.  `Detect` never returns an error, and it returns true if
and only if `getRootDir` returns a non-empty directory without error. -/
theorem getRootDir_precedence (p : StaticfileProvider) (ctx : ProviderContext) :
    (ctx.State.Env.GetConfigVariable "STATIC_FILE_ROOT" ≠ "" →
      getRootDir ctx = (ctx.State.Env.GetConfigVariable "STATIC_FILE_ROOT", none)) ∧
    (ctx.State.Env.GetConfigVariable "STATIC_FILE_ROOT" = "" →
      ctx.State.App.HasMatch "Staticfile" = true →
      ∀ config, ctx.State.App.ReadYAML "Staticfile" = .ok config →
        getRootDir ctx = (config.RootDir, none)) ∧
    (ctx.State.Env.GetConfigVariable "STATIC_FILE_ROOT" = "" →
      (ctx.State.App.HasMatch "Staticfile" = false ∨
        ∃ err, ctx.State.App.ReadYAML "Staticfile" = .error err) →
      ctx.State.App.HasMatch "public" = true → getRootDir ctx = ("public", none)) ∧
    (ctx.State.Env.GetConfigVariable "STATIC_FILE_ROOT" = "" →
      (ctx.State.App.HasMatch "Staticfile" = false ∨
        ∃ err, ctx.State.App.ReadYAML "Staticfile" = .error err) →
      ctx.State.App.HasMatch "public" = false →
      ctx.State.App.HasMatch "index.html" = true → getRootDir ctx = (".", none)) ∧
    (ctx.State.Env.GetConfigVariable "STATIC_FILE_ROOT" = "" →
      (ctx.State.App.HasMatch "Staticfile" = false ∨
        ∃ err, ctx.State.App.ReadYAML "Staticfile" = .error err) →
      ctx.State.App.HasMatch "public" = false →
      ctx.State.App.HasMatch "index.html" = false →
      getRootDir ctx = ("", some (.base "no static file root dir found"))) ∧
    (p.Detect ctx).2 = none ∧
    ((p.Detect ctx).1 = true ↔ ((getRootDir ctx).1 ≠ "" ∧ (getRootDir ctx).2 = none)) := by
  have h := getRootDir_cases ctx
  refine ⟨h.1, h.2.1, ?_, ?_, ?_, ?_, ?_⟩
  · intro henv hnone hpublic
    rw [h.2.2 henv hnone, if_pos hpublic]
  · intro henv hnone hpublic hindex
    rw [h.2.2 henv hnone]
    simp [hpublic, hindex]
  · intro henv hnone hpublic hindex
    rw [h.2.2 henv hnone]
    simp [hpublic, hindex]
  · simp only [StaticfileProvider.Detect]
    split <;> rfl
  · simp only [StaticfileProvider.Detect]
    split
    · rename_i hcond
      simpa using hcond
    · rename_i hcond
      simpa using hcond

/-- C30, witness: the variable wins over the Staticfile, the Staticfile over
public, public over index.html; an app without any of them fails and is not
detected, an app with index.html alone is detected. -/
theorem getRootDir_precedence_witness :
    getRootDir (freshProviderContext staticfileApp staticRootEnvironment {} sampleCaches) =
      ("out", none) ∧
    getRootDir (freshProviderContext staticfileApp emptyEnvironment {} sampleCaches) =
      ("dist", none) ∧
    getRootDir (freshProviderContext publicApp emptyEnvironment {} sampleCaches) =
      ("public", none) ∧
    getRootDir (freshProviderContext indexHtmlApp emptyEnvironment {} sampleCaches) =
      (".", none) ∧
    getRootDir (freshProviderContext emptyApp emptyEnvironment {} sampleCaches) =
      ("", some (.base "no static file root dir found")) ∧
    ((({} : StaticfileProvider).Detect
      (freshProviderContext emptyApp emptyEnvironment {} sampleCaches)).1 = true ↔
      ((getRootDir (freshProviderContext emptyApp emptyEnvironment {} sampleCaches)).1 ≠ "" ∧
        (getRootDir (freshProviderContext emptyApp emptyEnvironment {} sampleCaches)).2 =
          none)) :=
  ⟨(getRootDir_precedence {}
      (freshProviderContext staticfileApp staticRootEnvironment {} sampleCaches)).1 (by decide),
    (getRootDir_precedence {}
      (freshProviderContext staticfileApp emptyEnvironment {} sampleCaches)).2.1 rfl rfl _ rfl,
    (getRootDir_precedence {}
      (freshProviderContext publicApp emptyEnvironment {} sampleCaches)).2.2.1 rfl (Or.inl rfl)
      rfl,
    (getRootDir_precedence {}
      (freshProviderContext indexHtmlApp emptyEnvironment {} sampleCaches)).2.2.2.1 rfl
      (Or.inl rfl) rfl rfl,
    (getRootDir_precedence {}
      (freshProviderContext emptyApp emptyEnvironment {} sampleCaches)).2.2.2.2.1 rfl
      (Or.inl rfl) rfl rfl,
    (getRootDir_precedence {}
      (freshProviderContext emptyApp emptyEnvironment {} sampleCaches)).2.2.2.2.2.2⟩

/-- On a fresh context `StaticfileProvider.Plan` of a provider with the root
directory `root`, when the Caddyfile template renders to `text`, returns no
error and leaves the mise step builder with the package caddy and the setup
builder registered, in this order, the four deploy inputs and the start
command. -/
theorem staticfile_Plan_fresh (ext : PlanExternals) (app : App) (env : Environment)
    (config : Config) (caches : CacheRegistry) (root text : String)
    (hrender : ext.renderTemplate ext.staticfileCaddyfileTemplate
      [("STATIC_FILE_ROOT", .str root)] = .ok text) :
    (({ RootDir := root } : StaticfileProvider).Plan ext
        (freshProviderContext app env config caches)).2 = none ∧
    (({ RootDir := root } : StaticfileProvider).Plan ext
        (freshProviderContext app env config caches)).1.State.Steps =
      [ .mise { newMiseStepBuilder app with MisePackages := [{ Name := "caddy" }] },
        .command
          { DisplayName := "setup"
            Inputs := [.Step "packages:mise" none none]
            Commands :=
              [ .File "Caddyfile" "Caddyfile" none "",
                .Exec "caddy fmt --overwrite Caddyfile" "" [] ]
            Assets := [("Caddyfile", text)] } ] ∧
    (({ RootDir := root } : StaticfileProvider).Plan ext
        (freshProviderContext app env config caches)).1.Deploy.StartCmd =
      "caddy run --config Caddyfile --adapter caddyfile 2>&1" ∧
    ∃ runtimeContext : ProviderContext,
      runtimeContext.State.Steps =
        (({ RootDir := root } : StaticfileProvider).Plan ext
          (freshProviderContext app env config caches)).1.State.Steps ∧
      (({ RootDir := root } : StaticfileProvider).Plan ext
        (freshProviderContext app env config caches)).1.Deploy.Inputs =
      [ ext.DefaultRuntimeInput runtimeContext,
        .Step "packages:mise"
          (some (ext.GetOutputPaths
            { newMiseStepBuilder app with MisePackages := [{ Name := "caddy" }] })) none,
        .Step "setup" (some ["."]) none,
        .Local "." ] := by
  refine ⟨?_, ?_, ?_,
    ⟨{ (({ RootDir := root } : StaticfileProvider).Plan ext
        (freshProviderContext app env config caches)).1 with Deploy := NewDeployBuilder },
      rfl, ?_⟩⟩ <;>
    simp [StaticfileProvider.Plan, freshProviderContext, ProviderContext.GetMiseStepBuilder,
      ProviderContext.appendStep, ProviderContext.miseDefault, ProviderContext.miseStep,
      ProviderContext.updateMiseStep, modifyAt, MiseStepBuilder.Default, newMiseStepBuilder,
      Resolver.Default, GoMap.get, GoMap.set, ProviderContext.NewCommandStep,
      GenerateContext.GetStepName, ProviderContext.updateCommandStep,
      ProviderContext.commandStep, ProviderContext.stepName, StepBuilder.Name,
      StaticfileProvider.Setup, StaticfileProvider.getCaddyfile, hrender,
      CommandStepBuilder.AddInput, CommandStepBuilder.AddCommands, NewStepInput,
      NewFileCommand, NewExecCommand, MiseStepBuilder.Name, CommandStepBuilder.Name,
      MisePackageStepName, NewLocalInput, StaticfileProvider.CaddyStartCommand,
      NewDeployBuilder]

/-- C26: for every app that has index.html and neither a Staticfile nor a match
for public, with RAILPACK_STATIC_FILE_ROOT unset, on the fresh context of the
app: `Detect` of the staticfile provider returns true with no error;
`Initialize` sets the root directory to "."; and `Plan` of the initialized
provider, when the Caddyfile template renders with STATIC_FILE_ROOT = "." to
`text`, returns no error, sets the deploy start command to
"caddy run --config Caddyfile --adapter caddyfile 2>&1" and leaves two step
builders registered: the mise step builder and a builder named setup whose
asset Caddyfile is `text` and whose only input is the mise step. -/
theorem staticfile_index_html_app (ext : PlanExternals) (app : App) (env : Environment)
    (config : Config) (caches : CacheRegistry) (text : String)
    (hindex : app.HasMatch "index.html" = true)
    (hstatic : app.HasMatch "Staticfile" = false)
    (hpublic : app.HasMatch "public" = false)
    (henv : env.Variables.get "RAILPACK_STATIC_FILE_ROOT" = none)
    (hrender : ext.renderTemplate ext.staticfileCaddyfileTemplate
      [("STATIC_FILE_ROOT", .str ".")] = .ok text) :
    ({} : StaticfileProvider).Detect (freshProviderContext app env config caches) =
      (true, none) ∧
    ({} : StaticfileProvider).Initialize (freshProviderContext app env config caches) =
      ({ RootDir := "." }, none) ∧
    ((({} : StaticfileProvider).Initialize (freshProviderContext app env config caches)).1.Plan
      ext (freshProviderContext app env config caches)).2 = none ∧
    ((({} : StaticfileProvider).Initialize (freshProviderContext app env config caches)).1.Plan
      ext (freshProviderContext app env config caches)).1.Deploy.StartCmd =
      "caddy run --config Caddyfile --adapter caddyfile 2>&1" ∧
    ∃ mise setup,
      ((({} : StaticfileProvider).Initialize
        (freshProviderContext app env config caches)).1.Plan
        ext (freshProviderContext app env config caches)).1.State.Steps =
        [.mise mise, .command setup] ∧
      mise.Name = "packages:mise" ∧
      setup.Name = "setup" ∧
      setup.Assets.get "Caddyfile" = some text ∧
      setup.Build.Assets.get "Caddyfile" = some text ∧
      setup.Inputs = [.Step mise.Name none none] ∧
      setup.Build.Inputs = [.Step mise.Name none none] := by
  have hvar : (freshProviderContext app env config caches).State.Env.GetConfigVariable
      "STATIC_FILE_ROOT" = "" := by
    have hname : "RAILPACK_" ++ "STATIC_FILE_ROOT" = "RAILPACK_STATIC_FILE_ROOT" := by decide
    simp [freshProviderContext, Environment.GetConfigVariable, hname, henv]
  have hroot : getRootDir (freshProviderContext app env config caches) = (".", none) := by
    rw [(getRootDir_cases _).2.2 hvar (Or.inl hstatic)]
    simp [freshProviderContext, hpublic, hindex]
  have hinit : ({} : StaticfileProvider).Initialize
      (freshProviderContext app env config caches) = ({ RootDir := "." }, none) := by
    simp [StaticfileProvider.Initialize, hroot]
  have hplan := staticfile_Plan_fresh ext app env config caches "." text hrender
  refine ⟨?_, hinit, ?_, ?_, ?_⟩
  · simp [StaticfileProvider.Detect, hroot]
  · rw [hinit]
    exact hplan.1
  · rw [hinit]
    exact hplan.2.2.1
  · rw [hinit]
    exact ⟨_, _, hplan.2.1, rfl, rfl, by simp [GoMap.get], by simp [CommandStepBuilder.Build, GoMap.get],
      rfl, rfl⟩

/-- C26, witness: the app with index.html alone and the empty environment: the
asset Caddyfile of the setup builder is the sample rendering for the root
".". -/
theorem staticfile_index_html_app_witness :
    ({} : StaticfileProvider).Detect
      (freshProviderContext indexHtmlApp emptyEnvironment {} sampleCaches) = (true, none) ∧
    ((({} : StaticfileProvider).Initialize
      (freshProviderContext indexHtmlApp emptyEnvironment {} sampleCaches)).1.Plan
      samplePlanExternals
      (freshProviderContext indexHtmlApp emptyEnvironment {} sampleCaches)).1.Deploy.StartCmd =
      "caddy run --config Caddyfile --adapter caddyfile 2>&1" ∧
    (((({} : StaticfileProvider).Initialize
      (freshProviderContext indexHtmlApp emptyEnvironment {} sampleCaches)).1.Plan
      samplePlanExternals
      (freshProviderContext indexHtmlApp emptyEnvironment {} sampleCaches)).1.commandStep 1).map
      (fun setup => (setup.Name, setup.Assets, setup.Inputs)) =
      some ("setup", [("Caddyfile", "root * .")], [.Step "packages:mise" none none]) :=
  have h := staticfile_index_html_app samplePlanExternals indexHtmlApp emptyEnvironment {}
    sampleCaches "root * ." rfl rfl rfl rfl rfl
  ⟨h.1, h.2.2.2.1, rfl⟩

/-! ### The PHP provider -/

/-- A write at a position past a prefix of the list is a write in the rest. -/
theorem modifyAt_append_add {α : Type} (f : α → α) (l r : List α) (k : Nat) :
    modifyAt f (l.length + k) (l ++ r) = l ++ modifyAt f k r := by
  induction l with
  | nil => simp
  | cons x xs ih =>
    have h : (x :: xs).length + k = (xs.length + k) + 1 := by simp; omega
    rw [h]
    simp [modifyAt, ih]

/-- A write at the position after a prefix of the list is a write at the head
of the rest. -/
theorem modifyAt_append_length {α : Type} (f : α → α) (l r : List α) :
    modifyAt f l.length (l ++ r) = l ++ modifyAt f 0 r := by
  have h := modifyAt_append_add f l r 0
  simpa using h

/-- A read at a position past a prefix of the list is a read in the rest. -/
theorem getElem?_append_add {α : Type} (l r : List α) (k : Nat) :
    (l ++ r)[l.length + k]? = r[k]? := by
  rw [List.getElem?_append_right (by omega)]
  simp

/-- A read at the position after a prefix of the list is a read of the head of
the rest. -/
theorem getElem?_append_length {α : Type} (l r : List α) :
    (l ++ r)[l.length]? = r[0]? := by
  have h := getElem?_append_add l r 0
  simpa using h

/-- Lines 52 to 70 of `PhpProvider.Plan` register one builder, the prepare
builder. -/
theorem planPrepare_eq (phpImageStep : Nat) (configFiles : ConfigFiles) (ctx : ProviderContext) :
    PhpProvider.planPrepare phpImageStep configFiles ctx =
      ({ ctx with State := { ctx.State with Steps := ctx.State.Steps ++
          [ .command
              { DisplayName := ctx.GetStepName "prepare"
                Inputs := [.Step
                  (ProviderContext.stepName
                    { ctx with State := { ctx.State with Steps := ctx.State.Steps ++
                      [.command { DisplayName := ctx.GetStepName "prepare" }] } }
                    phpImageStep) none none]
                Variables :=
                  [ ("APP_ENV", "production"),
                    ("APP_DEBUG", "false"),
                    ("APP_LOCALE", "en"),
                    ("LOG_CHANNEL", "stderr"),
                    ("LOG_LEVEL", "debug"),
                    ("SERVER_NAME", ":80"),
                    ("PHP_INI_DIR", "/usr/local/etc/php") ]
                Assets := [("Caddyfile", configFiles.Caddyfile)]
                Commands :=
                  [ .Exec "mkdir -p /usr/local/etc/php/conf.d" "" [],
                    .Exec "mkdir -p /conf.d/" "" [],
                    .ExecShell "cp $PHP_INI_DIR/php.ini-production $PHP_INI_DIR/php.ini" "",
                    .File "/Caddyfile" "Caddyfile" none "" ]
                Secrets := [] } ] } },
        ctx.State.Steps.length) := by
  simp [PhpProvider.planPrepare, ProviderContext.NewCommandStep, ProviderContext.appendStep,
    ProviderContext.updateCommandStep, modifyAt_append_length, modifyAt,
    CommandStepBuilder.AddInput, CommandStepBuilder.AddEnvVars, CommandStepBuilder.AddVariables,
    CommandStepBuilder.AddCommands, NewStepInput, NewExecCommand, NewExecShellCommand,
    NewFileCommand, DefaultCaddyfilePath, GoMap.set]

/-- Lines 72 to 78 of `PhpProvider.Plan` register one builder, the extensions
builder, and the apt caches. -/
theorem planExtensions_eq (p : PhpProvider) (prepare : Nat) (ctx : ProviderContext) :
    p.planExtensions prepare ctx =
      ({ ctx with State := { ctx.State with
          Steps := ctx.State.Steps ++
            [ .command
                { DisplayName := ctx.GetStepName "extensions"
                  Inputs := [.Step
                    (ProviderContext.stepName
                      { ctx with State := { ctx.State with Steps := ctx.State.Steps ++
                        [.command { DisplayName := ctx.GetStepName "extensions" }] } }
                      prepare) none none]
                  Commands :=
                    [ .Exec ("install-php-extensions " ++ stringsJoin (p.getPhpExtensions ctx) " ")
                        "" [] ]
                  Caches := ctx.State.Caches.GetAptCaches.2
                  Secrets := [] } ]
          Caches := ctx.State.Caches.GetAptCaches.1 } },
        ctx.State.Steps.length) := by
  simp [PhpProvider.planExtensions, ProviderContext.NewCommandStep, ProviderContext.appendStep,
    ProviderContext.updateCommandStep, modifyAt_append_length, modifyAt,
    CommandStepBuilder.AddInput, CommandStepBuilder.AddCommands, NewStepInput, NewExecCommand,
    PhpProvider.getPhpExtensions, PhpProvider.readComposerJson]

/-- Lines 168 to 181 of `PhpProvider.Plan` register one builder, the build
builder, make it the only deploy input and set the start command. -/
theorem planBuild_eq (composer : Nat) (ctx : ProviderContext) :
    PhpProvider.planBuild composer ctx =
      ({ ctx with
          State := { ctx.State with Steps := ctx.State.Steps ++
            [ .command
                { DisplayName := ctx.GetStepName "build"
                  Inputs := [.Step
                    (ProviderContext.stepName
                      { ctx with State := { ctx.State with Steps := ctx.State.Steps ++
                        [.command { DisplayName := ctx.GetStepName "build" }] } }
                      composer) none none]
                  Commands := [.Copy "." none none] } ] }
          Deploy := { ctx.Deploy with
            Inputs := [.Step (ctx.GetStepName "build") none none]
            StartCmd := "docker-php-entrypoint --config /Caddyfile --adapter caddyfile 2>&1" } },
        none) := by
  simp [PhpProvider.planBuild, PhpProvider.finishPlan, ProviderContext.NewCommandStep,
    ProviderContext.appendStep, ProviderContext.updateCommandStep, modifyAt_append_length,
    modifyAt, CommandStepBuilder.AddInput, CommandStepBuilder.AddCommand,
    CommandStepBuilder.AddCommands, NewStepInput, NewCopyCommand, DefaultCaddyfilePath,
    ProviderContext.stepName, getElem?_append_length, StepBuilder.Name, CommandStepBuilder.Name]

/-- Two writes at the same position are one write. -/
theorem modifyAt_modifyAt {α : Type} (f g : α → α) (k : Nat) (l : List α) :
    modifyAt g k (modifyAt f k l) = modifyAt (fun x => g (f x)) k l := by
  induction l generalizing k with
  | nil => cases k <;> rfl
  | cons x xs ih =>
    cases k with
    | zero => rfl
    | succ k => simp [modifyAt, ih]

/-- A write that changes nothing leaves the list as it is. -/
theorem modifyAt_id {α : Type} (f : α → α) (hf : ∀ x, f x = x) (k : Nat) (l : List α) :
    modifyAt f k l = l := by
  induction l generalizing k with
  | nil => cases k <;> rfl
  | cons x xs ih =>
    cases k with
    | zero => simp [modifyAt, hf]
    | succ k => simp [modifyAt, ih]

/-- The loop of lines 96 to 98 of `PhpProvider.Plan` adds a `Copy` command for
every file, in order, to the builder behind the pointer. -/
theorem foldl_copy_commands (files : List String) (pointer : Nat) (ctx : ProviderContext) :
    files.foldl
        (fun ctx file =>
          ProviderContext.updateCommandStep ctx pointer
            (fun b => b.AddCommand (NewCopyCommand file)))
        ctx =
      ctx.updateCommandStep pointer (fun b => b.AddCommands (files.map NewCopyCommand)) := by
  induction files generalizing ctx with
  | nil =>
    simp only [List.foldl_nil, List.map_nil, ProviderContext.updateCommandStep]
    rw [modifyAt_id]
    intro x
    cases x <;> simp [CommandStepBuilder.AddCommands]
  | cons file rest ih =>
    rw [List.foldl_cons, ih]
    simp only [ProviderContext.updateCommandStep, modifyAt_modifyAt, List.map_cons]
    congr 3
    funext x
    cases x <;> simp [CommandStepBuilder.AddCommands, CommandStepBuilder.AddCommand]

/-- Lines 81 to 103 of `PhpProvider.Plan` register one builder, the composer
builder, named install:composer under the sub-context, with the step behind
`extensions` as its only input; when composer.json can be read the builder
gets the composer cache and the commands that install the dependencies. -/
theorem planComposer_eq (p : PhpProvider) (extensions : Nat) (ctx : ProviderContext) :
    p.planComposer extensions ctx =
      ({ ctx with State := { ctx.State with
          Steps := ctx.State.Steps ++
            [ .command
                { DisplayName := ctx.GetStepName "install:composer"
                  Inputs := [.Step
                    (ProviderContext.stepName
                      { ctx with State := { ctx.State with Steps := ctx.State.Steps ++
                        [.command { DisplayName := ctx.GetStepName "install:composer" }] } }
                      extensions) none none]
                  Secrets := []
                  SecretPrefixes := ["COMPOSER", "PHP"]
                  Variables :=
                    [("COMPOSER_FUND", "0"), ("COMPOSER_CACHE_DIR", "/opt/cache/composer")]
                  Caches :=
                    match p.readComposerJson ctx with
                    | .error _ => []
                    | .ok _ => [(ctx.State.Caches.AddCache "composer" "/opt/cache/composer").2]
                  Commands :=
                    match p.readComposerJson ctx with
                    | .error _ => []
                    | .ok _ =>
                      [.Copy "/usr/bin/composer" (some "/usr/bin/composer")
                        (some "composer:latest")] ++
                      (p.ComposerSupportingFiles ctx).map NewCopyCommand ++
                      [.Exec
                        "composer install --optimize-autoloader --no-scripts --no-interaction"
                        "" []] } ]
          Caches :=
            match p.readComposerJson ctx with
            | .error _ => ctx.State.Caches
            | .ok _ => (ctx.State.Caches.AddCache "composer" "/opt/cache/composer").1 } },
        ctx.State.Steps.length) := by
  cases hread : ctx.State.App.ReadJSONMap "composer.json" with
  | error err =>
    simp [PhpProvider.planComposer, PhpProvider.readComposerJson, hread,
      ProviderContext.NewCommandStep, ProviderContext.appendStep,
      ProviderContext.updateCommandStep, modifyAt_append_length, modifyAt,
      CommandStepBuilder.AddInput, CommandStepBuilder.AddVariables,
      CommandStepBuilder.UseSecretsWithPrefixes, NewStepInput, GoMap.set]
  | ok composerJson =>
    simp only [PhpProvider.planComposer, foldl_copy_commands]
    simp [PhpProvider.readComposerJson, hread,
      ProviderContext.NewCommandStep, ProviderContext.appendStep,
      ProviderContext.updateCommandStep, modifyAt_append_length, modifyAt,
      CommandStepBuilder.AddInput, CommandStepBuilder.AddVariables,
      CommandStepBuilder.UseSecretsWithPrefixes, NewStepInput, GoMap.set,
      CommandStepBuilder.AddCache, CommandStepBuilder.AddCommand,
      CommandStepBuilder.AddCommands, NewExecCommand, PhpProvider.ComposerSupportingFiles]

/-- The ref that `Default` of the resolver returns bears the name. -/
theorem Resolver_Default_ref (r : Resolver) (name version : String) :
    (r.Default name version).2 = { Name := name } := by
  simp only [Resolver.Default]
  split <;> rfl

/-- The method `phpImagePackage` registers one builder, the image step builder
with the package php, and returns no error; on the resolver it requests php
with the default version, records the version of composer.json as an override
when `require.php` is a string, and registers the version-available
predicate. -/
theorem phpImagePackage_eq (ext : PlanExternals) (p : PhpProvider) (ctx : ProviderContext) :
    p.phpImagePackage ext ctx =
      ({ ctx with State := { ctx.State with
          Steps := ctx.State.Steps ++
            [ .image
                { DisplayName := ctx.GetStepName "packages:image"
                  ResolveStepImage := resolvePhpImage
                  Packages := [{ Name := "php" }] } ]
          Resolver :=
            (match p.readComposerJson ctx with
              | .ok composerJson =>
                match composerRequirePhp composerJson with
                | some (.string phpVersion) =>
                  (ctx.State.Resolver.Default "php" DEFAULT_PHP_VERSION).1.Version
                    { Name := "php" }
                    (if stringsHasPrefix phpVersion "^" then stringsTrimPrefix phpVersion "^"
                      else phpVersion)
                    "composer.json > require > php"
                | _ => (ctx.State.Resolver.Default "php" DEFAULT_PHP_VERSION).1
              | .error _ =>
                (ctx.State.Resolver.Default "php" DEFAULT_PHP_VERSION).1).SetVersionAvailable
              { Name := "php" } (phpVersionAvailable ext) } },
        ctx.State.Steps.length, none) := by
  cases hread : ctx.State.App.ReadJSONMap "composer.json" with
  | error err =>
    simp [PhpProvider.phpImagePackage, ProviderContext.NewImageStep,
      ProviderContext.appendStep, ProviderContext.updateImageStep, modifyAt_append_length,
      modifyAt, ProviderContext.imageDefault, ProviderContext.imageStep,
      getElem?_append_length, ImageStepBuilder.Default, GenerateContext.NewImageStep,
      Resolver_Default_ref, PhpProvider.readComposerJson, ProviderContext.SetVersionAvailable,
      ProviderContext.Version, hread]
  | ok composerJson =>
    cases hphp : composerRequirePhp composerJson with
    | none =>
      simp [PhpProvider.phpImagePackage, ProviderContext.NewImageStep,
      ProviderContext.appendStep, ProviderContext.updateImageStep, modifyAt_append_length,
      modifyAt, ProviderContext.imageDefault, ProviderContext.imageStep,
      getElem?_append_length, ImageStepBuilder.Default, GenerateContext.NewImageStep,
      Resolver_Default_ref, PhpProvider.readComposerJson, ProviderContext.SetVersionAvailable,
      ProviderContext.Version, hread, hphp]
    | some value =>
      cases value with
      | string phpVersion =>
        by_cases hcaret : stringsHasPrefix phpVersion "^" = true
        · simp [PhpProvider.phpImagePackage, ProviderContext.NewImageStep,
      ProviderContext.appendStep, ProviderContext.updateImageStep, modifyAt_append_length,
      modifyAt, ProviderContext.imageDefault, ProviderContext.imageStep,
      getElem?_append_length, ImageStepBuilder.Default, GenerateContext.NewImageStep,
      Resolver_Default_ref, PhpProvider.readComposerJson, ProviderContext.SetVersionAvailable,
      ProviderContext.Version, hread, hphp, hcaret]
        · simp [PhpProvider.phpImagePackage, ProviderContext.NewImageStep,
      ProviderContext.appendStep, ProviderContext.updateImageStep, modifyAt_append_length,
      modifyAt, ProviderContext.imageDefault, ProviderContext.imageStep,
      getElem?_append_length, ImageStepBuilder.Default, GenerateContext.NewImageStep,
      Resolver_Default_ref, PhpProvider.readComposerJson, ProviderContext.SetVersionAvailable,
      ProviderContext.Version, hread, hphp, hcaret]
      | _ =>
        simp [PhpProvider.phpImagePackage, ProviderContext.NewImageStep,
      ProviderContext.appendStep, ProviderContext.updateImageStep, modifyAt_append_length,
      modifyAt, ProviderContext.imageDefault, ProviderContext.imageStep,
      getElem?_append_length, ImageStepBuilder.Default, GenerateContext.NewImageStep,
      Resolver_Default_ref, PhpProvider.readComposerJson, ProviderContext.SetVersionAvailable,
      ProviderContext.Version, hread, hphp]

/-- The step name that a context gives depends on its sub-context stack
alone. -/
theorem GetStepName_congr (c1 c2 : ProviderContext) (h : c1.SubContexts = c2.SubContexts)
    (name : String) : c1.GetStepName name = c2.GetStepName name := by
  simp only [GenerateContext.GetStepName, h]

/-- The extensions that `getPhpExtensions` returns depend on the app and the
environment of the context alone. -/
theorem getPhpExtensions_congr (p : PhpProvider) (c1 c2 : ProviderContext)
    (happ : c1.State.App = c2.State.App) (henv : c1.State.Env = c2.State.Env) :
    p.getPhpExtensions c1 = p.getPhpExtensions c2 := by
  simp only [PhpProvider.getPhpExtensions, PhpProvider.readComposerJson, happ, henv]

/-- The name behind a pointer into the builders that a context had before a
builder was registered. -/
theorem stepName_append (c : ProviderContext) (steps : List StepBuilder) (b : StepBuilder)
    (extra : List StepBuilder) (pointer : Nat) (hsteps : c.State.Steps = steps ++ extra)
    (hat : steps[pointer]? = some b) : c.stepName pointer = b.Name := by
  have hlt : pointer < steps.length := by
    by_contra hge
    rw [List.getElem?_eq_none (by omega)] at hat
    cases hat
  simp only [ProviderContext.stepName, hsteps, List.getElem?_append_left hlt, hat]

/-- What `phpImagePackage` leaves behind, in short: one more builder, the image
step builder; the app, the environment and the sub-context stack as they
were. -/
theorem phpImagePackage_spec (ext : PlanExternals) (p : PhpProvider) (ctx : ProviderContext) :
    ∃ (c : ProviderContext) (image : ImageStepBuilder),
      p.phpImagePackage ext ctx = (c, ctx.State.Steps.length, none) ∧
      c.State.Steps = ctx.State.Steps ++ [.image image] ∧
      c.State.App = ctx.State.App ∧ c.State.Env = ctx.State.Env ∧
      c.SubContexts = ctx.SubContexts ∧
      image.DisplayName = ctx.GetStepName "packages:image" :=
  ⟨_, _, phpImagePackage_eq ext p ctx, rfl, rfl, rfl, rfl, rfl⟩

/-- What lines 52 to 70 of `PhpProvider.Plan` leave behind, in short. -/
theorem planPrepare_spec (phpImageStep : Nat) (configFiles : ConfigFiles)
    (ctx : ProviderContext) (image : StepBuilder)
    (himage : ctx.State.Steps[phpImageStep]? = some image) :
    ∃ (c : ProviderContext) (prepare : CommandStepBuilder),
      PhpProvider.planPrepare phpImageStep configFiles ctx = (c, ctx.State.Steps.length) ∧
      c.State.Steps = ctx.State.Steps ++ [.command prepare] ∧
      c.State.App = ctx.State.App ∧ c.State.Env = ctx.State.Env ∧
      c.SubContexts = ctx.SubContexts ∧ c.Deploy = ctx.Deploy ∧
      prepare.DisplayName = ctx.GetStepName "prepare" ∧
      prepare.Inputs = [.Step image.Name none none] ∧
      prepare.Commands =
        [ .Exec "mkdir -p /usr/local/etc/php/conf.d" "" [],
          .Exec "mkdir -p /conf.d/" "" [],
          .ExecShell "cp $PHP_INI_DIR/php.ini-production $PHP_INI_DIR/php.ini" "",
          .File "/Caddyfile" "Caddyfile" none "" ] ∧
      prepare.Assets = [("Caddyfile", configFiles.Caddyfile)] := by
  refine ⟨_, _, planPrepare_eq phpImageStep configFiles ctx, rfl, rfl, rfl, rfl, rfl, rfl, ?_,
    rfl, rfl⟩
  simp only []
  rw [stepName_append _ ctx.State.Steps image _ phpImageStep rfl himage]

/-- What lines 72 to 78 of `PhpProvider.Plan` leave behind, in short. -/
theorem planExtensions_spec (p : PhpProvider) (prepare : Nat) (ctx : ProviderContext)
    (before : StepBuilder) (hbefore : ctx.State.Steps[prepare]? = some before) :
    ∃ (c : ProviderContext) (extensions : CommandStepBuilder),
      p.planExtensions prepare ctx = (c, ctx.State.Steps.length) ∧
      c.State.Steps = ctx.State.Steps ++ [.command extensions] ∧
      c.State.App = ctx.State.App ∧ c.State.Env = ctx.State.Env ∧
      c.SubContexts = ctx.SubContexts ∧ c.Deploy = ctx.Deploy ∧
      extensions.DisplayName = ctx.GetStepName "extensions" ∧
      extensions.Inputs = [.Step before.Name none none] ∧
      extensions.Commands =
        [.Exec ("install-php-extensions " ++ stringsJoin (p.getPhpExtensions ctx) " ") "" []] := by
  refine ⟨_, _, planExtensions_eq p prepare ctx, rfl, rfl, rfl, rfl, rfl, rfl, ?_, rfl⟩
  simp only []
  rw [stepName_append _ ctx.State.Steps before _ prepare rfl hbefore]

/-- What lines 81 to 103 of `PhpProvider.Plan` leave behind, in short. -/
theorem planComposer_spec (p : PhpProvider) (extensions : Nat) (ctx : ProviderContext)
    (before : StepBuilder) (hbefore : ctx.State.Steps[extensions]? = some before) :
    ∃ (c : ProviderContext) (composer : CommandStepBuilder),
      p.planComposer extensions ctx = (c, ctx.State.Steps.length) ∧
      c.State.Steps = ctx.State.Steps ++ [.command composer] ∧
      c.State.App = ctx.State.App ∧ c.State.Env = ctx.State.Env ∧
      c.SubContexts = ctx.SubContexts ∧ c.Deploy = ctx.Deploy ∧
      composer.DisplayName = ctx.GetStepName "install:composer" ∧
      composer.Inputs = [.Step before.Name none none] := by
  refine ⟨_, _, planComposer_eq p extensions ctx, rfl, rfl, rfl, rfl, rfl, rfl, ?_⟩
  simp only []
  rw [stepName_append _ ctx.State.Steps before _ extensions rfl hbefore]

/-- What lines 168 to 181 of `PhpProvider.Plan` leave behind, in short. -/
theorem planBuild_spec (composer : Nat) (ctx : ProviderContext)
    (before : StepBuilder) (hbefore : ctx.State.Steps[composer]? = some before) :
    ∃ (c : ProviderContext) (build : CommandStepBuilder),
      PhpProvider.planBuild composer ctx = (c, none) ∧
      c.State.Steps = ctx.State.Steps ++ [.command build] ∧
      build.DisplayName = ctx.GetStepName "build" ∧
      build.Inputs = [.Step before.Name none none] ∧
      build.Commands = [.Copy "." none none] ∧
      c.Deploy.Inputs = [.Step (ctx.GetStepName "build") none none] ∧
      c.Deploy.StartCmd =
        "docker-php-entrypoint --config /Caddyfile --adapter caddyfile 2>&1" := by
  refine ⟨_, _, planBuild_eq composer ctx, rfl, rfl, ?_, rfl, rfl, rfl⟩
  simp only []
  rw [stepName_append _ ctx.State.Steps before _ composer rfl hbefore]

/-- For an app that is not a Node app and whose config files are generated,
`PhpProvider.Plan` returns no error and registers five builders after those
the context had: the image step builder, prepare, extensions, install:composer
and build, each named under the sub-context, each command step with the step
before it as its only input; the deploy inputs are the build step alone. -/
theorem php_Plan_steps {ν : Type} (ext : PlanExternals) (node : NodeProvider ν)
    (p : PhpProvider) (ctx : ProviderContext) (configFiles : ConfigFiles)
    (hconfig : ∀ c : ProviderContext, c.State.App = ctx.State.App →
      c.State.Env = ctx.State.Env → p.getConfigFiles ext c = .ok configFiles)
    (hnode : ∀ c : ProviderContext, c.State.App = ctx.State.App →
      c.State.Env = ctx.State.Env → node.Detect node.Zero c = (false, none)) :
    ∃ (image : ImageStepBuilder) (prepare extensions composer build : CommandStepBuilder),
      (p.Plan ext node ctx).2 = none ∧
      (p.Plan ext node ctx).1.State.Steps = ctx.State.Steps ++
        [.image image, .command prepare, .command extensions, .command composer,
          .command build] ∧
      image.Name = ctx.GetStepName "packages:image" ∧
      prepare.Name = ctx.GetStepName "prepare" ∧
      extensions.Name = ctx.GetStepName "extensions" ∧
      composer.Name = ctx.GetStepName "install:composer" ∧
      build.Name = ctx.GetStepName "build" ∧
      prepare.Inputs = [.Step (ctx.GetStepName "packages:image") none none] ∧
      extensions.Inputs = [.Step (ctx.GetStepName "prepare") none none] ∧
      composer.Inputs = [.Step (ctx.GetStepName "extensions") none none] ∧
      build.Inputs = [.Step (ctx.GetStepName "install:composer") none none] ∧
      (p.Plan ext node ctx).1.Deploy.Inputs = [.Step (ctx.GetStepName "build") none none] ∧
      (p.Plan ext node ctx).1.Deploy.StartCmd =
        "docker-php-entrypoint --config /Caddyfile --adapter caddyfile 2>&1" ∧
      prepare.Commands =
        [ .Exec "mkdir -p /usr/local/etc/php/conf.d" "" [],
          .Exec "mkdir -p /conf.d/" "" [],
          .ExecShell "cp $PHP_INI_DIR/php.ini-production $PHP_INI_DIR/php.ini" "",
          .File "/Caddyfile" "Caddyfile" none "" ] ∧
      prepare.Assets = [("Caddyfile", configFiles.Caddyfile)] ∧
      extensions.Commands =
        [.Exec ("install-php-extensions " ++ stringsJoin (p.getPhpExtensions ctx) " ") "" []] := by
  obtain ⟨c1, image, h1, hs1, happ1, henv1, hsub1, hn1⟩ := phpImagePackage_spec ext p ctx
  have hat1 : c1.State.Steps[ctx.State.Steps.length]? = some (.image image) := by
    rw [hs1, getElem?_append_length]
    rfl
  obtain ⟨c2, prepare, h2, hs2, happ2, henv2, hsub2, _, hn2, hi2, hc2, ha2⟩ :=
    planPrepare_spec ctx.State.Steps.length configFiles c1 _ hat1
  have hat2 : c2.State.Steps[c1.State.Steps.length]? = some (.command prepare) := by
    rw [hs2, getElem?_append_length]
    rfl
  obtain ⟨c3, extensions, h3, hs3, happ3, henv3, hsub3, _, hn3, hi3, hc3⟩ :=
    planExtensions_spec p c1.State.Steps.length c2 _ hat2
  have hat3 : c3.State.Steps[c2.State.Steps.length]? = some (.command extensions) := by
    rw [hs3, getElem?_append_length]
    rfl
  obtain ⟨c4, composer, h4, hs4, happ4, henv4, hsub4, _, hn4, hi4⟩ :=
    planComposer_spec p c2.State.Steps.length c3 _ hat3
  have hat4 : c4.State.Steps[c3.State.Steps.length]? = some (.command composer) := by
    rw [hs4, getElem?_append_length]
    rfl
  obtain ⟨c5, build, h5, hs5, hn5, hi5, _, hd5, hstart5⟩ :=
    planBuild_spec c3.State.Steps.length c4 _ hat4
  have happ : c4.State.App = ctx.State.App := by rw [happ4, happ3, happ2, happ1]
  have henv : c4.State.Env = ctx.State.Env := by rw [henv4, henv3, henv2, henv1]
  have hplan : p.Plan ext node ctx = (c5, none) := by
    simp only [PhpProvider.Plan, h1, hconfig c1 happ1 henv1, h2, h3, h4, hnode c4 happ henv, h5]
    simp
  have hg1 := GetStepName_congr c1 ctx hsub1
  have hg2 := GetStepName_congr c2 ctx (hsub2.trans hsub1)
  have hg3 := GetStepName_congr c3 ctx (hsub3.trans (hsub2.trans hsub1))
  have hg4 := GetStepName_congr c4 ctx (hsub4.trans (hsub3.trans (hsub2.trans hsub1)))
  refine ⟨image, prepare, extensions, composer, build, ?_, ?_, hn1, ?_, ?_, ?_, ?_, ?_, ?_, ?_,
    ?_, ?_, ?_, hc2, ha2, ?_⟩
  · rw [hplan]
  · rw [hplan]
    simp only [hs5, hs4, hs3, hs2, hs1, List.append_assoc, List.cons_append, List.nil_append]
  · exact hn2.trans (hg1 _)
  · exact hn3.trans (hg2 _)
  · exact hn4.trans (hg3 _)
  · exact hn5.trans (hg4 _)
  · rw [hi2]
    exact congrArg (fun name => [Input.Step name none none]) hn1
  · rw [hi3]
    exact congrArg (fun name => [Input.Step name none none]) (hn2.trans (hg1 _))
  · rw [hi4]
    exact congrArg (fun name => [Input.Step name none none]) (hn3.trans (hg2 _))
  · rw [hi5]
    exact congrArg (fun name => [Input.Step name none none]) (hn4.trans (hg3 _))
  · rw [hplan, hd5, hg4]
  · rw [hplan, hstart5]
  · rw [hc3, getPhpExtensions_congr p c2 ctx (happ2.trans happ1) (henv2.trans henv1)]

/-- When composer.json cannot be read, `getPhpExtensions` returns no extension,
whatever the environment holds. -/
theorem getPhpExtensions_unreadable (p : PhpProvider) (ctx : ProviderContext) (err : GoError)
    (hread : ctx.State.App.ReadJSONMap "composer.json" = .error err) :
    p.getPhpExtensions ctx = [] := by
  simp [PhpProvider.getPhpExtensions, PhpProvider.readComposerJson, hread]

/-- When composer.json can be read, `getPhpExtensions` returns the keys of
`require` that start with ext-, without this prefix, in the order of the
entries, followed by the pieces of RAILPACK_PHP_EXTENSIONS between commas and
blanks. -/
theorem getPhpExtensions_readable (p : PhpProvider) (ctx : ProviderContext)
    (composerJson : GoMap JsonValue)
    (hread : ctx.State.App.ReadJSONMap "composer.json" = .ok composerJson) :
    p.getPhpExtensions ctx =
      (match composerJson.get "require" with
        | some (.object require) =>
          ((require.map (fun entry => entry.1)).filter
            (fun key => stringsHasPrefix key "ext-")).map
            (fun key => stringsTrimPrefix key "ext-")
        | _ => []) ++
      stringsFieldsFunc (ctx.State.Env.GetConfigVariable "PHP_EXTENSIONS")
        (fun r => r == ',' || r == ' ') := by
  have hfold : ∀ (require : List (String × JsonValue)) (init : List String),
      require.foldl
        (fun extensions entry =>
          if stringsHasPrefix entry.1 "ext-" then
            extensions ++ [stringsTrimPrefix entry.1 "ext-"]
          else extensions)
        init =
      init ++ ((require.map (fun entry => entry.1)).filter
        (fun key => stringsHasPrefix key "ext-")).map
        (fun key => stringsTrimPrefix key "ext-") := by
    intro require
    induction require with
    | nil => intro init; simp
    | cons entry rest ih =>
      intro init
      rw [List.foldl_cons, ih]
      by_cases h : stringsHasPrefix entry.1 "ext-" = true
      · simp [h]
      · simp [h]
  have hempty : stringsFieldsFunc "" (fun r => r == ',' || r == ' ') = [] := by decide
  simp only [PhpProvider.getPhpExtensions, PhpProvider.readComposerJson, hread]
  by_cases hvar : ctx.State.Env.GetConfigVariable "PHP_EXTENSIONS" = ""
  · rw [hvar, hempty]
    simp only [ne_eq, not_true_eq_false, if_false, List.append_nil]
    split <;> simp_all
  · simp only [ne_eq, hvar, not_false_eq_true, if_true]
    congr 1
    split <;> simp_all

/-- C27 fails: for the PHP app with an index.php and no composer.json, and
the environment with RAILPACK_PHP_EXTENSIONS="mbstring,gd", the PHP provider
detects the app, `getPhpExtensions` returns no extension, and the exec command
of the extensions step after `Plan` is "install-php-extensions " with no name
after it, while the pieces of the variable are mbstring and gd. -/
theorem php_extensions_without_composer :
    (({} : PhpProvider).Detect
      (freshProviderContext indexPhpApp phpExtensionsEnvironment {} sampleCaches)).1 = true ∧
    ({} : PhpProvider).getPhpExtensions
      (freshProviderContext indexPhpApp phpExtensionsEnvironment {} sampleCaches) = [] ∧
    (((({} : PhpProvider).Plan samplePlanExternals noNode
      (freshProviderContext indexPhpApp phpExtensionsEnvironment {} sampleCaches)).1.commandStep
        2).map (fun extensions => (extensions.Name, extensions.Commands))) =
      some ("extensions", [.Exec "install-php-extensions " "" []]) ∧
    stringsFieldsFunc
      ((freshProviderContext indexPhpApp phpExtensionsEnvironment {}
        sampleCaches).State.Env.GetConfigVariable "PHP_EXTENSIONS")
      (fun r => r == ',' || r == ' ') = ["mbstring", "gd"] := by
  refine ⟨rfl, rfl, ?_, by decide⟩
  rfl

/-! ### The assets of `File` commands -/

/-- The commands of a mise step that `Build` returns: a `File` command among
them has the asset key mise.toml, and the step holds that asset. -/
theorem mise_Build_file_assets (encode : MiseConfig → Except GoError String)
    (b : MiseStepBuilder) (o : BuildStepOptions)
    (hapt : ∀ packages, (o.NewAptInstallCommand packages).assetKey = none)
    (step : Step) (hbuild : b.Build encode o = .ok step) :
    step.fileAssetsPresent ∧
      ∀ command ∈ step.Commands, ∀ key, command.assetKey = some key → key = "mise.toml" := by
  by_cases hpk : b.MisePackages = []
  · have hstep : step = NewStep b.DisplayName := by
      simp only [MiseStepBuilder.Build, hpk, List.length_nil, if_true] at hbuild
      cases hbuild
      rfl
    subst hstep
    constructor
    · intro command hmem
      simp [NewStep] at hmem
    · intro command hmem
      simp [NewStep] at hmem
  · cases htoml : GenerateMiseToml encode (b.packagesToInstall o) with
    | error err =>
      have hlen : ¬ b.MisePackages.length = 0 := fun h => hpk (List.length_eq_zero.1 h)
      have hpos : b.MisePackages.length > 0 := Nat.pos_of_ne_zero hlen
      simp only [MiseStepBuilder.Build, hlen, hpos, if_true, if_false, htoml] at hbuild
      cases hbuild
    | ok toml =>
      obtain ⟨step1, hstep, hcommands, _, hassets⟩ := mise_Build_step encode b o toml hpk htoml
      rw [hstep] at hbuild
      have hsame : step1 = step := Except.ok.inj hbuild
      subst hsame
      have hkeys : ∀ command ∈ step1.Commands, ∀ key, command.assetKey = some key →
          key = "mise.toml" := by
        intro command hmem key hkey
        rw [hcommands] at hmem
        simp only [List.mem_append, List.mem_cons, List.mem_singleton, List.not_mem_nil,
          or_false] at hmem
        rcases hmem with (((hmem | hmem) | hmem) | hmem) | hmem
        · rcases hmem with rfl | rfl | rfl | rfl | rfl | rfl
          · cases hkey
          · cases hkey
          · cases hkey
          · cases hkey
          · rw [hapt] at hkey
            cases hkey
          · cases hkey
        · simp only [miseCopyCommands, List.mem_map, List.mem_filter] at hmem
          obtain ⟨file, _, rfl⟩ := hmem
          cases hkey
        · by_cases hs : b.SupportingAptPackages = []
          · simp [hs] at hmem
          · simp only [hs, if_false, List.mem_singleton] at hmem
            subst hmem
            rw [hapt] at hkey
            cases hkey
        · rcases hmem with rfl | rfl
          · simp only [Command.assetKey, Option.some.injEq] at hkey
            exact hkey.symm
          · cases hkey
        · simp only [misePathCommands, List.mem_filterMap] at hmem
          obtain ⟨pkg, _, hpath⟩ := hmem
          cases hres : (o.ResolvedPackages.get pkg.Name).bind (fun resolved =>
              resolved.ResolvedVersion) with
          | none => simp [hres] at hpath
          | some version =>
            simp only [hres, Option.map_some', Option.some.injEq] at hpath
            subst hpath
            cases hkey
      refine ⟨?_, hkeys⟩
      intro command hmem key hkey
      rw [hkeys command hmem key hkey, hassets, GoMap.get_set]
      simp

/-- C24: every `File` command of a step names an asset of that step, in the
three places that write such commands.  In every step that
`MiseStepBuilder.Build` returns, with apt install commands that are not `File`
commands, the asset key of a `File` command is mise.toml and the step holds
that asset.  After `StaticfileProvider.Setup` returns without error on a
builder whose `File` commands, if any, name the asset Caddyfile, as on the
new builder that `Plan` hands to it, and in the prepare builder that the PHP
provider registers (lines 52 to 70 of its `Plan`, on every context), the asset
key of a `File` command is Caddyfile and the builder, as the step built from
it, holds that asset; the prepare builder is left so by the rest of `Plan` for
an app that is not a Node app. -/
theorem file_assets_present {ν : Type} (encode : MiseConfig → Except GoError String)
    (b : MiseStepBuilder) (o : BuildStepOptions)
    (hapt : ∀ packages, (o.NewAptInstallCommand packages).assetKey = none)
    (ext : PlanExternals) (staticfile : StaticfileProvider) (setup : CommandStepBuilder)
    (hsetup : ∀ command ∈ setup.Commands, ∀ key, command.assetKey = some key →
      key = "Caddyfile")
    (phpImageStep : Nat) (configFiles : ConfigFiles) (ctx : ProviderContext)
    (node : NodeProvider ν) (php : PhpProvider) :
    (∀ step, b.Build encode o = .ok step →
      step.fileAssetsPresent ∧
      ∀ command ∈ step.Commands, ∀ key, command.assetKey = some key → key = "mise.toml") ∧
    ((staticfile.Setup ext setup).2 = none →
      (staticfile.Setup ext setup).1.Build.fileAssetsPresent ∧
      Command.File "Caddyfile" "Caddyfile" none "" ∈ (staticfile.Setup ext setup).1.Commands ∧
      ((staticfile.Setup ext setup).1.Assets.get "Caddyfile").isSome = true ∧
      ∀ command ∈ (staticfile.Setup ext setup).1.Commands, ∀ key,
        command.assetKey = some key → key = "Caddyfile") ∧
    (∃ prepare : CommandStepBuilder,
      (PhpProvider.planPrepare phpImageStep configFiles ctx).1.State.Steps =
        ctx.State.Steps ++ [.command prepare] ∧
      prepare.Name = ctx.GetStepName "prepare" ∧
      prepare.Build.fileAssetsPresent ∧
      Command.File "/Caddyfile" "Caddyfile" none "" ∈ prepare.Commands ∧
      prepare.Assets.get "Caddyfile" = some configFiles.Caddyfile ∧
      ∀ command ∈ prepare.Commands, ∀ key,
        command.assetKey = some key → key = "Caddyfile") ∧
    ((∀ c : ProviderContext, c.State.App = ctx.State.App → c.State.Env = ctx.State.Env →
        php.getConfigFiles ext c = .ok configFiles) →
      (∀ c : ProviderContext, c.State.App = ctx.State.App → c.State.Env = ctx.State.Env →
        node.Detect node.Zero c = (false, none)) →
      ∃ prepare : CommandStepBuilder,
        StepBuilder.command prepare ∈ (php.Plan ext node ctx).1.State.Steps ∧
        prepare.Name = ctx.GetStepName "prepare" ∧
        prepare.Build.fileAssetsPresent ∧
        prepare.Assets.get "Caddyfile" = some configFiles.Caddyfile) := by
  have hkeys : ∀ command ∈
      [ Command.Exec "mkdir -p /usr/local/etc/php/conf.d" "" [],
        .Exec "mkdir -p /conf.d/" "" [],
        .ExecShell "cp $PHP_INI_DIR/php.ini-production $PHP_INI_DIR/php.ini" "",
        .File "/Caddyfile" "Caddyfile" none "" ],
      ∀ key, command.assetKey = some key → key = "Caddyfile" := by
    intro command hmem key hkey
    simp only [List.mem_cons, List.mem_singleton, List.not_mem_nil, or_false] at hmem
    rcases hmem with rfl | rfl | rfl | rfl
    · cases hkey
    · cases hkey
    · cases hkey
    · simp only [Command.assetKey, Option.some.injEq] at hkey
      exact hkey.symm
  refine ⟨fun step hbuild => mise_Build_file_assets encode b o hapt step hbuild, ?_, ?_, ?_⟩
  · intro hok
    cases hrender : ext.renderTemplate ext.staticfileCaddyfileTemplate
        [("STATIC_FILE_ROOT", .str staticfile.RootDir)] with
    | error err =>
      simp [StaticfileProvider.Setup, StaticfileProvider.getCaddyfile, hrender] at hok
    | ok caddyfile =>
      have hresult : staticfile.Setup ext setup =
          ({ setup with
              Commands := setup.Commands ++
                [ .File "Caddyfile" "Caddyfile" none "",
                  .Exec "caddy fmt --overwrite Caddyfile" "" [] ]
              Assets := [("Caddyfile", caddyfile)] }, none) := by
        simp [StaticfileProvider.Setup, StaticfileProvider.getCaddyfile, hrender,
          CommandStepBuilder.AddCommands, NewFileCommand, NewExecCommand]
      rw [hresult]
      have hkeys : ∀ command ∈ setup.Commands ++
          [ Command.File "Caddyfile" "Caddyfile" none "",
            Command.Exec "caddy fmt --overwrite Caddyfile" "" [] ],
          ∀ key, command.assetKey = some key → key = "Caddyfile" := by
        intro command hmem key hkey
        simp only [List.mem_append, List.mem_cons, List.mem_singleton, List.not_mem_nil,
          or_false] at hmem
        rcases hmem with hmem | rfl | rfl
        · exact hsetup command hmem key hkey
        · simp only [Command.assetKey, Option.some.injEq] at hkey
          exact hkey.symm
        · cases hkey
      refine ⟨?_, by simp, by simp [GoMap.get], hkeys⟩
      intro command hmem key hkey
      rw [hkeys command hmem key hkey]
      simp [CommandStepBuilder.Build, GoMap.get]
  · rw [planPrepare_eq]
    refine ⟨_, rfl, rfl, ?_, by simp, by simp [GoMap.get], hkeys⟩
    intro command hmem key hkey
    rw [hkeys command hmem key hkey]
    simp [CommandStepBuilder.Build, GoMap.get]
  · intro hconfig hnode
    obtain ⟨image, prepare, extensions, composer, build, _, hsteps, _, hname, _, _, _, _, _,
      _, _, _, _, hcommands, hassets, _⟩ := php_Plan_steps ext node php ctx configFiles hconfig hnode
    refine ⟨prepare, by rw [hsteps]; simp, hname, ?_, by rw [hassets]; simp [GoMap.get]⟩
    intro command hmem key hkey
    have hmem1 : command ∈ prepare.Commands := hmem
    rw [hcommands] at hmem1
    rw [hkeys command hmem1 key hkey]
    simp [CommandStepBuilder.Build, hassets, GoMap.get]

/-- C24, witness: the mise step of the sample builder holds mise.toml, the
setup builder of the staticfile provider and the prepare builder of the PHP
provider hold Caddyfile. -/
theorem file_assets_present_witness :
    (∃ step, nodeMiseStepBuilder.Build sampleEncode sampleBuildOptions = .ok step ∧
      step.fileAssetsPresent ∧ step.Assets.get "mise.toml" = some "[tools] node=22.1.0") ∧
    ((({ RootDir := "." } : StaticfileProvider).Setup samplePlanExternals
      { DisplayName := "setup" }).1.Assets.get "Caddyfile").isSome = true ∧
    (∃ prepare : CommandStepBuilder,
      (PhpProvider.planPrepare 0 { Caddyfile := "root * /app" }
        (freshProviderContext indexPhpApp emptyEnvironment {} sampleCaches)).1.State.Steps =
        [.command prepare] ∧
      prepare.Build.fileAssetsPresent) :=
  have h := file_assets_present sampleEncode nodeMiseStepBuilder sampleBuildOptions
    (fun _ => rfl) samplePlanExternals { RootDir := "." } { DisplayName := "setup" }
    (fun _ hmem => nomatch hmem) 0 { Caddyfile := "root * /app" }
    (freshProviderContext indexPhpApp emptyEnvironment {} sampleCaches) noNode {}
  ⟨⟨_, rfl, (h.1 _ rfl).1, rfl⟩, (h.2.1 rfl).2.2.1,
    h.2.2.1.choose, h.2.2.1.choose_spec.1, h.2.2.1.choose_spec.2.2.1⟩

/-! ### Step inputs name registered step builders -/

/-- C29: after `PhpProvider.Plan` for an app that is not a Node app, on any
context, and after `StaticfileProvider.Plan` on a fresh context, every `Step`
input of every builder that the provider registered, and every `Step` input
among the deploy inputs, names a step builder of the step list of the context.
The PHP provider registers the image step builder, which has no input of its
own, and prepare, extensions, install:composer and build, named so on an empty
sub-context stack with packages:image for the image step; the staticfile
provider registers packages:mise, which has no input, and setup.  The config
files of the PHP provider are taken to be generated and the Caddyfile of the
staticfile provider to render, so that the two plans return without error, and
the default runtime input, if it is a `Step` input, to name a builder of the
context it is asked on. -/
theorem step_inputs_registered {ν : Type} (ext : PlanExternals) (node : NodeProvider ν)
    (php : PhpProvider) (ctx : ProviderContext) (configFiles : ConfigFiles)
    (hconfig : ∀ c : ProviderContext, c.State.App = ctx.State.App →
      c.State.Env = ctx.State.Env → php.getConfigFiles ext c = .ok configFiles)
    (hnode : ∀ c : ProviderContext, c.State.App = ctx.State.App →
      c.State.Env = ctx.State.Env → node.Detect node.Zero c = (false, none))
    (app : App) (env : Environment) (config : Config) (caches : CacheRegistry)
    (root text : String)
    (hrender : ext.renderTemplate ext.staticfileCaddyfileTemplate
      [("STATIC_FILE_ROOT", .str root)] = .ok text)
    (hruntime : ∀ (c : ProviderContext) (name : String),
      (ext.DefaultRuntimeInput c).stepName = some name → name ∈ c.stepNames) :
    (∃ (image : ImageStepBuilder) (prepare extensions composer build : CommandStepBuilder),
      (php.Plan ext node ctx).2 = none ∧
      (php.Plan ext node ctx).1.State.Steps = ctx.State.Steps ++
        [.image image, .command prepare, .command extensions, .command composer,
          .command build] ∧
      (∀ b ∈ [prepare, extensions, composer, build], ∀ input ∈ b.Inputs, ∀ name,
        input.stepName = some name → name ∈ (php.Plan ext node ctx).1.stepNames) ∧
      (∀ input ∈ (php.Plan ext node ctx).1.Deploy.Inputs, ∀ name,
        input.stepName = some name → name ∈ (php.Plan ext node ctx).1.stepNames) ∧
      (ctx.SubContexts = [] →
        [image.Name, prepare.Name, extensions.Name, composer.Name, build.Name] =
          ["packages:image", "prepare", "extensions", "install:composer", "build"])) ∧
    ((({ RootDir := root } : StaticfileProvider).Plan ext
        (freshProviderContext app env config caches)).2 = none ∧
      (({ RootDir := root } : StaticfileProvider).Plan ext
        (freshProviderContext app env config caches)).1.stepNames =
        ["packages:mise", "setup"] ∧
      (∀ b : CommandStepBuilder,
        StepBuilder.command b ∈ (({ RootDir := root } : StaticfileProvider).Plan ext
          (freshProviderContext app env config caches)).1.State.Steps →
        ∀ input ∈ b.Inputs, ∀ name, input.stepName = some name →
          name ∈ ["packages:mise", "setup"]) ∧
      (∀ input ∈ (({ RootDir := root } : StaticfileProvider).Plan ext
          (freshProviderContext app env config caches)).1.Deploy.Inputs,
        ∀ name, input.stepName = some name → name ∈ ["packages:mise", "setup"])) := by
  constructor
  · obtain ⟨image, prepare, extensions, composer, build, herr, hsteps, hn1, hn2, hn3, hn4, hn5,
      hi2, hi3, hi4, hi5, hdeploy, _, _, _, _⟩ :=
      php_Plan_steps ext node php ctx configFiles hconfig hnode
    have hnames : (php.Plan ext node ctx).1.stepNames =
        ctx.stepNames ++ [ctx.GetStepName "packages:image", ctx.GetStepName "prepare",
          ctx.GetStepName "extensions", ctx.GetStepName "install:composer",
          ctx.GetStepName "build"] := by
      simp only [ProviderContext.stepNames, hsteps, List.map_append, List.map_cons,
        List.map_nil, StepBuilder.Name, hn1, hn2, hn3, hn4, hn5]
    refine ⟨image, prepare, extensions, composer, build, herr, hsteps, ?_, ?_, ?_⟩
    · intro b hb input hinput name hname
      rw [hnames]
      simp only [List.mem_cons, List.mem_singleton, List.not_mem_nil, or_false] at hb
      rcases hb with rfl | rfl | rfl | rfl
      · rw [hi2] at hinput
        simp only [List.mem_singleton] at hinput
        subst hinput
        cases hname
        simp
      · rw [hi3] at hinput
        simp only [List.mem_singleton] at hinput
        subst hinput
        cases hname
        simp
      · rw [hi4] at hinput
        simp only [List.mem_singleton] at hinput
        subst hinput
        cases hname
        simp
      · rw [hi5] at hinput
        simp only [List.mem_singleton] at hinput
        subst hinput
        cases hname
        simp
    · intro input hinput name hname
      rw [hnames]
      rw [hdeploy] at hinput
      simp only [List.mem_singleton] at hinput
      subst hinput
      cases hname
      simp
    · intro hsub
      have hg : ∀ base, ctx.GetStepName base = base := by
        intro base
        simp [GenerateContext.GetStepName, hsub]
      rw [hn1, hn2, hn3, hn4, hn5, hg, hg, hg, hg, hg]
  · obtain ⟨herr, hsteps, _, runtimeContext, hrsteps, hdeploy⟩ :=
      staticfile_Plan_fresh ext app env config caches root text hrender
    have hnames : (({ RootDir := root } : StaticfileProvider).Plan ext
        (freshProviderContext app env config caches)).1.stepNames =
        ["packages:mise", "setup"] := by
      simp only [ProviderContext.stepNames, hsteps, List.map_cons, List.map_nil]
      rfl
    refine ⟨herr, hnames, ?_, ?_⟩
    · intro b hb input hinput name hname
      rw [hsteps] at hb
      simp only [List.mem_cons, List.mem_singleton, List.not_mem_nil, or_false,
        StepBuilder.command.injEq] at hb
      rcases hb with hb | hb
      · cases hb
      subst hb
      simp only [List.mem_singleton] at hinput
      subst hinput
      cases hname
      simp
    · intro input hinput name hname
      rw [hdeploy] at hinput
      simp only [List.mem_cons, List.mem_singleton, List.not_mem_nil, or_false] at hinput
      rcases hinput with rfl | rfl | rfl | rfl
      · have h := hruntime runtimeContext name hname
        rw [ProviderContext.stepNames, hrsteps] at h
        rw [← hnames]
        exact h
      · cases hname
        simp
      · cases hname
        simp
      · cases hname

/-- C29, witness: the PHP app with index.php alone and the app with index.html
alone, each on its fresh context: the builders registered are
packages:image, prepare, extensions, install:composer, build and
packages:mise, setup, and the step inputs among the deploy inputs name some of
them. -/
theorem step_inputs_registered_witness :
    (({} : PhpProvider).Plan samplePlanExternals noNode
      (freshProviderContext indexPhpApp emptyEnvironment {} sampleCaches)).1.stepNames =
      ["packages:image", "prepare", "extensions", "install:composer", "build"] ∧
    (({} : PhpProvider).Plan samplePlanExternals noNode
      (freshProviderContext indexPhpApp emptyEnvironment {} sampleCaches)).1.Deploy.Inputs =
      [.Step "build" none none] ∧
    (∀ input ∈ (({} : PhpProvider).Plan samplePlanExternals noNode
        (freshProviderContext indexPhpApp emptyEnvironment {} sampleCaches)).1.Deploy.Inputs,
      ∀ name, input.stepName = some name →
        name ∈ (({} : PhpProvider).Plan samplePlanExternals noNode
          (freshProviderContext indexPhpApp emptyEnvironment {} sampleCaches)).1.stepNames) ∧
    (({ RootDir := "." } : StaticfileProvider).Plan samplePlanExternals
      (freshProviderContext indexHtmlApp emptyEnvironment {} sampleCaches)).1.stepNames =
      ["packages:mise", "setup"] ∧
    (({ RootDir := "." } : StaticfileProvider).Plan samplePlanExternals
      (freshProviderContext indexHtmlApp emptyEnvironment {} sampleCaches)).1.Deploy.Inputs =
      [ .Image "ghcr.io/railwayapp/railpack-runtime:latest",
        .Step "packages:mise" (some ["/mise/shims", "/mise/installs"]) none,
        .Step "setup" (some ["."]) none,
        .Local "." ] :=
  have h := step_inputs_registered samplePlanExternals noNode {}
    (freshProviderContext indexPhpApp emptyEnvironment {} sampleCaches)
    { Caddyfile := "root * /app" }
    (fun c happ henv => by
      simp [PhpProvider.getConfigFiles, PhpProvider.usesLaravel, happ, henv,
        freshProviderContext, indexPhpApp, emptyEnvironment, Environment.GetVariable,
        GoMap.get, samplePlanExternals])
    (fun _ _ _ => rfl)
    indexHtmlApp emptyEnvironment {} sampleCaches "." "root * ." rfl
    (fun _ _ hname => by cases hname)
  match h.1 with
  | ⟨_, _, _, _, _, _, _, _, hdeploy, _⟩ => ⟨rfl, rfl, hdeploy, h.2.2.1, rfl⟩

/-! ### The procfile provider -/

/-- Once the context is created and the config merged, the calls of
`GenerateBuildPlan` are those of provider selection and those of the provider
loop, followed, when the loop returned no error, by the `Plan` of the procfile
provider and then by the config overlay and `Generate` at most. -/
theorem GenerateBuildPlan_trace_shape {σ : Type} (ext : Externals σ) (app : App)
    (env : Option Environment) (o : GenerateBuildPlanOptions) (ctx0 : GenerateContext σ)
    (config : Config)
    (hctx : ext.NewGenerateContext app env = .ok ctx0)
    (hconfig : GetConfig app env (some o) = .ok config) :
    ∃ rest,
      (GenerateBuildPlan ext app env (some o)).trace =
        (getProviders ext.LanguageProviders (setPreviousVersions o ctx0) config).trace ++
        (planLoop 0
          (getProviders ext.LanguageProviders (setPreviousVersions o ctx0)
            config).providersToUse
          ((getProviders ext.LanguageProviders (setPreviousVersions o ctx0)
            config).ctx.SetMetadata "providers"
            (stringsJoin
              ((getProviders ext.LanguageProviders (setPreviousVersions o ctx0)
                config).providersToUse.map (fun provider => provider.Name)) ","))).trace ++
        rest ∧
      (∀ e ∈ rest, e = Event.ProcfilePlan ∨ e = Event.ApplyConfig ∨ e = Event.Generate) ∧
      ((planLoop 0
          (getProviders ext.LanguageProviders (setPreviousVersions o ctx0)
            config).providersToUse
          ((getProviders ext.LanguageProviders (setPreviousVersions o ctx0)
            config).ctx.SetMetadata "providers"
            (stringsJoin
              ((getProviders ext.LanguageProviders (setPreviousVersions o ctx0)
                config).providersToUse.map (fun provider => provider.Name)) ","))).err = none →
        ∃ tail, rest = Event.ProcfilePlan :: tail ∧
          ∀ e ∈ tail, e = Event.ApplyConfig ∨ e = Event.Generate) ∧
      (∀ err, (planLoop 0
          (getProviders ext.LanguageProviders (setPreviousVersions o ctx0)
            config).providersToUse
          ((getProviders ext.LanguageProviders (setPreviousVersions o ctx0)
            config).ctx.SetMetadata "providers"
            (stringsJoin
              ((getProviders ext.LanguageProviders (setPreviousVersions o ctx0)
                config).providersToUse.map (fun provider => provider.Name)) ","))).err =
          some err → rest = []) := by
  simp only [GenerateBuildPlan, hctx, hconfig]
  generalize getProviders ext.LanguageProviders (setPreviousVersions o ctx0) config = r
  generalize planLoop 0 r.providersToUse (r.ctx.SetMetadata "providers"
    (stringsJoin (r.providersToUse.map (fun provider => provider.Name)) ",")) = l
  cases hl : l.err with
  | some err =>
    simp only []
    exact ⟨[], by simp, by simp, by simp, by simp⟩
  | none =>
    simp only []
    cases hp : (ext.ProcfilePlan l.ctx).2 with
    | some err =>
      exact ⟨[.ProcfilePlan], by simp [hp], by simp, fun _ => ⟨[], rfl, by simp⟩, by simp⟩
    | none =>
      cases ha : (ext.ApplyConfig (ext.ProcfilePlan l.ctx).1 config).2 with
      | some err =>
        exact ⟨[.ProcfilePlan, .ApplyConfig], by simp [hp, ha], by simp,
          fun _ => ⟨[.ApplyConfig], rfl, by simp⟩, by simp⟩
      | none =>
        refine ⟨[.ProcfilePlan, .ApplyConfig, .Generate], ?_, by simp,
          fun _ => ⟨[.ApplyConfig, .Generate], rfl, by simp⟩, by simp⟩
        simp only [hp, ha]
        split <;> simp

/-- Once the context is created, the config merged and the provider loop has
returned without error, `GenerateBuildPlan` runs the `Plan` of the procfile
provider on the context that the loop leaves and returns its error wrapped;
otherwise it hands the context that the procfile plan leaves to `ApplyConfig`
and returns its error wrapped; otherwise it hands the context that the overlay
leaves to `Generate` and returns its error wrapped or the build result. -/
theorem GenerateBuildPlan_after_loop {σ : Type} (ext : Externals σ) (app : App)
    (env : Option Environment) (o : GenerateBuildPlanOptions) (ctx0 : GenerateContext σ)
    (config : Config)
    (hctx : ext.NewGenerateContext app env = .ok ctx0)
    (hconfig : GetConfig app env (some o) = .ok config)
    (hloop : (providerLoop ext o ctx0 config).err = none) :
    (∀ err, (ext.ProcfilePlan (providerLoop ext o ctx0 config).ctx).2 = some err →
      (GenerateBuildPlan ext app env (some o)).outcome =
        .error (Errorf "failed to run procfile provider: " err)) ∧
    ((ext.ProcfilePlan (providerLoop ext o ctx0 config).ctx).2 = none →
      (∀ err,
        (ext.ApplyConfig (ext.ProcfilePlan (providerLoop ext o ctx0 config).ctx).1 config).2 =
          some err →
        (GenerateBuildPlan ext app env (some o)).outcome =
          .error (Errorf "failed to apply config: " err)) ∧
      ((ext.ApplyConfig (ext.ProcfilePlan (providerLoop ext o ctx0 config).ctx).1 config).2 =
          none →
        (∀ err,
          (ext.Generate
            (ext.ApplyConfig (ext.ProcfilePlan (providerLoop ext o ctx0 config).ctx).1
              config).1).2 = .error err →
          (GenerateBuildPlan ext app env (some o)).outcome =
            .error (Errorf "failed to generate build plan: " err)) ∧
        (∀ buildPlan resolvedPackages,
          (ext.Generate
            (ext.ApplyConfig (ext.ProcfilePlan (providerLoop ext o ctx0 config).ctx).1
              config).1).2 = .ok (buildPlan, resolvedPackages) →
          (GenerateBuildPlan ext app env (some o)).outcome =
            .ok
              { Plan := buildPlan
                ResolvedPackages := resolvedPackages
                Metadata := (ext.Generate
                  (ext.ApplyConfig (ext.ProcfilePlan (providerLoop ext o ctx0 config).ctx).1
                    config).1).1.Metadata
                DetectedProviders :=
                  (getProviders ext.LanguageProviders (setPreviousVersions o ctx0)
                    config).detectedProviders }))) := by
  simp only [providerLoop] at hloop ⊢
  simp only [GenerateBuildPlan, hctx, hconfig]
  generalize getProviders ext.LanguageProviders (setPreviousVersions o ctx0) config = r at hloop ⊢
  generalize planLoop 0 r.providersToUse (r.ctx.SetMetadata "providers"
    (stringsJoin (r.providersToUse.map (fun provider => provider.Name)) ",")) = l at hloop ⊢
  simp only [hloop]
  refine ⟨?_, ?_⟩
  · intro err hp
    simp [hp]
  · intro hp
    refine ⟨?_, ?_⟩
    · intro err ha
      simp [hp, ha]
    · intro ha
      refine ⟨?_, ?_⟩
      · intro err hg
        simp [hp, ha, hg]
      · intro buildPlan resolvedPackages hg
        simp [hp, ha, hg]

/-- C28: once the context is created and the config is merged, whenever the
provider loop of `GenerateBuildPlan` has returned without error, whatever was
detected and also when the use list is empty, `GenerateBuildPlan` runs the
`Plan` of the procfile provider on the context that the plans of the language
providers left: an error of the procfile plan is returned wrapped, and
otherwise the context that the procfile plan leaves is the one handed to the
config overlay, whose context is the one handed to `Generate`, whose results
make the build result.  When a language plan fails, that error is returned and
the procfile provider is not run.  The calls recorded are those of provider
selection, those of the loop, then the procfile plan, and after it nothing but
the overlay and `Generate`.  When the procfile provider is
`ProcfileProvider.Plan` and the app of the context has a `Procfile` with an
entry web and no start command is set, the context handed to the overlay is the
one of the loop with the deploy start command set to the command of that entry.
And on a fresh context of such an app the `Plan` of the procfile provider
returns no error and leaves the deploy start command equal to that command. -/
theorem procfile_runs_after_providers (ext : Externals ProviderState) (app : App)
    (env : Option Environment) (o : GenerateBuildPlanOptions) (ctx0 : ProviderContext)
    (config : Config)
    (hctx : ext.NewGenerateContext app env = .ok ctx0)
    (hconfig : GetConfig app env (some o) = .ok config)
    (procfileApp : App) (procfileEnv : Environment) (procfileConfig : Config)
    (caches : CacheRegistry) (procfile : GoMap String) (command : String)
    (hprocfile : procfileApp.ReadYAMLMap "Procfile" = .ok procfile)
    (hweb : procfile.get "web" = some command) :
    ((providerLoop ext o ctx0 config).err = none →
      (∀ err, (ext.ProcfilePlan (providerLoop ext o ctx0 config).ctx).2 = some err →
        (GenerateBuildPlan ext app env (some o)).outcome =
          .error (Errorf "failed to run procfile provider: " err)) ∧
      ((ext.ProcfilePlan (providerLoop ext o ctx0 config).ctx).2 = none →
        (∀ err,
          (ext.ApplyConfig (ext.ProcfilePlan (providerLoop ext o ctx0 config).ctx).1 config).2 =
            some err →
          (GenerateBuildPlan ext app env (some o)).outcome =
            .error (Errorf "failed to apply config: " err)) ∧
        ((ext.ApplyConfig (ext.ProcfilePlan (providerLoop ext o ctx0 config).ctx).1 config).2 =
            none →
          (∀ err,
            (ext.Generate
              (ext.ApplyConfig (ext.ProcfilePlan (providerLoop ext o ctx0 config).ctx).1
                config).1).2 = .error err →
            (GenerateBuildPlan ext app env (some o)).outcome =
              .error (Errorf "failed to generate build plan: " err)) ∧
          (∀ buildPlan resolvedPackages,
            (ext.Generate
              (ext.ApplyConfig (ext.ProcfilePlan (providerLoop ext o ctx0 config).ctx).1
                config).1).2 = .ok (buildPlan, resolvedPackages) →
            (GenerateBuildPlan ext app env (some o)).outcome =
              .ok
                { Plan := buildPlan
                  ResolvedPackages := resolvedPackages
                  Metadata := (ext.Generate
                    (ext.ApplyConfig (ext.ProcfilePlan (providerLoop ext o ctx0 config).ctx).1
                      config).1).1.Metadata
                  DetectedProviders :=
                    (getProviders ext.LanguageProviders (setPreviousVersions o ctx0)
                      config).detectedProviders })))) ∧
    (∀ err, (providerLoop ext o ctx0 config).err = some err →
      (GenerateBuildPlan ext app env (some o)).outcome = .error err ∧
      Event.ProcfilePlan ∉ (GenerateBuildPlan ext app env (some o)).trace) ∧
    ((getProviders ext.LanguageProviders (setPreviousVersions o ctx0) config).providersToUse =
        [] →
      (providerLoop ext o ctx0 config).err = none ∧
      (providerLoop ext o ctx0 config).ctx =
        (getProviders ext.LanguageProviders (setPreviousVersions o ctx0)
          config).ctx.SetMetadata "providers" "" ∧
      Event.ProcfilePlan ∈ (GenerateBuildPlan ext app env (some o)).trace) ∧
    ((providerLoop ext o ctx0 config).err = none →
      ∃ rest,
        (GenerateBuildPlan ext app env (some o)).trace =
          (getProviders ext.LanguageProviders (setPreviousVersions o ctx0) config).trace ++
          (providerLoop ext o ctx0 config).trace ++ Event.ProcfilePlan :: rest ∧
        (∀ e ∈ rest, e = Event.ApplyConfig ∨ e = Event.Generate) ∧
        (∀ e ∈ (getProviders ext.LanguageProviders (setPreviousVersions o ctx0) config).trace ++
          (providerLoop ext o ctx0 config).trace,
          e ≠ Event.ProcfilePlan ∧ e ≠ Event.ApplyConfig)) ∧
    (ext.ProcfilePlan = ProcfileProvider.Plan →
      (providerLoop ext o ctx0 config).ctx.State.App = procfileApp →
      (providerLoop ext o ctx0 config).ctx.Deploy.StartCmd = "" →
      (ext.ProcfilePlan (providerLoop ext o ctx0 config).ctx).2 = none ∧
      (ext.ProcfilePlan (providerLoop ext o ctx0 config).ctx).1 =
        { (providerLoop ext o ctx0 config).ctx with
          Deploy := { (providerLoop ext o ctx0 config).ctx.Deploy with StartCmd := command } }) ∧
    (ProcfileProvider.Plan
      (freshProviderContext procfileApp procfileEnv procfileConfig caches)).2 = none ∧
    (ProcfileProvider.Plan
      (freshProviderContext procfileApp procfileEnv procfileConfig caches)).1.Deploy.StartCmd =
      command := by
  obtain ⟨rest, htrace, _, hok, hfail⟩ :=
    GenerateBuildPlan_trace_shape ext app env o ctx0 config hctx hconfig
  have hsel := getProviders_trace ext.LanguageProviders (setPreviousVersions o ctx0) config
  have hloop := planLoop_trace
    (getProviders ext.LanguageProviders (setPreviousVersions o ctx0) config).providersToUse 0
    ((getProviders ext.LanguageProviders (setPreviousVersions o ctx0) config).ctx.SetMetadata
      "providers"
      (stringsJoin
        ((getProviders ext.LanguageProviders (setPreviousVersions o ctx0)
          config).providersToUse.map (fun provider => provider.Name)) ","))
  have hbefore : ∀ e ∈
      (getProviders ext.LanguageProviders (setPreviousVersions o ctx0) config).trace ++
      (providerLoop ext o ctx0 config).trace,
      e ≠ Event.ProcfilePlan ∧ e ≠ Event.ApplyConfig := by
    intro e he
    rcases List.mem_append.1 he with he | he
    · have h := hsel e he
      constructor <;> intro heq <;> rw [heq] at h <;> cases h
    · have h := hloop e he
      constructor <;> intro heq <;> rw [heq] at h <;> cases h
  have hempty :
      (getProviders ext.LanguageProviders (setPreviousVersions o ctx0) config).providersToUse =
        [] →
      (providerLoop ext o ctx0 config).err = none ∧
      (providerLoop ext o ctx0 config).ctx =
        (getProviders ext.LanguageProviders (setPreviousVersions o ctx0)
          config).ctx.SetMetadata "providers" "" := by
    intro huse
    simp only [providerLoop]
    rw [huse]
    exact ⟨rfl, rfl⟩
  refine ⟨?_, ?_, ?_, ?_, ?_, ?_, ?_⟩
  · intro hnone
    exact GenerateBuildPlan_after_loop ext app env o ctx0 config hctx hconfig hnone
  · intro err herr
    refine ⟨?_, ?_⟩
    · simp only [providerLoop] at herr
      simp only [GenerateBuildPlan, hctx, hconfig, herr]
    · intro hmem
      rw [htrace, hfail err herr, List.append_nil] at hmem
      exact (hbefore _ hmem).1 rfl
  · intro huse
    refine ⟨(hempty huse).1, (hempty huse).2, ?_⟩
    obtain ⟨tail, hrest, _⟩ := hok (hempty huse).1
    rw [htrace, hrest]
    simp
  · intro hnone
    obtain ⟨tail, hrest, htail⟩ := hok hnone
    exact ⟨tail, by rw [htrace, hrest]; rfl, htail, hbefore⟩
  · intro hplan happ hstart
    rw [hplan]
    simp [ProcfileProvider.Plan, happ, hprocfile, hweb, hstart]
  · simp [ProcfileProvider.Plan, freshProviderContext, hprocfile, hweb, NewDeployBuilder]
  · simp [ProcfileProvider.Plan, freshProviderContext, hprocfile, hweb, NewDeployBuilder]

/-- C28, witness: examples/python-uv with the language providers php and
staticfile, none of which detects the app: the use list is empty, the procfile
provider is still run, and the build result has the start command of the
Procfile in its deploy section; and on the fresh context of the app the `Plan`
of the procfile provider leaves that start command. -/
theorem procfile_runs_after_providers_witness :
    (getProviders providerExternals.LanguageProviders
        (freshProviderContext pythonUvApp emptyEnvironment {} sampleCaches)
        {}).providersToUse.map (fun p => p.Name) = [] ∧
    (∃ result,
      (GenerateBuildPlan providerExternals pythonUvApp (some emptyEnvironment)
        (some {})).outcome = .ok result ∧
      result.Plan.Deploy.StartCmd = "gunicorn --bind 0.0.0.0:3333 main:app") ∧
    Event.ProcfilePlan ∈
      (GenerateBuildPlan providerExternals pythonUvApp (some emptyEnvironment)
        (some {})).trace ∧
    (ProcfileProvider.Plan
      (freshProviderContext pythonUvApp emptyEnvironment {} sampleCaches)).2 = none ∧
    (ProcfileProvider.Plan
      (freshProviderContext pythonUvApp emptyEnvironment {} sampleCaches)).1.Deploy.StartCmd =
      "gunicorn --bind 0.0.0.0:3333 main:app" :=
  have h := procfile_runs_after_providers providerExternals pythonUvApp (some emptyEnvironment)
    {} (freshProviderContext pythonUvApp emptyEnvironment {} sampleCaches) _ rfl rfl
    pythonUvApp emptyEnvironment {} sampleCaches
    [("web", "gunicorn --bind 0.0.0.0:3333 main:app")]
    "gunicorn --bind 0.0.0.0:3333 main:app" rfl rfl
  ⟨rfl, ⟨_, (((h.1 rfl).2 rfl).2 rfl).2 _ _ rfl, rfl⟩, (h.2.2.1 rfl).2.2, h.2.2.2.2.2.1,
    h.2.2.2.2.2.2⟩

/-! ### The php version of the image step -/

/-- After `Default` the package has a request: the one it had, or a new one
with the default version and no override. -/
theorem Resolver_Default_request (r : Resolver) (name version : String) :
    (r.Default name version).1.defaultVersion name =
        some ((r.defaultVersion name).getD version) ∧
      (r.Default name version).1.overrides name = r.overrides name := by
  simp only [Resolver.Default, Resolver.defaultVersion, Resolver.overrides]
  cases h : r.Packages.get name with
  | some request => simp [h]
  | none => simp [h, GoMap.get_set]

/-- On a package that has a request, `Version` appends one override and leaves
the default version. -/
theorem Resolver_Version_request (r : Resolver) (name version source : String)
    (hsome : (r.defaultVersion name).isSome = true) :
    (r.Version { Name := name } version source).defaultVersion name = r.defaultVersion name ∧
      (r.Version { Name := name } version source).overrides name =
        r.overrides name ++ [{ Version := version, Source := source }] := by
  simp only [Resolver.Version, Resolver.defaultVersion, Resolver.overrides] at hsome ⊢
  cases h : r.Packages.get name with
  | some request => simp [h, GoMap.get_set]
  | none => simp [h] at hsome

/-- The method `SetVersionAvailable` of the resolver leaves default version and
overrides as they are. -/
theorem Resolver_SetVersionAvailable_request (r : Resolver) (name : String)
    (predicate : String → Bool) :
    (r.SetVersionAvailable { Name := name } predicate).defaultVersion name =
        r.defaultVersion name ∧
      (r.SetVersionAvailable { Name := name } predicate).overrides name = r.overrides name := by
  simp only [Resolver.SetVersionAvailable, Resolver.defaultVersion, Resolver.overrides]
  cases h : r.Packages.get name with
  | some request => simp [h, GoMap.get_set]
  | none => simp [h]

/-- A string that starts with the prefix is the prefix followed by what
`strings.TrimPrefix` returns. -/
theorem stringsTrimPrefix_append (s pre : String) (h : stringsHasPrefix s pre = true) :
    s = pre ++ stringsTrimPrefix s pre := by
  simp only [stringsTrimPrefix, h, if_true]
  simp only [stringsHasPrefix] at h
  obtain ⟨rest, hrest⟩ := List.isPrefixOf_iff_prefix.1 h
  apply String.ext
  simp [← hrest]

/-- The resolver that `phpImagePackage` leaves behind: php is requested with
the default version, the version of composer.json is recorded when
`require.php` is a string, and the version-available predicate is set. -/
theorem phpImagePackage_resolver (ext : PlanExternals) (p : PhpProvider)
    (ctx : ProviderContext) :
    (p.phpImagePackage ext ctx).1.State.Resolver =
      (match p.readComposerJson ctx with
        | .ok composerJson =>
          match composerRequirePhp composerJson with
          | some (.string phpVersion) =>
            (ctx.State.Resolver.Default "php" DEFAULT_PHP_VERSION).1.Version
              { Name := "php" }
              (if stringsHasPrefix phpVersion "^" then stringsTrimPrefix phpVersion "^"
                else phpVersion)
              "composer.json > require > php"
          | _ => (ctx.State.Resolver.Default "php" DEFAULT_PHP_VERSION).1
        | .error _ =>
          (ctx.State.Resolver.Default "php" DEFAULT_PHP_VERSION).1).SetVersionAvailable
        { Name := "php" } (phpVersionAvailable ext) := by
  rw [phpImagePackage_eq]

/-- C31: `phpImagePackage` requests php with the default version 8.4.3, which a
request made before keeps as its default.  For every composer.json whose
`require.php` is a string `v` it records exactly one version override for
php after those recorded before, with the source
"composer.json > require > php" and the version `v` without its leading "^"
when `v` starts with "^" (`v` is then "^" followed by that version) and `v`
otherwise; when composer.json cannot be read or `require.php` is not a string
it records none.  The image step builder that it registers chooses the image
"dunglas/frankenphp:php" followed by the resolved php version and
"-bookworm", with 8.4.3 for the version when the resolved packages have no
php or a null resolved version for it, and `Build` makes that image the input
of the step. -/
theorem php_version_override (ext : PlanExternals) (p : PhpProvider) (ctx : ProviderContext) :
    (p.phpImagePackage ext ctx).1.State.Resolver.defaultVersion "php" =
      some ((ctx.State.Resolver.defaultVersion "php").getD "8.4.3") ∧
    (∀ composerJson v, ctx.State.App.ReadJSONMap "composer.json" = .ok composerJson →
      composerRequirePhp composerJson = some (.string v) →
      (p.phpImagePackage ext ctx).1.State.Resolver.overrides "php" =
        ctx.State.Resolver.overrides "php" ++
          [{ Version := if stringsHasPrefix v "^" then stringsTrimPrefix v "^" else v
             Source := "composer.json > require > php" }] ∧
      (stringsHasPrefix v "^" = true → v = "^" ++ stringsTrimPrefix v "^")) ∧
    (((∃ err, ctx.State.App.ReadJSONMap "composer.json" = .error err) ∨
        (∃ composerJson, ctx.State.App.ReadJSONMap "composer.json" = .ok composerJson ∧
          ∀ v, composerRequirePhp composerJson ≠ some (.string v))) →
      (p.phpImagePackage ext ctx).1.State.Resolver.overrides "php" =
        ctx.State.Resolver.overrides "php") ∧
    (∃ image : ImageStepBuilder,
      (p.phpImagePackage ext ctx).1.State.Steps = ctx.State.Steps ++ [.image image] ∧
      ∀ o : BuildStepOptions,
        image.ResolveStepImage o =
          "dunglas/frankenphp:php" ++ (resolvedVersion o "php").getD "8.4.3" ++ "-bookworm" ∧
        ∃ step, image.Build o = .ok step ∧
          step.Inputs = [.Image
            ("dunglas/frankenphp:php" ++ (resolvedVersion o "php").getD "8.4.3" ++
              "-bookworm")]) := by
  have hdefault := Resolver_Default_request ctx.State.Resolver "php" DEFAULT_PHP_VERSION
  have hsome : ((ctx.State.Resolver.Default "php" DEFAULT_PHP_VERSION).1.defaultVersion
      "php").isSome = true := by
    rw [hdefault.1]
    rfl
  have hversion := fun version => Resolver_Version_request
    (ctx.State.Resolver.Default "php" DEFAULT_PHP_VERSION).1 "php" version
    "composer.json > require > php" hsome
  have hdv : DEFAULT_PHP_VERSION = "8.4.3" := rfl
  have himage : ∀ o : BuildStepOptions, resolvePhpImage o =
      "dunglas/frankenphp:php" ++ (resolvedVersion o "php").getD "8.4.3" ++ "-bookworm" := by
    intro o
    simp only [resolvePhpImage, resolvedVersion, getPhpImage, hdv]
    cases hget : o.ResolvedPackages.get "php" with
    | none => rfl
    | some resolved =>
      cases hres : resolved.ResolvedVersion with
      | none => simp [hres]
      | some version => simp [hres]
  refine ⟨?_, ?_, ?_, ?_⟩
  · rw [phpImagePackage_resolver, (Resolver_SetVersionAvailable_request _ _ _).1]
    simp only [PhpProvider.readComposerJson]
    cases hread : ctx.State.App.ReadJSONMap "composer.json" with
    | error err => simpa [hdv] using hdefault.1
    | ok composerJson =>
      simp only []
      split
      · rw [(hversion _).1]
        simpa [hdv] using hdefault.1
      · simpa [hdv] using hdefault.1
  · intro composerJson v hread hphp
    refine ⟨?_, stringsTrimPrefix_append v "^"⟩
    rw [phpImagePackage_resolver, (Resolver_SetVersionAvailable_request _ _ _).2]
    simp only [PhpProvider.readComposerJson, hread, hphp]
    rw [(hversion _).2, hdefault.2]
  · intro hnone
    rw [phpImagePackage_resolver, (Resolver_SetVersionAvailable_request _ _ _).2]
    simp only [PhpProvider.readComposerJson]
    rcases hnone with ⟨err, hread⟩ | ⟨composerJson, hread, hnot⟩
    · simp only [hread]
      exact hdefault.2
    · simp only [hread]
      exact hdefault.2
  · rw [phpImagePackage_eq]
    refine ⟨_, rfl, ?_⟩
    intro o
    refine ⟨himage o, ?_⟩
    simp only [ImageStepBuilder.Build, NewStep, NewImageInput, himage]
    exact ⟨_, rfl, rfl⟩

/-- C31, witness: for the composer.json that requires php ^8.2 the one override
is 8.2; for the app without composer.json there is none and the default is
8.4.3; the image is that of 8.2.27 when php is resolved to it and that of
8.4.3 when php is not among the resolved packages. -/
theorem php_version_override_witness :
    (({} : PhpProvider).phpImagePackage samplePlanExternals
      (freshProviderContext composerApp emptyEnvironment {}
        sampleCaches)).1.State.Resolver.overrides "php" =
      [{ Version := "8.2", Source := "composer.json > require > php" }] ∧
    (({} : PhpProvider).phpImagePackage samplePlanExternals
      (freshProviderContext indexPhpApp emptyEnvironment {}
        sampleCaches)).1.State.Resolver.overrides "php" = [] ∧
    (({} : PhpProvider).phpImagePackage samplePlanExternals
      (freshProviderContext indexPhpApp emptyEnvironment {}
        sampleCaches)).1.State.Resolver.defaultVersion "php" = some "8.4.3" ∧
    resolvePhpImage phpResolvedOptions = "dunglas/frankenphp:php8.2.27-bookworm" ∧
    resolvePhpImage sampleBuildOptions = "dunglas/frankenphp:php8.4.3-bookworm" :=
  have h := php_version_override samplePlanExternals {}
    (freshProviderContext composerApp emptyEnvironment {} sampleCaches)
  have h2 := php_version_override samplePlanExternals {}
    (freshProviderContext indexPhpApp emptyEnvironment {} sampleCaches)
  ⟨((h.2.1 _ "^8.2" rfl rfl).1).trans (by decide),
    (h2.2.2.1 (Or.inl ⟨_, rfl⟩)).trans rfl,
    h2.1.trans rfl, by decide, by decide⟩

/-! ### The gradle version -/

set_option maxRecDepth 100000 in
/-- The two patterns on the sample wrapper properties: the first finds the
distribution version 8.5 in group 3, the second finds 8 in group 1 of it. -/
theorem gradle_patterns_on_sample :
    (gradleVersionRegex.FindSubmatch sampleWrapperProperties).map
        (fun submatches => submatches.get 3) = some "8.5" ∧
      (gradleParseVersionRegex.FindSubmatch "8.5").map
        (fun submatches => submatches.get 1) = some "8" := by
  constructor <;> decide

/-- On a fresh context `setGradleVersion` requests gradle with the default
version and records the version of the environment, if it is not empty, and
after it the version of the wrapper properties, if the app has them and the
two patterns match; it fails only when the wrapper properties cannot be
read. -/
theorem setGradleVersion_fresh (p : JavaProvider) (app : App) (env : Environment)
    (config : Config) (caches : CacheRegistry) :
    (p.setGradleVersion (freshProviderContext app env config caches)).1.State.Resolver.overrides
        "gradle" =
      (if env.GetConfigVariable "GRADLE_VERSION" ≠ "" then
        [{ Version := env.GetConfigVariable "GRADLE_VERSION", Source := "GRADLE_VERSION" }]
      else []) ++
      (if app.HasMatch "gradle/wrapper/gradle-wrapper.properties" then
        match app.ReadFile "gradle/wrapper/gradle-wrapper.properties" with
        | .error _ => []
        | .ok wrapperProps =>
          match gradleVersionRegex.FindSubmatch wrapperProps with
          | none => []
          | some submatches =>
            match gradleParseVersionRegex.FindSubmatch (submatches.get 3) with
            | none => []
            | some parsed =>
              [{ Version := parsed.get 1, Source := "gradle-wrapper.properties" }]
      else []) ∧
    (p.setGradleVersion (freshProviderContext app env config caches)).2 =
      (if app.HasMatch "gradle/wrapper/gradle-wrapper.properties" then
        match app.ReadFile "gradle/wrapper/gradle-wrapper.properties" with
        | .error err => some err
        | .ok _ => none
      else none) ∧
    (p.setGradleVersion (freshProviderContext app env config caches)).1.State.Resolver.defaultVersion
        "gradle" = some "8" := by
  by_cases henv : env.GetConfigVariable "GRADLE_VERSION" = ""
  · cases hmatch : app.HasMatch "gradle/wrapper/gradle-wrapper.properties" with
    | false => simp [JavaProvider.setGradleVersion, freshProviderContext,
    ProviderContext.GetMiseStepBuilder, ProviderContext.appendStep, ProviderContext.miseDefault,
    ProviderContext.miseStep, ProviderContext.updateMiseStep, modifyAt, MiseStepBuilder.Default,
    newMiseStepBuilder, Resolver.Default, ProviderContext.Version, Resolver.Version,
    Resolver.overrides, Resolver.defaultVersion, GoMap.get, GoMap.set, DEFAULT_GRADLE_VERSION,
    Regexp.Match, henv, hmatch]
    | true =>
      cases hread : app.ReadFile "gradle/wrapper/gradle-wrapper.properties" with
      | error err => simp [JavaProvider.setGradleVersion, freshProviderContext,
    ProviderContext.GetMiseStepBuilder, ProviderContext.appendStep, ProviderContext.miseDefault,
    ProviderContext.miseStep, ProviderContext.updateMiseStep, modifyAt, MiseStepBuilder.Default,
    newMiseStepBuilder, Resolver.Default, ProviderContext.Version, Resolver.Version,
    Resolver.overrides, Resolver.defaultVersion, GoMap.get, GoMap.set, DEFAULT_GRADLE_VERSION,
    Regexp.Match, henv, hmatch, hread]
      | ok wrapperProps =>
        cases hfind : gradleVersionRegex.FindSubmatch wrapperProps with
        | none => simp [JavaProvider.setGradleVersion, freshProviderContext,
    ProviderContext.GetMiseStepBuilder, ProviderContext.appendStep, ProviderContext.miseDefault,
    ProviderContext.miseStep, ProviderContext.updateMiseStep, modifyAt, MiseStepBuilder.Default,
    newMiseStepBuilder, Resolver.Default, ProviderContext.Version, Resolver.Version,
    Resolver.overrides, Resolver.defaultVersion, GoMap.get, GoMap.set, DEFAULT_GRADLE_VERSION,
    Regexp.Match, henv, hmatch, hread, hfind]
        | some submatches =>
          cases hparse : gradleParseVersionRegex.FindSubmatch (submatches.get 3) with
          | none => simp [JavaProvider.setGradleVersion, freshProviderContext,
    ProviderContext.GetMiseStepBuilder, ProviderContext.appendStep, ProviderContext.miseDefault,
    ProviderContext.miseStep, ProviderContext.updateMiseStep, modifyAt, MiseStepBuilder.Default,
    newMiseStepBuilder, Resolver.Default, ProviderContext.Version, Resolver.Version,
    Resolver.overrides, Resolver.defaultVersion, GoMap.get, GoMap.set, DEFAULT_GRADLE_VERSION,
    Regexp.Match, henv, hmatch, hread, hfind, hparse]
          | some parsed => simp [JavaProvider.setGradleVersion, freshProviderContext,
    ProviderContext.GetMiseStepBuilder, ProviderContext.appendStep, ProviderContext.miseDefault,
    ProviderContext.miseStep, ProviderContext.updateMiseStep, modifyAt, MiseStepBuilder.Default,
    newMiseStepBuilder, Resolver.Default, ProviderContext.Version, Resolver.Version,
    Resolver.overrides, Resolver.defaultVersion, GoMap.get, GoMap.set, DEFAULT_GRADLE_VERSION,
    Regexp.Match, henv, hmatch, hread, hfind, hparse]
  · cases hmatch : app.HasMatch "gradle/wrapper/gradle-wrapper.properties" with
    | false => simp [JavaProvider.setGradleVersion, freshProviderContext,
    ProviderContext.GetMiseStepBuilder, ProviderContext.appendStep, ProviderContext.miseDefault,
    ProviderContext.miseStep, ProviderContext.updateMiseStep, modifyAt, MiseStepBuilder.Default,
    newMiseStepBuilder, Resolver.Default, ProviderContext.Version, Resolver.Version,
    Resolver.overrides, Resolver.defaultVersion, GoMap.get, GoMap.set, DEFAULT_GRADLE_VERSION,
    Regexp.Match, henv, hmatch]
    | true =>
      cases hread : app.ReadFile "gradle/wrapper/gradle-wrapper.properties" with
      | error err => simp [JavaProvider.setGradleVersion, freshProviderContext,
    ProviderContext.GetMiseStepBuilder, ProviderContext.appendStep, ProviderContext.miseDefault,
    ProviderContext.miseStep, ProviderContext.updateMiseStep, modifyAt, MiseStepBuilder.Default,
    newMiseStepBuilder, Resolver.Default, ProviderContext.Version, Resolver.Version,
    Resolver.overrides, Resolver.defaultVersion, GoMap.get, GoMap.set, DEFAULT_GRADLE_VERSION,
    Regexp.Match, henv, hmatch, hread]
      | ok wrapperProps =>
        cases hfind : gradleVersionRegex.FindSubmatch wrapperProps with
        | none => simp [JavaProvider.setGradleVersion, freshProviderContext,
    ProviderContext.GetMiseStepBuilder, ProviderContext.appendStep, ProviderContext.miseDefault,
    ProviderContext.miseStep, ProviderContext.updateMiseStep, modifyAt, MiseStepBuilder.Default,
    newMiseStepBuilder, Resolver.Default, ProviderContext.Version, Resolver.Version,
    Resolver.overrides, Resolver.defaultVersion, GoMap.get, GoMap.set, DEFAULT_GRADLE_VERSION,
    Regexp.Match, henv, hmatch, hread, hfind]
        | some submatches =>
          cases hparse : gradleParseVersionRegex.FindSubmatch (submatches.get 3) with
          | none => simp [JavaProvider.setGradleVersion, freshProviderContext,
    ProviderContext.GetMiseStepBuilder, ProviderContext.appendStep, ProviderContext.miseDefault,
    ProviderContext.miseStep, ProviderContext.updateMiseStep, modifyAt, MiseStepBuilder.Default,
    newMiseStepBuilder, Resolver.Default, ProviderContext.Version, Resolver.Version,
    Resolver.overrides, Resolver.defaultVersion, GoMap.get, GoMap.set, DEFAULT_GRADLE_VERSION,
    Regexp.Match, henv, hmatch, hread, hfind, hparse]
          | some parsed => simp [JavaProvider.setGradleVersion, freshProviderContext,
    ProviderContext.GetMiseStepBuilder, ProviderContext.appendStep, ProviderContext.miseDefault,
    ProviderContext.miseStep, ProviderContext.updateMiseStep, modifyAt, MiseStepBuilder.Default,
    newMiseStepBuilder, Resolver.Default, ProviderContext.Version, Resolver.Version,
    Resolver.overrides, Resolver.defaultVersion, GoMap.get, GoMap.set, DEFAULT_GRADLE_VERSION,
    Regexp.Match, henv, hmatch, hread, hfind, hparse]

/-- Without wrapper properties in the app, the version of a non-empty
RAILPACK_GRADLE_VERSION is the one override recorded for gradle on a fresh
context, and `setGradleVersion` returns no error. -/
theorem setGradleVersion_without_wrapper (p : JavaProvider) (app : App) (env : Environment)
    (config : Config) (caches : CacheRegistry)
    (henv : env.GetConfigVariable "GRADLE_VERSION" ≠ "")
    (hwrapper : app.HasMatch "gradle/wrapper/gradle-wrapper.properties" = false) :
    (p.setGradleVersion (freshProviderContext app env config caches)).2 = none ∧
      (p.setGradleVersion (freshProviderContext app env config
        caches)).1.State.Resolver.lastOverride "gradle" =
        some { Version := env.GetConfigVariable "GRADLE_VERSION", Source := "GRADLE_VERSION" } := by
  have h := setGradleVersion_fresh p app env config caches
  refine ⟨?_, ?_⟩
  · rw [h.2.1]
    simp [hwrapper]
  · rw [Resolver.lastOverride, h.1]
    simp [henv, hwrapper]

/-- With wrapper properties in which the two patterns find a version, the
override recorded last for gradle on a fresh context is that version with the
source gradle-wrapper.properties, whatever RAILPACK_GRADLE_VERSION holds. -/
theorem setGradleVersion_with_wrapper (p : JavaProvider) (app : App) (env : Environment)
    (config : Config) (caches : CacheRegistry) (wrapperProps : String)
    (submatches parsed : Submatches)
    (hwrapper : app.HasMatch "gradle/wrapper/gradle-wrapper.properties" = true)
    (hread : app.ReadFile "gradle/wrapper/gradle-wrapper.properties" = .ok wrapperProps)
    (hfind : gradleVersionRegex.FindSubmatch wrapperProps = some submatches)
    (hparse : gradleParseVersionRegex.FindSubmatch (submatches.get 3) = some parsed) :
    (p.setGradleVersion (freshProviderContext app env config caches)).2 = none ∧
      (p.setGradleVersion (freshProviderContext app env config
        caches)).1.State.Resolver.lastOverride "gradle" =
        some { Version := parsed.get 1, Source := "gradle-wrapper.properties" } := by
  have h := setGradleVersion_fresh p app env config caches
  refine ⟨?_, ?_⟩
  · rw [h.2.1]
    simp [hwrapper, hread]
  · rw [Resolver.lastOverride, h.1]
    simp [hwrapper, hread, hfind, hparse]

set_option maxRecDepth 100000 in
/-- C32 fails: for the Gradle app whose gradle-wrapper.properties names the
distribution gradle-8.5 and the environment with RAILPACK_GRADLE_VERSION=7, on
a fresh context `setGradleVersion` returns no error and records two overrides
for gradle, first 7 with the source GRADLE_VERSION and then 8 with the source
gradle-wrapper.properties: the override recorded last is the version of the
wrapper properties, not the value of the variable. -/
theorem gradle_wrapper_overrides_environment :
    (freshProviderContext gradleWrapperApp gradleVersionEnvironment {}
      sampleCaches).State.Env.GetConfigVariable "GRADLE_VERSION" = "7" ∧
    (({} : JavaProvider).setGradleVersion
      (freshProviderContext gradleWrapperApp gradleVersionEnvironment {} sampleCaches)).2 =
      none ∧
    (({} : JavaProvider).setGradleVersion
      (freshProviderContext gradleWrapperApp gradleVersionEnvironment {}
        sampleCaches)).1.State.Resolver.overrides "gradle" =
      [ { Version := "7", Source := "GRADLE_VERSION" },
        { Version := "8", Source := "gradle-wrapper.properties" } ] ∧
    (({} : JavaProvider).setGradleVersion
      (freshProviderContext gradleWrapperApp gradleVersionEnvironment {}
        sampleCaches)).1.State.Resolver.lastOverride "gradle" =
      some { Version := "8", Source := "gradle-wrapper.properties" } := by
  refine ⟨by decide, by decide, by decide, by decide⟩

end Railpack
